import Mathlib

/-! The configuration manager of jzIntv (`src/cfg/cfg.c`): the key-binding compiler,
the parser of the display resolution and the assembly of the peripheral bus.

A shallow embedding of `cfg_get_evtact`, `cfg_setbind`, `cfg_parseres` and of
the part of `cfg_init` that constructs the peripherals and registers them on
the bus, with the properties of the binding compiler and of the bus proved
about it.

Conventions.  A C string is the list of its characters up to, not
including, the terminating NUL.  `int` values are integers; the only places
where the range of `int` matters are `atoi` and the conversion `%d` of
`sscanf`.  The keyboard map file reaches `cfg_setbind` as the buffers that
`lzoe_fgets(buf, 256, f)` returns: a line of at most 255 characters, its
terminator counted, is one buffer, a longer line comes in pieces.
-/

set_option autoImplicit false

namespace Cfg

/-! ## The action registry -/

/-- One row of `cfg_event_action[]`: the action name, the target word
(register selector, a pointer in C, here an identifier) and the two masks. -/
structure cfg_evtact_t where
  name : List Char
  word : Nat
  and_mask : Nat
  or_mask : Nat
deriving DecidableEq, Repr

instance : Inhabited cfg_evtact_t := ⟨⟨[], 0, 0, 0⟩⟩

/-- The loop of `cfg_get_evtact`, started at index `i` over the rows not yet
visited: `for (; i < cnt; i++) if (!strcmp(tbl[i].name, name)) return i;`
followed by `return -1`. -/
def cfg_get_evtact_from : List cfg_evtact_t → Nat → List Char → Int
  | [], _, _ => -1
  | e :: es, i, name =>
      if e.name = name then (i : Int) else cfg_get_evtact_from es (i + 1) name

/-- The function `cfg_get_evtact`: linear search of the action table `cfg_event_action`
(with `cfg_event_action_cnt` its length) for an action name. -/
def cfg_get_evtact (cfg_event_action : List cfg_evtact_t) (event_action_name : List Char) : Int :=
  cfg_get_evtact_from cfg_event_action 0 event_action_name

/-! ## C library functions used by `cfg_setbind` -/

/-- The function `isspace` of `<ctype.h>` in the C locale: space, `\t`, `\n`, `\v`, `\f`, `\r`. -/
def isspace (c : Char) : Bool :=
  c == ' ' || c == '\t' || c == '\n' || c == Char.ofNat 11 || c == Char.ofNat 12 || c == '\r'

/-- The digit loop of `atoi`: accumulates the decimal value of the leading digits. -/
def atoi_digits : List Char → Nat → Nat
  | [], acc => acc
  | c :: s, acc => if c.isDigit then atoi_digits s (10 * acc + (c.toNat - 48)) else acc

/-- Conversion of an integer to `int` (32 bits, two's complement). -/
def to_int32 (n : Int) : Int := (n + 2147483648) % 4294967296 - 2147483648

/-- The function `atoi` of `<stdlib.h>`: it skips leading white space, reads an optional sign and
the decimal digits that follow, and ignores the rest.  For a value that does not
fit `int` C leaves the result undefined; the model wraps it to 32 bits, and the
properties that depend on the number read are stated for numerals that fit
`int` (`fits_int`), for which the result is the number that the numeral
denotes (`atoi_value`). -/
def atoi (s : List Char) : Int :=
  match s.dropWhile isspace with
  | '-' :: t => to_int32 (-(atoi_digits t 0 : Int))
  | '+' :: t => to_int32 (atoi_digits t 0 : Int)
  | t => to_int32 (atoi_digits t 0 : Int)

/-- Modelled from the spec: `stricmp` (plat/plat_lib, whose source is not part of
`cfg.c`) compares two strings ignoring ASCII case ("case-insensitive keywords").
It returns 0 exactly when they agree; `cfg_setbind` only tests the result
against 0, so a non-zero result is always given as 1. -/
def stricmp (a b : List Char) : Int :=
  if a.map Char.toLower = b.map Char.toLower then 0 else 1

/-- The effect of `if ((s1 = strrchr(buf, c))) *s1 = 0;`: the string is cut at the
LAST occurrence of `c`, and left alone when `c` does not occur. -/
def strrchr_cut (c : Char) : List Char → List Char
  | [] => []
  | x :: s => if c ∈ s then x :: strrchr_cut c s else if x = c then [] else x :: s

/-! ## The event subsystem, as seen from `cfg_setbind` -/

/-- One call `event_map(&cfg->event, key, map, word, and_mask, or_mask)`. -/
structure event_binding where
  key : List Char
  map : Int
  word : Nat
  and_mask : Nat
  or_mask : Nat
deriving DecidableEq, Repr

/-- The part of `event_t` that `cfg_setbind` acts on: the bindings made by
`event_map` (oldest first), the combo registrations kept by `event_combine`
(of a type `κ` the event subsystem chooses) and the field `coalesce_time`
(a `double`, of a type `D` left abstract). -/
structure event_t (κ D : Type) where
  bind : List event_binding
  combo : κ
  coalesce_time : D
deriving DecidableEq

/-- Modelled from the spec: `event_map` (event/event.c, whose source is not part
of `cfg.c`) records the binding (key, map) → (selector, and-mask, or-mask) in
the event binding table.  Its return value is ignored by `cfg_setbind`. -/
def event_map {κ D : Type} (event : event_t κ D) (key : List Char) (map : Int)
    (word and_mask or_mask : Nat) : event_t κ D :=
  { event with bind := event.bind ++ [⟨key, map, word, and_mask, or_mask⟩] }

/-- What `cfg_setbind` takes from outside `cfg.c`: `event_combine` (result: the new
combo registrations and the returned `int`, non-zero on failure), `atof`, and the
three operations on `double` it uses on the result of `atof`. -/
structure env (κ D : Type) where
  event_combine : κ → List Char → List Char → Int → κ × Int
  atof : List Char → D
  /-- The test `ms < 0.`. -/
  lt_zero : D → Bool
  /-- The test `ms > 100.`. -/
  gt_hundred : D → Bool
  /-- The quotient `ms / 1000.`. -/
  div_thousand : D → D

/-- One row of the default binding table `cfg->binding[]`: the key name and the
four action names, one per map; `none` is a NULL pointer. -/
structure cfg_kbd_t where
  key : List Char
  event_action : Fin 4 → Option (List Char)

/-! ## `cfg_setbind`: the default table -/

/-- The body of the inner loop `for (j = 0; j < 4; j++)` for row `b` and slot `j`. -/
def cfg_setbind_slot {κ D : Type} (cfg_event_action : List cfg_evtact_t) (b : cfg_kbd_t)
    (event : event_t κ D) (j : Fin 4) : event_t κ D :=
  match b.event_action j with
  | none => event
  | some nm =>
      if nm = [] then event
      else
        let action := cfg_get_evtact cfg_event_action nm
        if action < 0 then event
        else
          let a := cfg_event_action.getD action.toNat default
          event_map event b.key (j.val : Int) a.word a.and_mask a.or_mask

/-- The inner loop over the four maps of one row. -/
def cfg_setbind_row {κ D : Type} (cfg_event_action : List cfg_evtact_t)
    (event : event_t κ D) (b : cfg_kbd_t) : event_t κ D :=
  ([0, 1, 2, 3] : List (Fin 4)).foldl (cfg_setbind_slot cfg_event_action b) event

/-- The outer loop `for (i = 0; cfg->binding[i].key != NULL; i++)`; `binding` holds
the rows before the terminating row. -/
def cfg_setbind_defaults {κ D : Type} (cfg_event_action : List cfg_evtact_t)
    (binding : List cfg_kbd_t) (event : event_t κ D) : event_t κ D :=
  binding.foldl (cfg_setbind_row cfg_event_action) event

/-! ## `cfg_setbind`: one line of the keyboard map file -/

/-- The loop `while (*s1 && !isspace(*s1) && s2 < &fld[255]) *s2++ = *s1++;` with
room for `n` more characters: the characters copied and the new `s1`. -/
def copy_field : Nat → List Char → List Char × List Char
  | 0, s => ([], s)
  | _ + 1, [] => ([], [])
  | n + 1, c :: s =>
      if isspace c then ([], c :: s)
      else ((copy_field n s).1.cons c, (copy_field n s).2)

/-- The local variables of the loop body once the line has been split. -/
structure tokens where
  cmd : List Char
  arg : List Char
  arg2 : List Char
  arg3 : List Char
  bad : Nat
  too_many : Bool
deriving DecidableEq, Repr

/-- The three truncations at the head of the loop body: at the last `;`, then at
the last `\r`, then at the last `\n`. -/
def chop (buf : List Char) : List Char :=
  strrchr_cut '\n' (strrchr_cut '\r' (strrchr_cut ';' buf))

/-- The splitting of the truncated buffer into `cmd`, `arg`, `arg2`, `arg3`: four
times, white space is skipped and a field is copied; `bad` is the number of the
last field that filled its array, and `too_many` tells whether anything but
white space is left where `s1` stops. -/
def tokenize (buf : List Char) : tokens :=
  let f1 := copy_field 255 (buf.dropWhile isspace)
  let bad1 := if 255 ≤ f1.1.length then 1 else 0
  let f2 := copy_field 255 (f1.2.dropWhile isspace)
  let bad2 := if 255 ≤ f2.1.length then 2 else bad1
  let f3 := copy_field 255 (f2.2.dropWhile isspace)
  let bad3 := if 255 ≤ f3.1.length then 3 else bad2
  let f4 := copy_field 255 (f3.2.dropWhile isspace)
  let bad4 := if 255 ≤ f4.1.length then 4 else bad3
  let s1 := f4.2.dropWhile isspace
  { cmd := f1.1, arg := f2.1, arg2 := f3.1, arg3 := f4.1, bad := bad4,
    too_many := !s1.isEmpty }

/-- How one pass through the body of the `while` loop ends: `continue` (or falling
off the end of the body) with the new `map` and event state, or `goto fail`. -/
inductive step (κ D : Type) where
  | next (map : Int) (event : event_t κ D)
  | fail (event : event_t κ D)
deriving DecidableEq

/-- The part of the loop body that follows the splitting of the line, from
`if (bad)` to the call of `event_map`. -/
def cfg_setbind_dispatch {κ D : Type} (e : env κ D) (cfg_event_action : List cfg_evtact_t)
    (map : Int) (event : event_t κ D) (t : tokens) : step κ D :=
  if t.bad ≠ 0 then .fail event
  else if !t.too_many && stricmp t.cmd "add_combo".toList = 0 then
    let j := atoi t.arg
    if j > 31 ∨ j < 0 then .fail event
    else
      let r := e.event_combine event.combo t.arg2 t.arg3 j
      if r.2 ≠ 0 then .fail { event with combo := r.1 }
      else .next map { event with combo := r.1 }
  else if t.arg2 ≠ [] ∨ t.arg3 ≠ [] ∨ t.too_many then .fail event
  else if stricmp t.cmd "combo_delay".toList = 0 then
    let ms := e.atof t.arg
    if e.lt_zero ms || e.gt_hundred ms then .fail event
    else .next map { event with coalesce_time := e.div_thousand ms }
  else if stricmp t.cmd "map".toList = 0 then
    let map' := atoi t.arg
    if map' < 0 ∨ map' > 3 then .fail event
    else .next map' event
  else if t.cmd = [] ∨ t.arg = [] then
    if t.cmd ≠ [] then .fail event
    else .next map event
  else
    let action := cfg_get_evtact cfg_event_action t.arg
    if action < 0 then .fail event
    else
      let a := cfg_event_action.getD action.toNat default
      .next map (event_map event t.cmd map a.word a.and_mask a.or_mask)

/-- The body of the loop `while (lzoe_fgets(buf, 256, f) != NULL)` for one buffer. -/
def cfg_setbind_line {κ D : Type} (e : env κ D) (cfg_event_action : List cfg_evtact_t)
    (map : Int) (event : event_t κ D) (buf : List Char) : step κ D :=
  cfg_setbind_dispatch e cfg_event_action map event (tokenize (chop buf))

/-! ## `cfg_setbind` -/

/-- The `while` loop over the buffers that successive calls of `lzoe_fgets` return,
entered with `map` and the event state: it ends at end of file (`next`, with the
last `map`) or at the first line that goes to `fail`. -/
def cfg_setbind_loop {κ D : Type} (e : env κ D) (cfg_event_action : List cfg_evtact_t) :
    Int → event_t κ D → List (List Char) → step κ D
  | map, event, [] => .next map event
  | map, event, buf :: rest =>
      match cfg_setbind_line e cfg_event_action map event buf with
      | .next map' event' => cfg_setbind_loop e cfg_event_action map' event' rest
      | .fail event' => .fail event'

/-- The argument `kbdhackfile` together with what the file system answers. -/
inductive kbdhack where
  /-- The null pointer, `kbdhackfile == NULL`. -/
  | null
  /-- A file name for which `lzoe_fopen` fails. -/
  | unreadable
  /-- A file that opens; `bufs` are the buffers that successive calls of
  `lzoe_fgets(buf, 256, f)` return before end of file. -/
  | lines (bufs : List (List Char))

/-- How a call of `cfg_setbind` ends. -/
inductive outcome where
  | ret (value : Int)
  | exit (status : Int)
deriving DecidableEq, Repr

/-- The function `cfg_setbind`: it seeds the bindings from the default table `cfg->binding`, then
overlays the keyboard map file, if one is given. -/
def cfg_setbind {κ D : Type} (e : env κ D) (cfg_event_action : List cfg_evtact_t)
    (binding : List cfg_kbd_t) (event : event_t κ D) (kbdhackfile : kbdhack) :
    outcome × event_t κ D :=
  let event := cfg_setbind_defaults cfg_event_action binding event
  match kbdhackfile with
  | .null => (.ret 0, event)
  | .unreadable => (.exit 1, event)
  | .lines bufs =>
      match cfg_setbind_loop e cfg_event_action 0 event bufs with
      | .next _ event' => (.ret 0, event')
      | .fail event' => (.ret (-1), event')

/-! ## The grammar of a line, as the specification words it -/

/-- The whitespace-separated fields of a line: the line is split at every white
space character and the empty pieces are dropped, which leaves its maximal runs
of characters that are not white space, in order. -/
def fields (s : List Char) : List (List Char) :=
  (s.splitOnP isspace).filter (fun f => !f.isEmpty)


/-- Whether a field is one of the command keywords `ADD_COMBO`, `COMBO_DELAY`,
`MAP`, in any mixture of upper and lower case. -/
def is_keyword (c : List Char) : Bool :=
  stricmp c "add_combo".toList = 0 || stricmp c "combo_delay".toList = 0 ||
    stricmp c "map".toList = 0

/-- The registry entry that `cfg_get_evtact` finds for an action name, as
`cfg_setbind` reads it: `cfg_event_action[cfg_get_evtact(name)]`. -/
def found_action (cfg_event_action : List cfg_evtact_t) (name : List Char) : cfg_evtact_t :=
  cfg_event_action.getD (cfg_get_evtact cfg_event_action name).toNat default

/-- The event state with which a pass through the loop body ends. -/
def step.event {κ D : Type} : step κ D → event_t κ D
  | .next _ event => event
  | .fail event => event

/-- The map number that a `MAP n` line gives, reading the claim "the most recent
preceding `MAP n` line" by the letter: the line has exactly the two fields `MAP`
and `n`, and `n` is read as `atoi` reads it; `none` for any other line. -/
def map_number_two_fields (buf : List Char) : Option Int :=
  match fields (chop buf) with
  | [c, a] => if stricmp c "map".toList = 0 then some (atoi a) else none
  | _ => none

/-- The map that the letter of the claim selects after the lines `pre`: the number
of the most recent `MAP n` line, and 0 if there is none. -/
def claimed_map (pre : List (List Char)) : Int :=
  pre.foldl (fun m buf => (map_number_two_fields buf).getD m) 0

/-- The map number that a `MAP` line gives: the line has at most two fields, the
first is `MAP`, and the number is what `atoi` makes of the second field, which is
0 when that field is missing or does not start with a number; `none` for any
other line. -/
def map_number (buf : List Char) : Option Int :=
  if (fields (chop buf)).length ≤ 2 ∧ stricmp ((fields (chop buf)).getD 0 []) "map".toList = 0
  then some (atoi ((fields (chop buf)).getD 1 []))
  else none

/-- The map selected after the lines `pre`, starting from map `m`: the number of
the most recent `MAP` line, and `m` if there is none. -/
def selected_map (m : Int) (pre : List (List Char)) : Int :=
  pre.foldl (fun m buf => (map_number buf).getD m) m

/-! ## The combo registry, as the specification words it -/

/-- A registered chord: ComboDefinition{id, baseA, baseB}. -/
structure combo_def where
  id : Int
  base_a : List Char
  base_b : List Char
deriving DecidableEq, Repr

/-- Modelled from the spec: `event_combine` (event/event.c, whose source is not
part of `cfg.c`) registers the chord `id` over the two base events; "id out of
0..31 or already used ⇒ fatal", that is, it returns non-zero and registers
nothing when `id` is outside 0..31 or a chord with this id is registered. -/
def event_combine_spec (combos : List combo_def) (a b : List Char) (id : Int) :
    List combo_def × Int :=
  if id < 0 ∨ 31 < id ∨ id ∈ combos.map combo_def.id then (combos, -1)
  else (combos ++ [⟨id, a, b⟩], 0)

/-! ## A sample configuration -/

/-- A small action registry; the name `FIRE` occurs twice. -/
def sample_actions : List cfg_evtact_t :=
  [⟨"FIRE".toList, 1, 255, 4⟩, ⟨"UP".toList, 2, 15, 1⟩, ⟨"FIRE".toList, 3, 0, 0⟩]

/-- A sample environment: the combo registry is the one the specification
describes, and a `double` is stood for by a whole number of milliseconds. -/
def sample_env : env (List combo_def) Int where
  event_combine := event_combine_spec
  atof := atoi
  lt_zero := fun ms => decide (ms < 0)
  gt_hundred := fun ms => decide (100 < ms)
  div_thousand := fun ms => ms

/-- An event state with no binding and no combo. -/
def sample_event : event_t (List combo_def) Int := ⟨[], [], 0⟩

/-- A default binding table of two rows; slot 1 of the first row names an action
that `sample_actions` does not have. -/
def sample_binding : List cfg_kbd_t :=
  [⟨"A".toList, fun j => if j = 0 then some "FIRE".toList else if j = 1 then some "FOO".toList
      else none⟩,
   ⟨"B".toList, fun j => if j = 2 then some "UP".toList else none⟩]

/-- The devices that `cfg_init` puts on the bus: the members of `cfg_t` that it
hands to `periph_register` (`stic_cr`, `snoop_btab`, `snoop_gram` are members of
`cfg->stic`), and `game k` for the `k`-th device that `legacy_register` or
`icart_register` puts there. -/
inductive device where
  | cp1600 | psg0 | psg1 | ivoice | gfx | snd | scr_ram | sys_ram | sys_ram2
  | exec | exec2 | ecs_ram | ecs0 | ecs1 | ecs2 | pad0 | pad1
  | i2pc0 | i2pc1 | cgc0 | cgc1 | stic_cr | snoop_btab | snoop_gram
  | event | speed | debug
  | game (k : Nat)
deriving DecidableEq, Repr

/-- A peripheral descriptor: the device handle, the address window
`addr_lo`..`addr_hi` (both ends included) and the name. -/
structure periph_desc where
  dev : device
  addr_lo : Nat
  addr_hi : Nat
  name : String
deriving DecidableEq, Repr

/-- Modelled from the spec: `periph_register` (periph/periph.c, whose source is
not part of `cfg.c`) appends one descriptor to the bus, which is an
"append-ordered descriptor sequence".  Its return value is ignored by
`cfg_init`. -/
def periph_register (bus : List periph_desc) (dev : device) (addr_lo addr_hi : Nat)
    (name : String) : List periph_desc :=
  bus ++ [⟨dev, addr_lo, addr_hi, name⟩]

/-- The calls of `cfg_init`, between "Initialize the peripherals" and the
registration on the bus, whose non-zero result is tested: named after the
member of `cfg_t` they construct, or after the subsystem (`emu_link_init`,
`elfi_init`, `demo_init`, `joy_init`, `event_init`, `cfg_setbind`); `ecs_img`
is the reading of the ECS ROM image. -/
inductive call where
  | i2pc0 | i2pc1 | cgc0 | cgc1 | emu_link | elfi | demo | gfx | snd | cp1600
  | scr_ram | sys_ram | sys_ram2 | stic | ecs_img | ecs0 | ecs1 | ecs2 | ecs_ram
  | psg0 | psg1 | pad0 | pad1 | speed | debug | joy | event | setbind | ivoice
  | exec | exec2
deriving DecidableEq, Repr

/-- The members of `cfg_t` that decide which peripherals exist, as they stand
when the peripherals are initialised; `rate_ctl_pos` is the result of the test
`cfg->rate_ctl > 0.0` on the `double` member `rate_ctl`. -/
structure cfg_t where
  gui_mode : Int
  debugging : Int
  ecs_enable : Int
  ivc_enable : Int
  audio_rate : Int
  i2pc0_port : Int
  i2pc1_port : Int
  cgc0_num : Int
  cgc1_num : Int
  rate_ctl_pos : Bool
deriving DecidableEq, Repr

/-- What `cfg_init` takes from outside the members of `cfg_t`: whether it is
compiled with `DIRECT_INTV2PC`, its locals `exec_type` and `legacy_rom` as the
reading of the ROM images left them, whether `elfi_prefix` and `demofile` are
set, which of the calls return non-zero, and the windows and names of the
descriptors that `legacy_register` and `icart_register` put on the bus. -/
structure init_env where
  direct_intv2pc : Bool
  exec_type : Int
  legacy_rom : Int
  elfi_prefix : Bool
  demofile : Bool
  fails : call → Bool
  legacy : List (Nat × Nat × String)
  icart : List (Nat × Nat × String)

/-- The registration of the game: what `legacy_register` or `icart_register`
appends, each descriptor with a device of the game. -/
def game_register (bus : List periph_desc) (descs : List (Nat × Nat × String)) :
    List periph_desc :=
  bus ++ descs.enum.map (fun d => ⟨.game d.1, d.2.1, d.2.2.1, d.2.2.2⟩)

/-- The statement `if (cfg->gui_mode) cfg->debugging = 0;`. -/
def cfg_init_gui (c : cfg_t) : cfg_t :=
  if c.gui_mode ≠ 0 then { c with debugging := 0 } else c

/-- The initialisation of the sound: a failure of `snd_init` is a warning, and
sets `cfg->audio_rate` to 0. -/
def cfg_init_snd (w : init_env) (c : cfg_t) : cfg_t :=
  if c.audio_rate ≠ 0 ∧ w.fails .snd = true then { c with audio_rate := 0 } else c

/-- The registration of the devices on the bus, from the `periph_register` of the
CPU to that of the debugger, on the bus that `periph_new` made. -/
def cfg_init_register (w : init_env) (c : cfg_t) : List periph_desc :=
  let bus : List periph_desc := []
  let bus := periph_register bus .cp1600 0x0000 0x0000 "CP-1610"
  let bus := periph_register bus .psg0 0x01F0 0x01FF "PSG0 AY8914"
  let bus := if c.ecs_enable > 0 then periph_register bus .psg1 0x00F0 0x00FF "PSG1 AY8914"
    else bus
  let bus := if c.ivc_enable > 0 ∧ c.audio_rate ≠ 0 then
      periph_register bus .ivoice 0x0080 0x0081 "Int. Voice"
    else bus
  let bus := periph_register bus .gfx 0x0000 0x0000 "[Graphics]"
  let bus := if c.audio_rate ≠ 0 then periph_register bus .snd 0x0000 0x0000 "[Sound]"
    else bus
  let bus := periph_register bus .scr_ram 0x0100 0x01EF "Scratch RAM"
  let bus := periph_register bus .sys_ram 0x0200 0x035F "System RAM"
  let bus := if w.exec_type ≠ 0 then periph_register bus .sys_ram2 0x0360 0x03FF "System RAM B"
    else bus
  let bus := if w.exec_type = 0 then periph_register bus .exec 0x1000 0x1FFF "EXEC ROM"
    else periph_register (periph_register bus .exec 0x1000 0x1FFF "EXEC2 main")
      .exec2 0x0400 0x04FF "EXEC2 aux."
  let bus := if c.ecs_enable > 0 then
      periph_register (periph_register (periph_register
        (periph_register bus .ecs_ram 0x4000 0x47FF "ECS RAM")
        .ecs0 0x2000 0x2FFF "ECS ROM (2xxx)")
        .ecs1 0x7000 0x7FFF "ECS ROM (7xxx)")
        .ecs2 0xE000 0xEFFF "ECS ROM (Exxx)"
    else bus
  let bus := periph_register bus .pad0 0x01F0 0x01FF "Pad Pair 0"
  let bus := if c.ecs_enable > 0 then periph_register bus .pad1 0x00F0 0x00FF "Pad Pair 1"
    else bus
  let bus := if c.i2pc0_port ≠ 0 then periph_register bus .i2pc0 0x01F0 0x01FF "INTV2PC #0"
    else bus
  let bus := if c.i2pc1_port ≠ 0 ∧ c.ecs_enable > 0 then
      periph_register bus .i2pc1 0x00F0 0x00FF "INTV2PC #1"
    else bus
  let bus := if c.cgc0_num ≥ 0 then periph_register bus .cgc0 0x01F0 0x01FF "CGC #0"
    else bus
  let bus := if c.cgc1_num ≥ 0 ∧ c.ecs_enable > 0 then
      periph_register bus .cgc1 0x00F0 0x00FF "CGC #1"
    else bus
  let bus := periph_register bus .stic_cr 0x0000 0x007F "STIC"
  let bus := periph_register bus .stic_cr 0x4000 0x403F "STIC (alias)"
  let bus := periph_register bus .stic_cr 0x8000 0x803F "STIC (alias)"
  let bus := periph_register bus .stic_cr 0xC000 0xC03F "STIC (alias)"
  let bus := periph_register bus .snoop_btab 0x0200 0x02EF "STIC (BTAB)"
  let bus := periph_register bus .snoop_gram 0x3000 0x3FFF "STIC (GRAM)"
  let bus := periph_register bus .event 0x0000 0x0000 "[Event]"
  let bus := if c.rate_ctl_pos then periph_register bus .speed 0x0000 0x0000 "[Rate Ctrl]"
    else bus
  let bus := if w.legacy_rom ≠ 0 then game_register bus w.legacy
    else game_register bus w.icart
  let bus := if c.debugging ≠ 0 then periph_register bus .debug 0x0000 0xFFFF "[Debugger]"
    else bus
  bus

/-- How `cfg_init` ends: `exit(status)`, or the return of `value` with the members
of `cfg_t` as it leaves them and the bus it assembled. -/
inductive init_outcome where
  | exit (status : Int)
  | ret (value : Int) (cfg : cfg_t) (bus : List periph_desc)
deriving DecidableEq, Repr

/-- The function `cfg_init`, from the statement that turns the debugger off in GUI
mode, then from "Initialize the peripherals" to its end.  The steps in between
(resolution, ROM images, game) are not modelled: they can end the process, and
they set the members of `cfg_t` and the locals that are the input here; none of
them touches `cfg->debugging`. -/
def cfg_init (w : init_env) (c : cfg_t) : init_outcome :=
  let c := cfg_init_gui c
  if w.direct_intv2pc = true ∧ c.i2pc0_port > 0 ∧ w.fails .i2pc0 = true then .exit 1
  else if w.direct_intv2pc = true ∧ c.ecs_enable > 0 ∧ c.i2pc1_port ≠ 0 ∧
      w.fails .i2pc1 = true then .exit 1
  else if c.cgc0_num ≥ 0 ∧ w.fails .cgc0 = true then .exit 1
  else if c.ecs_enable > 0 ∧ c.cgc1_num ≥ 0 ∧ w.fails .cgc1 = true then .exit 1
  else if w.fails .emu_link = true then .exit 1
  else if w.elfi_prefix = true ∧ w.fails .elfi = true then .exit 1
  else if w.demofile = true ∧ w.fails .demo = true then .exit 1
  else if w.fails .gfx = true then .exit 1
  else
    let c := cfg_init_snd w c
    if w.fails .cp1600 = true then .exit 1
    else if w.fails .scr_ram = true ∨ w.fails .sys_ram = true then .exit 1
    else if w.exec_type ≠ 0 ∧ w.fails .sys_ram2 = true then .exit 1
    else if w.fails .stic = true then .exit 1
    else if c.ecs_enable > 0 ∧ w.fails .ecs_img = true then .exit 1
    else if c.ecs_enable > 0 ∧
        (w.fails .ecs0 = true ∨ w.fails .ecs1 = true ∨ w.fails .ecs2 = true) then .exit 1
    else if c.ecs_enable > 0 ∧ w.fails .ecs_ram = true then .exit 1
    else if w.fails .psg0 = true then .exit 1
    else if c.ecs_enable > 0 ∧ w.fails .psg1 = true then .exit 1
    else if w.fails .pad0 = true then .exit 1
    else if c.ecs_enable > 0 ∧ w.fails .pad1 = true then .exit 1
    else if c.rate_ctl_pos = true ∧ w.fails .speed = true then .exit 1
    else if c.debugging ≠ 0 ∧ w.fails .debug = true then .exit 1
    else if w.fails .joy = true then .exit 1
    else if w.fails .event = true then .exit 1
    else if w.fails .setbind = true then .exit 1
    else if c.ivc_enable > 0 ∧ c.audio_rate > 0 ∧ w.fails .ivoice = true then .exit 1
    else if w.exec_type = 0 ∧ w.fails .exec = true then .exit 1
    else if w.exec_type ≠ 0 ∧ (w.fails .exec = true ∨ w.fails .exec2 = true) then .exit 1
    else .ret 1 c (cfg_init_register w c)

/-- The presence predicate of a call: the condition, read off `cfg_init`, under
which the call is made once every call before it has returned 0.  The members
of `cfg_t` are those that `cfg_init` tests, after the GUI mode has turned the
debugger off and, for the Intellivoice, after a failed `snd_init` has set the
audio rate to 0. -/
def call_needed (w : init_env) (c : cfg_t) : call → Bool
  | .i2pc0 => decide (w.direct_intv2pc = true ∧ c.i2pc0_port > 0)
  | .i2pc1 => decide (w.direct_intv2pc = true ∧ c.ecs_enable > 0 ∧ c.i2pc1_port ≠ 0)
  | .cgc0 => decide (c.cgc0_num ≥ 0)
  | .cgc1 => decide (c.ecs_enable > 0 ∧ c.cgc1_num ≥ 0)
  | .emu_link => true
  | .elfi => w.elfi_prefix
  | .demo => w.demofile
  | .gfx => true
  | .snd => decide (c.audio_rate ≠ 0)
  | .cp1600 => true
  | .scr_ram => true
  | .sys_ram => true
  | .sys_ram2 => decide (w.exec_type ≠ 0)
  | .stic => true
  | .ecs_img => decide (c.ecs_enable > 0)
  | .ecs0 => decide (c.ecs_enable > 0)
  | .ecs1 => decide (c.ecs_enable > 0)
  | .ecs2 => decide (c.ecs_enable > 0)
  | .ecs_ram => decide (c.ecs_enable > 0)
  | .psg0 => true
  | .psg1 => decide (c.ecs_enable > 0)
  | .pad0 => true
  | .pad1 => decide (c.ecs_enable > 0)
  | .speed => c.rate_ctl_pos
  | .debug => decide ((cfg_init_gui c).debugging ≠ 0)
  | .joy => true
  | .event => true
  | .setbind => true
  | .ivoice => decide (c.ivc_enable > 0 ∧ (cfg_init_snd w c).audio_rate > 0)
  | .exec => true
  | .exec2 => decide (w.exec_type ≠ 0)

/-- The devices that exist only with the ECS: `psg1`, the ECS RAM and ROMs, `pad1`,
`i2pc1`, `cgc1`. -/
def is_ecs_device : device → Bool
  | .psg1 | .ecs_ram | .ecs0 | .ecs1 | .ecs2 | .pad1 | .i2pc1 | .cgc1 => true
  | _ => false

/-- A sample configuration: ECS on, Intellivoice on, sound at 44100 Hz, rate
control on, debugger asked for, no INTV2PC, no CGC. -/
def sample_cfg : cfg_t :=
  { gui_mode := 0, debugging := 1, ecs_enable := 1, ivc_enable := 1, audio_rate := 44100,
    i2pc0_port := 0, i2pc1_port := 0, cgc0_num := -1, cgc1_num := -1, rate_ctl_pos := true }

/-- A sample world: every call succeeds, except those that `failing` lists; an
original EXEC, a legacy game ROM at 0x5000..0x6FFF. -/
def sample_init_env (failing : List call) : init_env :=
  { direct_intv2pc := false, exec_type := 0, legacy_rom := 1, elfi_prefix := false,
    demofile := false, fails := fun k => decide (k ∈ failing),
    legacy := [(0x5000, 0x6FFF, "[game]")], icart := [] }

/-- The names of the descriptors that exist only with the ECS. -/
def ecs_names : List String :=
  ["PSG1 AY8914", "ECS RAM", "ECS ROM (2xxx)", "ECS ROM (7xxx)", "ECS ROM (Exxx)",
    "Pad Pair 1", "INTV2PC #1", "CGC #1"]

/-- Whether a device is one that the game registers. -/
def is_game_device : device → Bool
  | .game _ => true
  | _ => false

/-- The participants of the bus that answer at no address: the graphics output,
the sound output, the event pump and the rate control. -/
def is_non_addressed : device → Bool
  | .gfx | .snd | .event | .speed => true
  | _ => false

/-- Whether the window of a descriptor contains the address `a`. -/
def periph_desc.contains (d : periph_desc) (a : Nat) : Bool :=
  decide (d.addr_lo ≤ a ∧ a ≤ d.addr_hi)

/-- The first descriptor, in registration order, whose window contains the
address `a`. -/
def first_containing (bus : List periph_desc) (a : Nat) : Option periph_desc :=
  bus.find? (fun d => d.contains a)

/-! ## `cfg_parseres`: the display resolution -/

/-- The conversion `%d` of `sscanf`: it skips leading white space and reads an
optional sign and the decimal digits that follow; the result is the value and
the rest of the input, and `none` when no digit is there.  For a value that
does not fit `int` C leaves the result undefined; the model wraps it to 32
bits. -/
def scan_int (s : List Char) : Option (Int × List Char) :=
  let t := s.dropWhile isspace
  let neg := decide (t.head? = some '-')
  let u := if t.head? = some '-' ∨ t.head? = some '+' then t.tail else t
  let ds := u.takeWhile Char.isDigit
  if ds = [] then none
  else some (to_int32 (if neg then -(atoi_digits ds 0 : Int) else (atoi_digits ds 0 : Int)),
    u.dropWhile Char.isDigit)

/-- The call `sscanf(res, "%d%*1c%d%*1c%d", rx, ry, rd)`: the number of values
assigned, or -1 (`EOF`) when the input ends before the first conversion, and
the three variables, those not assigned keeping the values `rx`, `ry`, `rd`
they had.  The conversion `%*1c` passes over one character, whichever it is. -/
def sscanf_res (res : List Char) (rx ry rd : Int) : Int × Int × Int × Int :=
  match scan_int res with
  | none => (if res.dropWhile isspace = [] then -1 else 0, rx, ry, rd)
  | some (x, r1) =>
    match r1 with
    | [] => (1, x, ry, rd)
    | _ :: r2 =>
      match scan_int r2 with
      | none => (1, x, ry, rd)
      | some (y, r3) =>
        match r3 with
        | [] => (2, x, y, rd)
        | _ :: r4 =>
          match scan_int r4 with
          | none => (2, x, y, rd)
          | some (d, _) => (3, x, y, d)

/-- The widths of the built-in display resolutions. -/
def res_x : List Int := [320, 640, 320, 1024, 1680, 800, 1600, 3280]

/-- The heights of the built-in display resolutions. -/
def res_y : List Int := [200, 480, 240, 768, 1050, 400, 1200, 1200]

/-- The colour depths of the built-in display resolutions. -/
def res_d : List Int := [8, 8, 16, 8, 8, 16, 32, 32]

/-- The number of built-in display resolutions,
`sizeof(res_x) / sizeof(res_x[0])`. -/
def NUM_RES : Int := res_x.length

/-- The function `cfg_parseres`, called with valid pointers `rx`, `ry`, `rd` (as
`cfg_init` calls it): the returned message, `none` for `NULL`, and the values
it leaves in `*rx`, `*ry`, `*rd`, which hold `rx`, `ry`, `rd` at the call;
`res` is `none` for a null pointer. -/
def cfg_parseres (res : Option (List Char)) (rx ry rd : Int) :
    Option String × Int × Int × Int :=
  match res with
  | none => (none, res_x.getD 0 0, res_y.getD 0 0, res_d.getD 0 0)
  | some r =>
    let sc := sscanf_res r rx ry rd
    let s := sc.1
    let rx := sc.2.1
    let ry := sc.2.2.1
    let rd := sc.2.2.2
    if s < 1 ∨ s > 3 then (some "Bad resolution string.", rx, ry, rd)
    else if s = 1 then
      if rx ≥ 0 ∧ rx < NUM_RES then
        let i := rx.toNat
        (none, res_x.getD i 0, res_y.getD i 0, res_d.getD i 0)
      else if rx < 0 then (some "", rx, ry, rd)
      else (some "Resolution number out of range.", rx, ry, rd)
    else
      let rd := if s = 2 then 8 else rd
      if ¬ (rd = 8 ∨ rd = 16 ∨ rd = 24 ∨ rd = 32) then
        (some "Color depth must be 8, 16, 24 or 32", rx, ry, rd)
      else if rx < 320 then (some "X resolution is too small.", rx, ry, rd)
      else if ry < 200 then (some "Y resolution is too small.", rx, ry, rd)
      else (none, rx, ry, rd)

/-! ## The bindings of the default table and of the file, as the specification words them -/

/-- The binding that slot `j` of the default row `b` gives: none when the slot
is empty or names no action of the registry. -/
def default_slot_binding (cfg_event_action : List cfg_evtact_t) (b : cfg_kbd_t) (j : Fin 4) :
    List event_binding :=
  match b.event_action j with
  | none => []
  | some nm =>
    if nm ≠ [] ∧ 0 ≤ cfg_get_evtact cfg_event_action nm then
      [⟨b.key, (j.val : Int), (found_action cfg_event_action nm).word,
        (found_action cfg_event_action nm).and_mask, (found_action cfg_event_action nm).or_mask⟩]
    else []

/-- The bindings of the default table: the rows in table order, the slots 0..3
in order within each row. -/
def default_bindings (cfg_event_action : List cfg_evtact_t) (binding : List cfg_kbd_t) :
    List event_binding :=
  (binding.map (fun b =>
    default_slot_binding cfg_event_action b 0 ++ default_slot_binding cfg_event_action b 1 ++
    default_slot_binding cfg_event_action b 2 ++ default_slot_binding cfg_event_action b 3)).flatten

/-- The binding that a line of the file gives under the map `m`: that of a
`key action` line, whose two fields are a key, which is no keyword, and an
action of the registry; none for any other line. -/
def line_binding (cfg_event_action : List cfg_evtact_t) (m : Int) (buf : List Char) :
    List event_binding :=
  match fields (chop buf) with
  | [k, a] =>
    if is_keyword k = false ∧ 0 ≤ cfg_get_evtact cfg_event_action a then
      [⟨k, m, (found_action cfg_event_action a).word,
        (found_action cfg_event_action a).and_mask, (found_action cfg_event_action a).or_mask⟩]
    else []
  | _ => []

/-- The bindings of the lines of a file, in file order, each under the map that
the `MAP` lines before it select, starting from the map `m`. -/
def file_bindings (cfg_event_action : List cfg_evtact_t) :
    Int → List (List Char) → List event_binding
  | _, [] => []
  | m, buf :: rest =>
      line_binding cfg_event_action m buf ++
        file_bindings cfg_event_action ((map_number buf).getD m) rest

/-- The call of `cfg_init` that constructs a device of the bus: the three
devices of the STIC are members of `cfg->stic`, which `stic_init` constructs;
`none` for the devices of the game, which `legacy_register` or
`icart_register` puts on the bus itself. -/
def constructor_of : device → Option call
  | .cp1600 => some .cp1600
  | .psg0 => some .psg0
  | .psg1 => some .psg1
  | .ivoice => some .ivoice
  | .gfx => some .gfx
  | .snd => some .snd
  | .scr_ram => some .scr_ram
  | .sys_ram => some .sys_ram
  | .sys_ram2 => some .sys_ram2
  | .exec => some .exec
  | .exec2 => some .exec2
  | .ecs_ram => some .ecs_ram
  | .ecs0 => some .ecs0
  | .ecs1 => some .ecs1
  | .ecs2 => some .ecs2
  | .pad0 => some .pad0
  | .pad1 => some .pad1
  | .i2pc0 => some .i2pc0
  | .i2pc1 => some .i2pc1
  | .cgc0 => some .cgc0
  | .cgc1 => some .cgc1
  | .stic_cr => some .stic
  | .snoop_btab => some .stic
  | .snoop_gram => some .stic
  | .event => some .event
  | .speed => some .speed
  | .debug => some .debug
  | .game _ => none

/-- The number that the numeral at the head of a string denotes, as `atoi`
reads it (leading white space, an optional sign, decimal digits), before any
conversion to `int`. -/
def atoi_value (s : List Char) : Int :=
  match s.dropWhile isspace with
  | '-' :: t => -(atoi_digits t 0 : Int)
  | '+' :: t => (atoi_digits t 0 : Int)
  | t => (atoi_digits t 0 : Int)

/-- Whether the numeral at the head of a string fits `int`: the case in which C
defines the result of `atoi`, which is then the number that the numeral
denotes. -/
def fits_int (s : List Char) : Bool :=
  decide (-2147483648 ≤ atoi_value s ∧ atoi_value s < 2147483648)

/-- Modelled from the spec: `lzoe_fgets` (lzoe/lzoe.c, whose source is not part
of `cfg.c`) reads the "line-oriented plain text" of the file as `fgets` of
`<stdio.h>` does: with room for `n` characters it reads up to and including the
first newline, and at most `n` characters.  The result is the buffer and what
is left of the file. -/
def lzoe_fgets : Nat → List Char → List Char × List Char
  | 0, s => ([], s)
  | _ + 1, [] => ([], [])
  | n + 1, c :: s =>
      if c = '\n' then ([c], s) else ((lzoe_fgets n s).1.cons c, (lzoe_fgets n s).2)

/-- The buffers that at most `fuel` successive calls `lzoe_fgets(buf, 256, f)`
return on a file of the given content, up to the end of the file. -/
def file_buffers_from : Nat → List Char → List (List Char)
  | 0, _ => []
  | _ + 1, [] => []
  | fuel + 1, c :: s =>
      (lzoe_fgets 255 (c :: s)).1 :: file_buffers_from fuel (lzoe_fgets 255 (c :: s)).2

/-- The buffers that the loop `while (lzoe_fgets(buf, 256, f) != NULL)` sees on a
file of the given content: a line of more than 255 characters, its newline
counted, comes in several pieces. -/
def file_buffers (content : List Char) : List (List Char) :=
  file_buffers_from content.length content

/-- A string of `n` blanks. -/
def blanks (n : Nat) : List Char := List.replicate n ' '
/-! ## A sample of the type `double`, with a NaN -/

/-- A value of type `double`, as far as `COMBO_DELAY` can tell: a number, stood
for by an exact rational, or a NaN. -/
inductive double where
  | num (q : ℚ)
  | nan
deriving DecidableEq

/-- Whether a coalesce window lies in the range 0 ≤ w ≤ 0.1 (seconds); a NaN
does not. -/
def double.in_window : double → Bool
  | .num q => decide (0 ≤ q ∧ q ≤ 1 / 10)
  | .nan => false

/-- The function `atof` of `<stdlib.h>` on the strings of the examples: after
leading white space and an optional sign, `nan` in any case gives a NaN, and a
decimal numeral with an optional fraction gives its value.  Exponents,
infinities and hexadecimal numerals are not read. -/
def atof_sample (s : List Char) : double :=
  let t := s.dropWhile isspace
  let u := if t.head? = some '-' ∨ t.head? = some '+' then t.tail else t
  if (u.take 3).map Char.toLower = "nan".toList then .nan
  else
    let r := u.dropWhile Char.isDigit
    let fp := if r.head? = some '.' then r.tail.takeWhile Char.isDigit else []
    let v : ℚ := (atoi_digits (u.takeWhile Char.isDigit) 0 : ℚ) +
      (atoi_digits fp 0 : ℚ) / 10 ^ fp.length
    .num (if t.head? = some '-' then -v else v)

/-- A sample environment with a NaN: the combo registry is the one the
specification describes; the comparisons `ms < 0.` and `ms > 100.` are false on
a NaN, as every comparison with a NaN is, and `ms / 1000.` is a NaN on a NaN. -/
def ieee_env : env (List combo_def) double where
  event_combine := event_combine_spec
  atof := atof_sample
  lt_zero := fun ms => match ms with
    | .num q => decide (q < 0)
    | .nan => false
  gt_hundred := fun ms => match ms with
    | .num q => decide (100 < q)
    | .nan => false
  div_thousand := fun ms => match ms with
    | .num q => .num (q / 1000)
    | .nan => .nan

/-! # Theorems -/

/-! ## Properties of `cfg_get_evtact` -/

theorem cfg_get_evtact_from_range (l : List cfg_evtact_t) (i : Nat) (name : List Char) :
    cfg_get_evtact_from l i name = -1 ∨
      ((i : Int) ≤ cfg_get_evtact_from l i name ∧
        cfg_get_evtact_from l i name < (i : Int) + l.length) := by
  induction l generalizing i with
  | nil => left; rfl
  | cons e es ih =>
    unfold cfg_get_evtact_from
    split_ifs with h
    · right; constructor
      · exact le_refl _
      · simp only [List.length_cons]; push_cast; omega
    · rcases ih (i + 1) with h1 | ⟨h1, h2⟩
      · left; exact h1
      · right; simp only [List.length_cons]; push_cast at h1 h2 ⊢; omega

theorem cfg_get_evtact_from_none (l : List cfg_evtact_t) (i : Nat) (name : List Char) :
    cfg_get_evtact_from l i name = -1 ↔ ∀ e ∈ l, e.name ≠ name := by
  induction l generalizing i with
  | nil => simp [cfg_get_evtact_from]
  | cons e es ih =>
    unfold cfg_get_evtact_from
    split_ifs with h
    · simp [h]
    · rw [ih (i + 1)]
      simp [h]

theorem cfg_get_evtact_from_index (l : List cfg_evtact_t) (i k : Nat) (name : List Char) :
    cfg_get_evtact_from l i name = ((i + k : Nat) : Int) ↔
      (∃ e, l[k]? = some e ∧ e.name = name) ∧
        ∀ j, j < k → ∀ e, l[j]? = some e → e.name ≠ name := by
  induction l generalizing i k with
  | nil => simp [cfg_get_evtact_from]; omega
  | cons e es ih =>
    unfold cfg_get_evtact_from
    split_ifs with h
    · cases k with
      | zero => simp [h]
      | succ k =>
        constructor
        · intro hk; push_cast at hk; omega
        · rintro ⟨-, h2⟩
          exact absurd h (h2 0 (Nat.succ_pos k) e (by simp))
    · cases k with
      | zero =>
        constructor
        · intro hk
          rcases cfg_get_evtact_from_range es (i + 1) name with h1 | ⟨h1, -⟩
          · rw [h1] at hk; omega
          · rw [hk] at h1; push_cast at h1; omega
        · rintro ⟨⟨e', he', hn⟩, -⟩
          simp at he'
          subst he'
          exact absurd hn h
      | succ k =>
        have e1 : ((i + (k + 1) : Nat) : Int) = ((i + 1 + k : Nat) : Int) := by push_cast; ring
        rw [e1, ih (i + 1) k]
        constructor
        · rintro ⟨⟨e', he', hn⟩, h2⟩
          refine ⟨⟨e', by simpa using he', hn⟩, ?_⟩
          intro j hj e'' he''
          cases j with
          | zero => simp at he''; subst he''; exact h
          | succ j => exact h2 j (by omega) e'' (by simpa using he'')
        · rintro ⟨⟨e', he', hn⟩, h2⟩
          refine ⟨⟨e', by simpa using he', hn⟩, ?_⟩
          intro j hj e'' he''
          exact h2 (j + 1) (by omega) e'' (by simpa using he'')

/-- C1.  `cfg_get_evtact` returns the least index whose entry has exactly the
name asked for: it returns `i` if and only if entry `i` has that name and no
earlier entry has; it returns -1 if and only if no entry has the name; and any
other result is an index of the table.  The table is an argument that the
function only reads. -/
theorem cfg_get_evtact_first_match (cfg_event_action : List cfg_evtact_t) (name : List Char) :
    (∀ i : Nat, cfg_get_evtact cfg_event_action name = (i : Int) ↔
        (∃ e, cfg_event_action[i]? = some e ∧ e.name = name) ∧
          ∀ j, j < i → ∀ e, cfg_event_action[j]? = some e → e.name ≠ name) ∧
      (cfg_get_evtact cfg_event_action name = -1 ↔
        ∀ e ∈ cfg_event_action, e.name ≠ name) ∧
      (cfg_get_evtact cfg_event_action name = -1 ∨
        (0 ≤ cfg_get_evtact cfg_event_action name ∧
          cfg_get_evtact cfg_event_action name < (cfg_event_action.length : Int))) := by
  refine ⟨?_, cfg_get_evtact_from_none _ 0 name, ?_⟩
  · intro i
    have h := cfg_get_evtact_from_index cfg_event_action 0 i name
    simpa [cfg_get_evtact] using h
  · have h := cfg_get_evtact_from_range cfg_event_action 0 name
    simpa [cfg_get_evtact] using h

/-! ## The tokenizer and the fields of a line -/

theorem splitOnP_isspace_shape (t : List Char) :
    ∃ tl, t.splitOnP isspace = t.takeWhile (fun c => !isspace c) :: tl ∧
      tl.filter (fun f => !f.isEmpty) = fields (t.dropWhile (fun c => !isspace c)) := by
  induction t with
  | nil => exact ⟨[], by simp, by simp [fields]⟩
  | cons d t ih =>
    obtain ⟨tl, h1, h2⟩ := ih
    by_cases hd : isspace d = true
    · refine ⟨t.splitOnP isspace, by simp [hd], ?_⟩
      simp [hd, fields]
    · refine ⟨tl, by simp [hd, h1, List.modifyHead], ?_⟩
      simpa [hd] using h2

theorem fields_cons_space (c : Char) (s : List Char) (h : isspace c = true) :
    fields (c :: s) = fields s := by
  simp [fields, h]

theorem fields_cons_nonspace (c : Char) (s : List Char) (h : isspace c = false) :
    fields (c :: s) =
      (c :: s.takeWhile (fun c => !isspace c)) :: fields (s.dropWhile (fun c => !isspace c)) := by
  obtain ⟨tl, h1, h2⟩ := splitOnP_isspace_shape s
  simp [fields, h, h1, List.modifyHead] at h2 ⊢
  exact h2

theorem fields_dropWhile (s : List Char) : fields (s.dropWhile isspace) = fields s := by
  induction s with
  | nil => rfl
  | cons c s ih =>
    by_cases h : isspace c = true
    · simp [List.dropWhile, h, ih, fields_cons_space]
    · simp [List.dropWhile, h]

theorem fields_eq_nil_iff (s : List Char) : fields s = [] ↔ s.dropWhile isspace = [] := by
  induction s with
  | nil => simp [fields]
  | cons c s ih =>
    by_cases h : isspace c = true
    · simp [List.dropWhile, h, ih, fields_cons_space]
    · have h' : isspace c = false := by simpa using h
      simp [List.dropWhile, h', fields_cons_nonspace]

theorem copy_field_eq (n : Nat) (s : List Char) :
    copy_field n s =
      ((s.takeWhile (fun c => !isspace c)).take n,
        (s.takeWhile (fun c => !isspace c)).drop n ++ s.dropWhile (fun c => !isspace c)) := by
  induction n generalizing s with
  | zero => simp [copy_field]
  | succ n ih =>
    cases s with
    | nil => simp [copy_field]
    | cons c s =>
      by_cases h : isspace c = true
      · simp [copy_field, h, List.takeWhile, List.dropWhile]
      · have h' : isspace c = false := by simpa using h
        simp [copy_field, h', List.takeWhile, List.dropWhile, ih]

theorem copy_field_head (s : List Char) :
    (((copy_field 255 (s.dropWhile isspace)).1.length < 255 ↔
        ((fields s).headD []).length < 255)) ∧
      (((fields s).headD []).length < 255 →
        (copy_field 255 (s.dropWhile isspace)).1 = (fields s).headD [] ∧
          fields (copy_field 255 (s.dropWhile isspace)).2 = (fields s).tail) := by
  rw [← fields_dropWhile s]
  cases h0 : s.dropWhile isspace with
  | nil => simp [copy_field, fields]
  | cons c t =>
    have hc : isspace c = false := by
      have := List.head_dropWhile_not isspace s (by rw [h0]; simp)
      simpa [h0] using this
    rw [fields_cons_nonspace c t hc, copy_field_eq]
    simp only [List.takeWhile, hc, Bool.not_false, List.dropWhile, List.headD_cons,
      List.tail_cons, List.length_take]
    constructor
    · simp only [List.length_cons]; omega
    · intro h
      have h1 : (c :: List.takeWhile (fun c => !isspace c) t).length ≤ 255 := Nat.le_of_lt h
      rw [List.take_of_length_le h1, List.drop_of_length_le h1]
      simp

theorem bad_chain (l1 l2 l3 l4 : Nat) :
    (if 255 ≤ l4 then 4 else if 255 ≤ l3 then 3 else if 255 ≤ l2 then 2
      else if 255 ≤ l1 then 1 else 0) = 0 ↔ l1 < 255 ∧ l2 < 255 ∧ l3 < 255 ∧ l4 < 255 := by
  split_ifs <;> simp <;> omega

theorem tokenize_eq (s : List Char) :
    ∃ r1 r2 r3 r4 : List Char × List Char,
      r1 = copy_field 255 (s.dropWhile isspace) ∧
      r2 = copy_field 255 (r1.2.dropWhile isspace) ∧
      r3 = copy_field 255 (r2.2.dropWhile isspace) ∧
      r4 = copy_field 255 (r3.2.dropWhile isspace) ∧
      tokenize s =
        { cmd := r1.1, arg := r2.1, arg2 := r3.1, arg3 := r4.1,
          bad := if 255 ≤ r4.1.length then 4 else if 255 ≤ r3.1.length then 3
            else if 255 ≤ r2.1.length then 2 else if 255 ≤ r1.1.length then 1 else 0,
          too_many := !(r4.2.dropWhile isspace).isEmpty } :=
  ⟨_, _, _, _, rfl, rfl, rfl, rfl, rfl⟩

theorem take4_iff (F : List (List Char)) :
    (∀ f ∈ F.take 4, f.length < 255) ↔
      (F.headD []).length < 255 ∧ (F.tail.headD []).length < 255 ∧
        (F.tail.tail.headD []).length < 255 ∧ (F.tail.tail.tail.headD []).length < 255 := by
  rcases F with _ | ⟨f1, _ | ⟨f2, _ | ⟨f3, _ | ⟨f4, r⟩⟩⟩⟩ <;> simp

theorem tokenize_spec (s : List Char) :
    ((tokenize s).bad = 0 ↔ ∀ f ∈ (fields s).take 4, f.length < 255) ∧
      ((∀ f ∈ (fields s).take 4, f.length < 255) →
        (tokenize s).cmd = (fields s).getD 0 [] ∧ (tokenize s).arg = (fields s).getD 1 [] ∧
        (tokenize s).arg2 = (fields s).getD 2 [] ∧ (tokenize s).arg3 = (fields s).getD 3 [] ∧
        (tokenize s).too_many = decide (4 < (fields s).length)) := by
  obtain ⟨r1, r2, r3, r4, e1, e2, e3, e4, ht⟩ := tokenize_eq s
  have A1 := copy_field_head s
  rw [← e1] at A1
  have A2 := copy_field_head r1.2
  rw [← e2] at A2
  have A3 := copy_field_head r2.2
  rw [← e3] at A3
  have A4 := copy_field_head r3.2
  rw [← e4] at A4
  have A5 := fields_eq_nil_iff r4.2
  rw [ht, take4_iff]
  simp only [bad_chain]
  clear ht e1 e2 e3 e4
  generalize fields s = F at *
  constructor
  · constructor
    · rintro ⟨h1, h2, h3, h4⟩
      have h1' := A1.1.1 h1
      obtain ⟨-, t1⟩ := A1.2 h1'
      rw [t1] at A2
      have h2' := A2.1.1 h2
      obtain ⟨-, t2⟩ := A2.2 h2'
      rw [t2] at A3
      have h3' := A3.1.1 h3
      obtain ⟨-, t3⟩ := A3.2 h3'
      rw [t3] at A4
      exact ⟨h1', h2', h3', A4.1.1 h4⟩
    · rintro ⟨h1, h2, h3, h4⟩
      obtain ⟨-, t1⟩ := A1.2 h1
      rw [t1] at A2
      obtain ⟨-, t2⟩ := A2.2 h2
      rw [t2] at A3
      obtain ⟨-, t3⟩ := A3.2 h3
      rw [t3] at A4
      exact ⟨A1.1.2 h1, A2.1.2 h2, A3.1.2 h3, A4.1.2 h4⟩
  · rintro ⟨h1, h2, h3, h4⟩
    obtain ⟨c1, t1⟩ := A1.2 h1
    rw [t1] at A2
    obtain ⟨c2, t2⟩ := A2.2 h2
    rw [t2] at A3
    obtain ⟨c3, t3⟩ := A3.2 h3
    rw [t3] at A4
    obtain ⟨c4, t4⟩ := A4.2 h4
    rw [t4] at A5
    rw [c1, c2, c3, c4]
    have hm : (!(r4.2.dropWhile isspace).isEmpty) = decide (4 < F.length) := by
      by_cases hd : r4.2.dropWhile isspace = []
      · have := A5.2 hd
        rcases F with _ | ⟨f1, _ | ⟨f2, _ | ⟨f3, _ | ⟨f4, _ | ⟨f5, r⟩⟩⟩⟩⟩ <;> simp_all
      · have : F.tail.tail.tail.tail ≠ [] := fun h => hd (A5.1 h)
        rcases F with _ | ⟨f1, _ | ⟨f2, _ | ⟨f3, _ | ⟨f4, _ | ⟨f5, r⟩⟩⟩⟩⟩ <;> simp_all
    refine ⟨?_, ?_, ?_, ?_, hm⟩
    · rcases F with _ | ⟨f1, r⟩ <;> simp
    · rcases F with _ | ⟨f1, _ | ⟨f2, r⟩⟩ <;> simp
    · rcases F with _ | ⟨f1, _ | ⟨f2, _ | ⟨f3, r⟩⟩⟩ <;> simp
    · rcases F with _ | ⟨f1, _ | ⟨f2, _ | ⟨f3, _ | ⟨f4, r⟩⟩⟩⟩ <;> simp

theorem fields_ne_nil (s : List Char) : ∀ f ∈ fields s, f ≠ [] := by
  intro f hf
  simp only [fields, List.mem_filter] at hf
  intro h
  simp [h] at hf

theorem fields_length_sum (s : List Char) :
    ((fields s).map List.length).sum + (fields s).length ≤ s.length + 1 := by
  generalize hn : s.length = n
  induction n using Nat.strong_induction_on generalizing s with
  | _ n ih =>
    cases s with
    | nil => simp [fields]
    | cons c t =>
      by_cases hc : isspace c = true
      · rw [fields_cons_space c t hc]
        have := ih t.length (by simp at hn; omega) t rfl
        simp at hn; omega
      · have hc' : isspace c = false := by simpa using hc
        rw [fields_cons_nonspace c t hc']
        have hlen : (t.takeWhile (fun c => !isspace c)).length +
            (t.dropWhile (fun c => !isspace c)).length = t.length := by
          rw [← List.length_append, List.takeWhile_append_dropWhile]
        simp only [List.map_cons, List.sum_cons, List.length_cons]
        simp only [List.length_cons] at hn
        cases hd : t.dropWhile (fun c => !isspace c) with
        | nil => simp [fields]; rw [hd] at hlen; simp at hlen; omega
        | cons d u =>
          have hdsp : isspace d = true := by
            have := List.head_dropWhile_not (fun c => !isspace c) t (by rw [hd]; simp)
            simpa [hd] using this
          rw [fields_cons_space d u hdsp]
          rw [hd] at hlen
          simp only [List.length_cons] at hlen
          have := ih u.length (by omega) u rfl
          omega

theorem fields_length_lt (s : List Char) (h : 2 ≤ (fields s).length) :
    ∀ f ∈ fields s, f.length < s.length := by
  intro f hf
  have h1 := fields_length_sum s
  have h2 : f.length ≤ ((fields s).map List.length).sum :=
    List.single_le_sum (by simp) _ (List.mem_map_of_mem _ hf)
  omega

theorem strrchr_cut_length (c : Char) (s : List Char) : (strrchr_cut c s).length ≤ s.length := by
  induction s with
  | nil => simp [strrchr_cut]
  | cons x s ih =>
    unfold strrchr_cut
    split_ifs <;> simp
    omega

theorem chop_length (buf : List Char) : (chop buf).length ≤ buf.length := by
  unfold chop
  exact le_trans (strrchr_cut_length _ _)
    (le_trans (strrchr_cut_length _ _) (strrchr_cut_length _ _))

/-- A buffer of at most 255 characters that holds two or more fields has no field
that reaches the length limit. -/
theorem fields_chop_short (buf : List Char) (hb : buf.length ≤ 255)
    (h : 2 ≤ (fields (chop buf)).length) :
    ∀ f ∈ (fields (chop buf)).take 4, f.length < 255 := by
  intro f hf
  have := fields_length_lt (chop buf) h f (List.mem_of_mem_take hf)
  have := chop_length buf
  omega

/-- When none of the first four fields reaches the length limit, the tokenizer
yields exactly the first four fields, no length error, and the too-many flag
exactly when there is a fifth field. -/
theorem tokenize_of_short (s : List Char) (h : ∀ f ∈ (fields s).take 4, f.length < 255) :
    tokenize s =
      { cmd := (fields s).getD 0 [], arg := (fields s).getD 1 [], arg2 := (fields s).getD 2 [],
        arg3 := (fields s).getD 3 [], bad := 0, too_many := decide (4 < (fields s).length) } := by
  obtain ⟨hb, hf⟩ := tokenize_spec s
  obtain ⟨h1, h2, h3, h4, h5⟩ := hf h
  have h0 := hb.2 h
  cases ht : tokenize s with
  | mk cmd arg arg2 arg3 bad too_many =>
    rw [ht] at h0 h1 h2 h3 h4 h5
    simp only at h0 h1 h2 h3 h4 h5
    rw [h0, h1, h2, h3, h4, h5]

/-! ## Keywords -/

theorem stricmp_eq_zero_iff (a b : List Char) :
    stricmp a b = 0 ↔ a.map Char.toLower = b.map Char.toLower := by
  unfold stricmp
  split_ifs with h <;> simp [h]

theorem stricmp_map_not_add_combo (c : List Char) (h : stricmp c "map".toList = 0) :
    stricmp c "add_combo".toList ≠ 0 := by
  rw [stricmp_eq_zero_iff] at h
  rw [Ne, stricmp_eq_zero_iff, h]
  decide

theorem stricmp_map_not_combo_delay (c : List Char) (h : stricmp c "map".toList = 0) :
    stricmp c "combo_delay".toList ≠ 0 := by
  rw [stricmp_eq_zero_iff] at h
  rw [Ne, stricmp_eq_zero_iff, h]
  decide

theorem stricmp_add_combo_not_combo_delay (c : List Char)
    (h : stricmp c "add_combo".toList = 0) : stricmp c "combo_delay".toList ≠ 0 := by
  rw [stricmp_eq_zero_iff] at h
  rw [Ne, stricmp_eq_zero_iff, h]
  decide

theorem stricmp_nil_keyword :
    stricmp [] "add_combo".toList ≠ 0 ∧ stricmp [] "combo_delay".toList ≠ 0 ∧
      stricmp [] "map".toList ≠ 0 := by
  decide

theorem is_keyword_false_iff (c : List Char) :
    is_keyword c = false ↔
      stricmp c "add_combo".toList ≠ 0 ∧ stricmp c "combo_delay".toList ≠ 0 ∧
        stricmp c "map".toList ≠ 0 := by
  simp [is_keyword, and_assoc]

/-! ## The loop over the lines -/

theorem cfg_setbind_loop_append {κ D : Type} (e : env κ D) (tbl : List cfg_evtact_t)
    (map : Int) (event : event_t κ D) (pre rest : List (List Char)) :
    cfg_setbind_loop e tbl map event (pre ++ rest) =
      match cfg_setbind_loop e tbl map event pre with
      | .next map' event' => cfg_setbind_loop e tbl map' event' rest
      | .fail event' => .fail event' := by
  induction pre generalizing map event with
  | nil => simp [cfg_setbind_loop]
  | cons b pre ih =>
    simp only [List.cons_append, cfg_setbind_loop]
    cases cfg_setbind_line e tbl map event b with
    | next m' ev' => simpa using ih m' ev'
    | fail ev' => rfl

/-- A line that goes to `fail` from every state, leaving the event state as it
found it, ends the loop there: the loop fails with the event state reached by
the lines before it. -/
theorem cfg_setbind_loop_fail_at {κ D : Type} (e : env κ D) (tbl : List cfg_evtact_t)
    (buf : List Char) (h : ∀ m ev, cfg_setbind_line e tbl m ev buf = .fail ev)
    (map : Int) (event : event_t κ D) (pre post : List (List Char)) :
    cfg_setbind_loop e tbl map event (pre ++ buf :: post) =
      .fail (cfg_setbind_loop e tbl map event pre).event := by
  rw [cfg_setbind_loop_append]
  cases cfg_setbind_loop e tbl map event pre with
  | next m' ev' => simp [cfg_setbind_loop, h, step.event]
  | fail ev' => simp [step.event]

/-- The same at the level of `cfg_setbind`: it returns -1, with the event state
that the lines before the failing line leave. -/
theorem cfg_setbind_fail_at {κ D : Type} (e : env κ D) (tbl : List cfg_evtact_t)
    (buf : List Char) (h : ∀ m ev, cfg_setbind_line e tbl m ev buf = .fail ev)
    (binding : List cfg_kbd_t) (event : event_t κ D) (pre post : List (List Char)) :
    (cfg_setbind e tbl binding event (.lines (pre ++ buf :: post))).1 = .ret (-1) ∧
      (cfg_setbind e tbl binding event (.lines (pre ++ buf :: post))).2 =
        (cfg_setbind e tbl binding event (.lines pre)).2 := by
  simp only [cfg_setbind]
  rw [cfg_setbind_loop_fail_at e tbl buf h]
  cases cfg_setbind_loop e tbl 0 (cfg_setbind_defaults tbl binding event) pre <;>
    simp [step.event]

/-! ## One line, by the fields it has -/

theorem cfg_setbind_line_of_short {κ D : Type} (e : env κ D) (tbl : List cfg_evtact_t)
    (map : Int) (event : event_t κ D) (buf : List Char)
    (h : ∀ f ∈ (fields (chop buf)).take 4, f.length < 255) :
    cfg_setbind_line e tbl map event buf =
      cfg_setbind_dispatch e tbl map event
        { cmd := (fields (chop buf)).getD 0 [], arg := (fields (chop buf)).getD 1 [],
          arg2 := (fields (chop buf)).getD 2 [], arg3 := (fields (chop buf)).getD 3 [],
          bad := 0, too_many := decide (4 < (fields (chop buf)).length) } := by
  unfold cfg_setbind_line
  rw [tokenize_of_short _ h]

theorem cfg_setbind_line_of_bad {κ D : Type} (e : env κ D) (tbl : List cfg_evtact_t)
    (map : Int) (event : event_t κ D) (buf : List Char)
    (h : ¬ ∀ f ∈ (fields (chop buf)).take 4, f.length < 255) :
    cfg_setbind_line e tbl map event buf = .fail event := by
  unfold cfg_setbind_line cfg_setbind_dispatch
  have := (tokenize_spec (chop buf)).1
  rw [if_pos]
  intro h0
  exact h (this.1 h0)

/-- A buffer of at most 255 characters whose fields are the two fields `c a`. -/
theorem cfg_setbind_line_two {κ D : Type} (e : env κ D) (tbl : List cfg_evtact_t)
    (map : Int) (event : event_t κ D) (buf c a : List Char)
    (hb : buf.length ≤ 255) (hf : fields (chop buf) = [c, a]) :
    cfg_setbind_line e tbl map event buf =
      cfg_setbind_dispatch e tbl map event
        { cmd := c, arg := a, arg2 := [], arg3 := [], bad := 0, too_many := false } := by
  rw [cfg_setbind_line_of_short e tbl map event buf
    (fields_chop_short buf hb (by rw [hf]; simp))]
  simp [hf]

theorem mem_registry_iff (tbl : List cfg_evtact_t) (a : List Char) :
    (∃ en ∈ tbl, en.name = a) ↔ 0 ≤ cfg_get_evtact tbl a := by
  have h1 := cfg_get_evtact_from_none tbl 0 a
  have h2 := cfg_get_evtact_from_range tbl 0 a
  unfold cfg_get_evtact
  constructor
  · rintro ⟨en, hen, hn⟩
    rcases h2 with h2 | h2
    · exact absurd hn (h1.1 h2 en hen)
    · simpa using h2.1
  · intro h
    by_contra hne
    push_neg at hne
    rw [h1.2 hne] at h
    omega

theorem found_action_spec (tbl : List cfg_evtact_t) (a : List Char)
    (h : 0 ≤ cfg_get_evtact tbl a) :
    tbl[(cfg_get_evtact tbl a).toNat]? = some (found_action tbl a) ∧
      (found_action tbl a).name = a := by
  obtain ⟨i, hi⟩ := Int.eq_ofNat_of_zero_le h
  have h1 := (cfg_get_evtact_from_index tbl 0 i a).1 (by simpa [cfg_get_evtact] using hi)
  obtain ⟨⟨en, hen, hn⟩, -⟩ := h1
  unfold found_action
  rw [hi]
  simp only [Int.toNat_ofNat]
  rw [List.getD_eq_getElem?_getD, hen]
  exact ⟨rfl, hn⟩

/-! ## `atoi` on decimal numerals -/

theorem digitChar_lt_ten (d : Nat) (h : d < 10) :
    (Nat.digitChar d).isDigit = true ∧ (Nat.digitChar d).toNat - 48 = d ∧
      isspace (Nat.digitChar d) = false ∧ Nat.digitChar d ≠ '-' ∧ Nat.digitChar d ≠ '+' := by
  interval_cases d <;> decide

theorem atoi_digits_append (l rest : List Char) (acc : Nat) (h : ∀ c ∈ l, c.isDigit = true) :
    atoi_digits (l ++ rest) acc =
      atoi_digits rest (l.foldl (fun a c => 10 * a + (c.toNat - 48)) acc) := by
  induction l generalizing acc with
  | nil => rfl
  | cons c l ih =>
    have hc := h c (List.mem_cons_self _ _)
    simp only [List.cons_append, atoi_digits, hc, if_true, List.foldl_cons]
    exact ih _ (fun c' hc' => h c' (List.mem_cons_of_mem _ hc'))

theorem toDigitsCore_spec (fuel n : Nat) (h : n < fuel) :
    ∃ l : List Char, l ≠ [] ∧ (∀ ds, Nat.toDigitsCore 10 fuel n ds = l ++ ds) ∧
      (∀ c ∈ l, c.isDigit = true ∧ isspace c = false ∧ c ≠ '-' ∧ c ≠ '+') ∧
      ∀ acc, l.foldl (fun a c => 10 * a + (c.toNat - 48)) acc = acc * 10 ^ l.length + n := by
  induction fuel generalizing n with
  | zero => omega
  | succ fuel ih =>
    have hd := digitChar_lt_ten (n % 10) (Nat.mod_lt _ (by decide))
    by_cases h0 : n / 10 = 0
    · refine ⟨[Nat.digitChar (n % 10)], by simp, ?_, ?_, ?_⟩
      · intro ds
        simp [Nat.toDigitsCore, h0]
      · intro c hc
        simp only [List.mem_singleton] at hc
        subst hc
        exact ⟨hd.1, hd.2.2.1, hd.2.2.2.1, hd.2.2.2.2⟩
      · intro acc
        simp only [List.foldl_cons, List.foldl_nil, List.length_singleton, pow_one, hd.2.1]
        have : n % 10 = n := by omega
        omega
    · obtain ⟨l, hl0, hl1, hl2, hl3⟩ := ih (n / 10) (by omega)
      refine ⟨l ++ [Nat.digitChar (n % 10)], by simp, ?_, ?_, ?_⟩
      · intro ds
        simp [Nat.toDigitsCore, h0, hl1]
      · intro c hc
        simp only [List.mem_append, List.mem_singleton] at hc
        rcases hc with hc | hc
        · exact hl2 c hc
        · subst hc
          exact ⟨hd.1, hd.2.2.1, hd.2.2.2.1, hd.2.2.2.2⟩
      · intro acc
        simp only [List.foldl_append, List.foldl_cons, List.foldl_nil, hl3, hd.2.1,
          List.length_append, List.length_singleton, pow_succ]
        have := Nat.div_add_mod n 10
        nlinarith [this]

theorem atoi_toDigits (n : Nat) :
    ∃ c t, Nat.toDigits 10 n = c :: t ∧ isspace c = false ∧ c ≠ '-' ∧ c ≠ '+' ∧
      atoi_digits (c :: t) 0 = n := by
  obtain ⟨l, hl0, hl1, hl2, hl3⟩ := toDigitsCore_spec (n + 1) n (by omega)
  have hl : Nat.toDigits 10 n = l := by simpa [Nat.toDigits] using hl1 []
  cases l with
  | nil => exact absurd rfl hl0
  | cons c t =>
    have hc := hl2 c (List.mem_cons_self _ _)
    refine ⟨c, t, hl, hc.2.1, hc.2.2.1, hc.2.2.2, ?_⟩
    have := atoi_digits_append (c :: t) [] 0 (fun c' hc' => (hl2 c' hc').1)
    simp only [List.append_nil] at this
    rw [this, hl3]
    simp [atoi_digits]

theorem to_int32_of_range (n : Int) (h : -2147483648 ≤ n ∧ n < 2147483648) :
    to_int32 n = n := by
  unfold to_int32
  omega

/-- On the decimal numeral of a number that fits `int`, `atoi` gives the number. -/
theorem atoi_repr (n : Int) (h : -2147483648 ≤ n ∧ n < 2147483648) :
    atoi (Int.repr n).toList = n := by
  cases n with
  | ofNat m =>
    obtain ⟨c, t, hl, hs, hm, hp, hv⟩ := atoi_toDigits m
    have e : (Int.repr (Int.ofNat m)).toList = c :: t := by
      simp [Int.repr, Nat.repr, List.asString, hl]
    rw [e]
    unfold atoi
    simp only [List.dropWhile, hs]
    split
    · rename_i heq; simp at heq; exact absurd heq.1 hm
    · rename_i heq; simp at heq; exact absurd heq.1 hp
    · rw [hv]
      exact to_int32_of_range _ h
  | negSucc m =>
    obtain ⟨c, t, hl, hs, hm, hp, hv⟩ := atoi_toDigits (m + 1)
    have e : (Int.repr (Int.negSucc m)).toList = '-' :: c :: t := by
      simp [Int.repr, Nat.repr, List.asString, hl]
    rw [e]
    unfold atoi
    have hsp : isspace '-' = false := by decide
    simp only [List.dropWhile, hsp]
    rw [hv]
    have : -((m + 1 : Nat) : Int) = Int.negSucc m := by
      rw [Int.negSucc_eq]; push_cast; ring
    rw [this]
    exact to_int32_of_range _ h

/-- The function `atoi` converts to `int` the number that the numeral denotes. -/
theorem atoi_eq_to_int32 (s : List Char) : atoi s = to_int32 (atoi_value s) := by
  unfold atoi atoi_value
  generalize s.dropWhile isspace = t
  split
  · rfl
  · rfl
  · rfl

/-- On a numeral that fits `int`, `atoi` gives the number that it denotes. -/
theorem atoi_of_fits (s : List Char) (h : fits_int s = true) : atoi s = atoi_value s := by
  rw [atoi_eq_to_int32]
  exact to_int32_of_range _ (by simpa [fits_int] using h)

/-- The decimal numeral of a number that fits `int` denotes that number, and
fits `int`. -/
theorem atoi_value_repr (n : Int) (h : -2147483648 ≤ n ∧ n < 2147483648) :
    atoi_value (Int.repr n).toList = n ∧ fits_int (Int.repr n).toList = true := by
  have h1 := atoi_repr n h
  rw [atoi_eq_to_int32] at h1
  have key : atoi_value (Int.repr n).toList = n := by
    cases n with
    | ofNat m =>
      obtain ⟨c, t, hl, hs, hm, hp, hv⟩ := atoi_toDigits m
      have e : (Int.repr (Int.ofNat m)).toList = c :: t := by
        simp [Int.repr, Nat.repr, List.asString, hl]
      rw [e]
      unfold atoi_value
      simp only [List.dropWhile, hs]
      split
      · rename_i heq; simp at heq; exact absurd heq.1 hm
      · rename_i heq; simp at heq; exact absurd heq.1 hp
      · rw [hv]; rfl
    | negSucc m =>
      obtain ⟨c, t, hl, hs, hm, hp, hv⟩ := atoi_toDigits (m + 1)
      have e : (Int.repr (Int.negSucc m)).toList = '-' :: c :: t := by
        simp [Int.repr, Nat.repr, List.asString, hl]
      rw [e]
      unfold atoi_value
      have hsp : isspace '-' = false := by decide
      simp only [List.dropWhile, hsp]
      rw [hv]
      rw [Int.negSucc_eq]; push_cast; ring
  refine ⟨key, ?_⟩
  unfold fits_int
  rw [key]
  simpa using h

/-! ## Lines and the buffers of `lzoe_fgets` -/

/-- A line shorter than the room, newline included, is read whole. -/
theorem lzoe_fgets_line (n : Nat) (l rest : List Char) (h1 : '\n' ∉ l) (h2 : l.length < n) :
    lzoe_fgets n (l ++ '\n' :: rest) = (l ++ ['\n'], rest) := by
  induction l generalizing n with
  | nil =>
    cases n with
    | zero => omega
    | succ n => simp [lzoe_fgets]
  | cons c l ih =>
    cases n with
    | zero => omega
    | succ n =>
      have hc : c ≠ '\n' := fun h => h1 (by simp [h])
      have hl : '\n' ∉ l := fun h => h1 (List.mem_cons_of_mem _ h)
      have := ih n hl (by simpa using h2)
      simp only [List.cons_append, lzoe_fgets, hc, if_false]
      simp only [List.append_eq] at this ⊢
      rw [this]

theorem file_buffers_from_lines (ls : List (List Char))
    (h : ∀ l ∈ ls, '\n' ∉ l ∧ l.length ≤ 254) (fuel : Nat) (hf : ls.length ≤ fuel) :
    file_buffers_from fuel (ls.map (fun l => l ++ ['\n'])).flatten =
      ls.map (fun l => l ++ ['\n']) := by
  induction ls generalizing fuel with
  | nil => cases fuel <;> simp [file_buffers_from]
  | cons l ls ih =>
    cases fuel with
    | zero => simp at hf
    | succ fuel =>
      obtain ⟨h1, h2⟩ := h l (List.mem_cons_self _ _)
      have e : ((l :: ls).map (fun l => l ++ ['\n'])).flatten =
          l ++ '\n' :: (ls.map (fun l => l ++ ['\n'])).flatten := by simp
      rw [e]
      have hr := lzoe_fgets_line 255 l (ls.map (fun l => l ++ ['\n'])).flatten h1 (by omega)
      cases hl : l ++ '\n' :: (ls.map (fun l => l ++ ['\n'])).flatten with
      | nil => simp at hl
      | cons c s =>
        rw [hl] at hr
        simp only [file_buffers_from, hr, List.map_cons]
        rw [ih (fun l' hl' => h l' (List.mem_cons_of_mem _ hl')) fuel (by simpa using hf)]

/-- A file whose lines all have at most 255 characters, the newline counted,
reaches the loop line by line: the buffers of `lzoe_fgets` are its lines. -/
theorem file_buffers_lines (ls : List (List Char))
    (h : ∀ l ∈ ls, '\n' ∉ l ∧ l.length ≤ 254) :
    file_buffers (ls.map (fun l => l ++ ['\n'])).flatten = ls.map (fun l => l ++ ['\n']) := by
  unfold file_buffers
  apply file_buffers_from_lines ls h
  have : ∀ ls : List (List Char),
      ls.length ≤ ((ls.map (fun l => l ++ ['\n'])).flatten).length := by
    intro ls
    induction ls with
    | nil => simp
    | cons l ls ih =>
      simp only [List.map_cons, List.flatten_cons, List.length_append, List.length_cons,
        List.length_nil]
      omega
  exact this ls

/-- Every buffer of `lzoe_fgets(buf, 256, f)` has at most 255 characters. -/
theorem lzoe_fgets_length (n : Nat) (s : List Char) : (lzoe_fgets n s).1.length ≤ n := by
  induction n generalizing s with
  | zero => simp [lzoe_fgets]
  | succ n ih =>
    cases s with
    | nil => simp [lzoe_fgets]
    | cons c s =>
      simp only [lzoe_fgets]
      split_ifs
      · simp
      · simpa using ih s

theorem file_buffers_length (content : List Char) :
    ∀ buf ∈ file_buffers content, buf.length ≤ 255 := by
  unfold file_buffers
  generalize content.length = fuel
  induction fuel generalizing content with
  | zero => simp [file_buffers_from]
  | succ fuel ih =>
    cases content with
    | nil => simp [file_buffers_from]
    | cons c s =>
      intro buf hb
      simp only [file_buffers_from, List.mem_cons] at hb
      rcases hb with hb | hb
      · rw [hb]; exact lzoe_fgets_length 255 _
      · exact ih _ buf hb

/-! ## `MAP` lines -/

theorem cfg_setbind_line_map {κ D : Type} (e : env κ D) (tbl : List cfg_evtact_t)
    (map : Int) (event : event_t κ D) (buf c a : List Char)
    (hb : buf.length ≤ 255) (hf : fields (chop buf) = [c, a])
    (hc : stricmp c "map".toList = 0) :
    cfg_setbind_line e tbl map event buf =
      if atoi a < 0 ∨ atoi a > 3 then .fail event else .next (atoi a) event := by
  rw [cfg_setbind_line_two e tbl map event buf c a hb hf]
  have h1 := stricmp_map_not_add_combo c hc
  have h2 := stricmp_map_not_combo_delay c hc
  simp only [String.toList] at hc h1 h2
  simp [cfg_setbind_dispatch, hc, h1, h2]

/-- C5, amended.  A `MAP n` line of at most 255 characters, its terminator
counted, so that `lzoe_fgets(buf, 256, f)` hands it to the loop as one buffer:
its fields are `MAP`, in any case, and a numeral that fits `int` and denotes
`n`.  When `n` is outside 0..3 the line goes to `fail` and `cfg_setbind` returns
-1 whatever precedes and follows the line; when `n` is in 0..3 the line does not
fail, and selects map `n`.  The numeral may in particular be the decimal
numeral of any `n` that fits `int`, negative or not. -/
theorem map_line_range {κ D : Type} (e : env κ D) (tbl : List cfg_evtact_t)
    (buf c a : List Char) (hb : buf.length ≤ 255) (hf : fields (chop buf) = [c, a])
    (hc : stricmp c "map".toList = 0) (hfit : fits_int a = true) :
    ((atoi_value a < 0 ∨ 3 < atoi_value a) →
      (∀ map event, cfg_setbind_line e tbl map event buf = .fail event) ∧
        ∀ binding event pre post,
          (cfg_setbind e tbl binding event (.lines (pre ++ buf :: post))).1 = .ret (-1)) ∧
    ((0 ≤ atoi_value a ∧ atoi_value a ≤ 3) →
      (∀ map event, cfg_setbind_line e tbl map event buf = .next (atoi_value a) event) ∧
        ∀ binding event,
          (cfg_setbind e tbl binding event (.lines [buf])).1 = .ret 0) ∧
    (∀ n : Int, -2147483648 ≤ n ∧ n < 2147483648 → a = (Int.repr n).toList →
      ∀ map event, cfg_setbind_line e tbl map event buf =
        if n < 0 ∨ 3 < n then .fail event else .next n event) := by
  have hv := atoi_of_fits a hfit
  refine ⟨?_, ?_, ?_⟩
  · intro hn
    have hl : ∀ map event, cfg_setbind_line e tbl map event buf = .fail event := by
      intro map event
      rw [cfg_setbind_line_map e tbl map event buf c a hb hf hc, if_pos]
      omega
    exact ⟨hl, fun binding event pre post =>
      (cfg_setbind_fail_at e tbl buf hl binding event pre post).1⟩
  · intro hn
    have hl : ∀ map event,
        cfg_setbind_line e tbl map event buf = .next (atoi_value a) event := by
      intro map event
      rw [cfg_setbind_line_map e tbl map event buf c a hb hf hc, if_neg, hv]
      omega
    refine ⟨hl, fun binding event => ?_⟩
    simp [cfg_setbind, cfg_setbind_loop, hl]
  · intro n hn ha map event
    rw [cfg_setbind_line_map e tbl map event buf c a hb hf hc, ha, atoi_repr n hn]

/-- C5 amended, at `MAP 7`: the line fails, and so does `cfg_setbind` on a file
that has this line between two valid lines. -/
theorem map_line_range_witness :
    cfg_setbind_line sample_env sample_actions 0 sample_event "MAP 7\n".toList =
        .fail sample_event ∧
      (cfg_setbind sample_env sample_actions sample_binding sample_event
        (.lines (["A UP\n".toList] ++ "MAP 7\n".toList :: ["MAP 1\n".toList]))).1 =
          .ret (-1) :=
  have h := (map_line_range sample_env sample_actions "MAP 7\n".toList "MAP".toList
    "7".toList (by decide) (by decide) (by decide) (by decide)).1 (by decide)
  ⟨h.1 0 sample_event, h.2 sample_binding sample_event _ _⟩

/-! ## `key action` lines -/

theorem cfg_setbind_line_bind {κ D : Type} (e : env κ D) (tbl : List cfg_evtact_t)
    (map : Int) (event : event_t κ D) (buf k a : List Char)
    (hb : buf.length ≤ 255) (hf : fields (chop buf) = [k, a])
    (hk : is_keyword k = false) :
    cfg_setbind_line e tbl map event buf =
      if cfg_get_evtact tbl a < 0 then .fail event
      else .next map (event_map event k map (found_action tbl a).word
        (found_action tbl a).and_mask (found_action tbl a).or_mask) := by
  rw [cfg_setbind_line_two e tbl map event buf k a hb hf]
  obtain ⟨h1, h2, h3⟩ := (is_keyword_false_iff k).1 hk
  have hk0 : k ≠ [] := fields_ne_nil (chop buf) k (by rw [hf]; simp)
  have ha0 : a ≠ [] := fields_ne_nil (chop buf) a (by rw [hf]; simp)
  simp only [String.toList] at h1 h2 h3
  simp [cfg_setbind_dispatch, h1, h2, h3, hk0, ha0, found_action]

/-- The loop over lines that are all `key action` lines with known actions. -/
theorem cfg_setbind_loop_binds {κ D : Type} (e : env κ D) (tbl : List cfg_evtact_t)
    (map : Int) (lines : List (List Char × List Char × List Char))
    (hl : ∀ l ∈ lines, l.1.length ≤ 255 ∧ fields (chop l.1) = [l.2.1, l.2.2] ∧
      is_keyword l.2.1 = false ∧ ∃ en ∈ tbl, en.name = l.2.2)
    (event : event_t κ D) :
    cfg_setbind_loop e tbl map event (lines.map (fun l => l.1)) =
      .next map { event with bind := event.bind ++ lines.map (fun l =>
        ⟨l.2.1, map, (found_action tbl l.2.2).word, (found_action tbl l.2.2).and_mask,
          (found_action tbl l.2.2).or_mask⟩) } := by
  induction lines generalizing event with
  | nil => simp [cfg_setbind_loop]
  | cons l lines ih =>
    obtain ⟨hb, hf, hk, ha⟩ := hl l (List.mem_cons_self _ _)
    have ha' : ¬ cfg_get_evtact tbl l.2.2 < 0 := by
      have := (mem_registry_iff tbl l.2.2).1 ha
      omega
    simp only [List.map_cons, cfg_setbind_loop]
    rw [cfg_setbind_line_bind e tbl map event l.1 l.2.1 l.2.2 hb hf hk, if_neg ha']
    simp only
    rw [ih (fun l' hl' => hl l' (List.mem_cons_of_mem _ hl'))]
    simp [event_map]

/-- C2, amended.  For every map `M` in 0..3 and every file made of a `MAP M` line
followed by `N` lines whose fields are a key, which is no command keyword, and an
action of the registry, each line of at most 255 characters, its terminator
counted, so that `lzoe_fgets(buf, 256, f)` hands it to the loop as one buffer,
and the numeral of the `MAP` line denoting `M`: `cfg_setbind` returns 0 and the
file adds to the bindings of the default table exactly the `N` bindings
(key, `M`, word, and-mask, or-mask), in file order, with the three values of
the registry entry that `cfg_get_evtact` finds for the action, which is an entry
of that name; the combos and the coalesce window are left alone. -/
theorem cfg_setbind_map_then_bindings {κ D : Type} (e : env κ D) (tbl : List cfg_evtact_t)
    (binding : List cfg_kbd_t) (event : event_t κ D)
    (M : Int) (hM : 0 ≤ M ∧ M ≤ 3) (mapbuf c a : List Char)
    (hmb : mapbuf.length ≤ 255) (hmf : fields (chop mapbuf) = [c, a])
    (hmc : stricmp c "map".toList = 0) (hma : atoi_value a = M)
    (lines : List (List Char × List Char × List Char))
    (hl : ∀ l ∈ lines, l.1.length ≤ 255 ∧ fields (chop l.1) = [l.2.1, l.2.2] ∧
      is_keyword l.2.1 = false ∧ ∃ en ∈ tbl, en.name = l.2.2) :
    cfg_setbind e tbl binding event (.lines (mapbuf :: lines.map (fun l => l.1))) =
        (.ret 0,
          { (cfg_setbind e tbl binding event .null).2 with
            bind := (cfg_setbind e tbl binding event .null).2.bind ++ lines.map (fun l =>
              ⟨l.2.1, M, (found_action tbl l.2.2).word, (found_action tbl l.2.2).and_mask,
                (found_action tbl l.2.2).or_mask⟩) }) ∧
      ∀ l ∈ lines, found_action tbl l.2.2 ∈ tbl ∧ (found_action tbl l.2.2).name = l.2.2 := by
  have hma' : atoi a = M := by
    rw [atoi_of_fits a (by simp only [fits_int, decide_eq_true_eq]; omega), hma]
  constructor
  · simp only [cfg_setbind, cfg_setbind_loop]
    rw [cfg_setbind_line_map e tbl 0 _ mapbuf c a hmb hmf hmc, hma', if_neg (by omega)]
    simp only
    rw [cfg_setbind_loop_binds e tbl M lines hl]
  · intro l hlm
    obtain ⟨-, -, -, ha⟩ := hl l hlm
    have h := found_action_spec tbl l.2.2 ((mem_registry_iff tbl l.2.2).1 ha)
    exact ⟨List.getElem?_mem h.1, h.2⟩

/-- C2 amended, at the file of the three lines `map 2`, `A FIRE` and
`B  UP ; up`, with the sample registry. -/
theorem cfg_setbind_map_then_bindings_witness :
    (cfg_setbind sample_env sample_actions sample_binding sample_event
      (.lines ["map 2\n".toList, "A FIRE\n".toList, "B  UP ; up\r\n".toList])).1 = .ret 0 ∧
    (cfg_setbind sample_env sample_actions sample_binding sample_event
      (.lines ["map 2\n".toList, "A FIRE\n".toList, "B  UP ; up\r\n".toList])).2.bind =
      (cfg_setbind sample_env sample_actions sample_binding sample_event .null).2.bind ++
        [⟨"A".toList, 2, 1, 255, 4⟩, ⟨"B".toList, 2, 2, 15, 1⟩] := by
  have h := (cfg_setbind_map_then_bindings sample_env sample_actions sample_binding
    sample_event 2 (by decide) "map 2\n".toList "map".toList "2".toList
    (by decide) (by decide) (by decide) (by decide)
    [("A FIRE\n".toList, "A".toList, "FIRE".toList),
     ("B  UP ; up\r\n".toList, "B".toList, "UP".toList)] (by decide)).1
  simp only [List.map_cons, List.map_nil] at h
  rw [h]
  exact ⟨rfl, by decide⟩

/-! ## The default table -/

theorem cfg_setbind_slot_unknown {κ D : Type} (tbl : List cfg_evtact_t) (b : cfg_kbd_t)
    (event : event_t κ D) (j : Fin 4) (nm : List Char) (hnm : b.event_action j = some nm)
    (hbad : ∀ en ∈ tbl, en.name ≠ nm) :
    cfg_setbind_slot tbl b event j = event := by
  have h : cfg_get_evtact tbl nm < 0 := by
    have := (cfg_get_evtact_from_none tbl 0 nm).2 hbad
    unfold cfg_get_evtact
    omega
  simp only [cfg_setbind_slot, hnm]
  split_ifs <;> rfl

theorem cfg_setbind_slot_none {κ D : Type} (tbl : List cfg_evtact_t) (b : cfg_kbd_t)
    (event : event_t κ D) (j : Fin 4) (hnm : b.event_action j = none) :
    cfg_setbind_slot tbl b event j = event := by
  simp only [cfg_setbind_slot, hnm]

theorem cfg_setbind_slot_congr {κ D : Type} (tbl : List cfg_evtact_t) (b b' : cfg_kbd_t)
    (event : event_t κ D) (j : Fin 4) (hk : b'.key = b.key)
    (hj : b'.event_action j = b.event_action j) :
    cfg_setbind_slot tbl b' event j = cfg_setbind_slot tbl b event j := by
  simp only [cfg_setbind_slot, hk, hj]

/-- Emptying a slot that names an unknown action does not change what the row
contributes. -/
theorem cfg_setbind_row_unknown {κ D : Type} (tbl : List cfg_evtact_t) (b : cfg_kbd_t)
    (j : Fin 4) (nm : List Char) (hnm : b.event_action j = some nm)
    (hbad : ∀ en ∈ tbl, en.name ≠ nm) (event : event_t κ D) :
    cfg_setbind_row tbl event { b with event_action := Function.update b.event_action j none } =
      cfg_setbind_row tbl event b := by
  have key : ∀ (ev : event_t κ D) (i : Fin 4),
      cfg_setbind_slot tbl { b with event_action := Function.update b.event_action j none } ev i =
        cfg_setbind_slot tbl b ev i := by
    intro ev i
    by_cases hij : i = j
    · subst hij
      rw [cfg_setbind_slot_unknown tbl b ev i nm hnm hbad]
      exact cfg_setbind_slot_none tbl _ ev i (by simp)
    · exact cfg_setbind_slot_congr tbl b _ ev i rfl (by simp [Function.update, hij])
  simp only [cfg_setbind_row, List.foldl, key]

theorem foldl_set_congr {α β : Type} (f : β → α → β) (l : List α) (i : Nat) (x y : α)
    (hi : l[i]? = some x) (hxy : ∀ b, f b y = f b x) (b : β) :
    (l.set i y).foldl f b = l.foldl f b := by
  induction l generalizing i b with
  | nil => simp
  | cons z l ih =>
    cases i with
    | zero =>
      simp at hi
      subst hi
      simp [hxy]
    | succ i =>
      simp at hi
      simp [ih i hi]

/-- C3.  When a slot of the default binding table names an action that the
registry does not have, `cfg_setbind` without a user file still returns 0; the
slot makes no binding, whatever the event state when the loop reaches it; and
the event state that results is the one that results from the table in which
this slot is empty, so that every other slot makes the binding that it makes
there, in the same order. -/
theorem cfg_setbind_default_unknown_action {κ D : Type} (e : env κ D)
    (tbl : List cfg_evtact_t) (binding : List cfg_kbd_t) (event : event_t κ D)
    (i : Nat) (b : cfg_kbd_t) (j : Fin 4) (nm : List Char)
    (hi : binding[i]? = some b) (hnm : b.event_action j = some nm)
    (hbad : ∀ en ∈ tbl, en.name ≠ nm) :
    (cfg_setbind e tbl binding event .null).1 = .ret 0 ∧
      (∀ ev : event_t κ D, cfg_setbind_slot tbl b ev j = ev) ∧
      (cfg_setbind e tbl binding event .null).2 =
        (cfg_setbind e tbl
          (binding.set i { b with event_action := Function.update b.event_action j none })
          event .null).2 := by
  refine ⟨rfl, fun ev => cfg_setbind_slot_unknown tbl b ev j nm hnm hbad, ?_⟩
  simp only [cfg_setbind, cfg_setbind_defaults]
  exact (foldl_set_congr _ binding i b _ hi
    (fun ev => cfg_setbind_row_unknown tbl b j nm hnm hbad ev) event).symm

/-- C3, at the sample table, whose first row names the unknown action `FOO` in
slot 1: the bindings made are those of the two valid slots. -/
theorem cfg_setbind_default_unknown_action_witness :
    (cfg_setbind sample_env sample_actions sample_binding sample_event .null).1 = .ret 0 ∧
      (cfg_setbind sample_env sample_actions sample_binding sample_event .null).2.bind =
        [⟨"A".toList, 0, 1, 255, 4⟩, ⟨"B".toList, 2, 2, 15, 1⟩] :=
  ⟨(cfg_setbind_default_unknown_action sample_env sample_actions sample_binding sample_event
      0 ⟨"A".toList, fun j => if j = 0 then some "FIRE".toList
        else if j = 1 then some "FOO".toList else none⟩ 1 "FOO".toList rfl rfl (by decide)).1,
    by decide⟩

/-- C4, amended.  A line of at most 255 characters, its terminator counted, so
that `lzoe_fgets(buf, 256, f)` hands it to the loop as one buffer, whose fields
are a key, which is no command keyword, and an action name that the registry
does not have, goes to `fail` from every state without touching the event
state; and a user file that holds such a line makes `cfg_setbind` return -1,
with the event state that the buffers before it leave: no binding is made for
the line, nor for any line after it. -/
theorem cfg_setbind_unknown_action_fails {κ D : Type} (e : env κ D)
    (tbl : List cfg_evtact_t) (buf k a : List Char)
    (hb : buf.length ≤ 255) (hf : fields (chop buf) = [k, a])
    (hk : is_keyword k = false) (ha : ∀ en ∈ tbl, en.name ≠ a) :
    (∀ map event, cfg_setbind_line e tbl map event buf = .fail event) ∧
      ∀ binding event pre post,
        (cfg_setbind e tbl binding event (.lines (pre ++ buf :: post))).1 = .ret (-1) ∧
          (cfg_setbind e tbl binding event (.lines (pre ++ buf :: post))).2 =
            (cfg_setbind e tbl binding event (.lines pre)).2 := by
  have hl : ∀ map event, cfg_setbind_line e tbl map event buf = .fail event := by
    intro map event
    have h : cfg_get_evtact tbl a < 0 := by
      have := (cfg_get_evtact_from_none tbl 0 a).2 ha
      unfold cfg_get_evtact
      omega
    rw [cfg_setbind_line_bind e tbl map event buf k a hb hf hk, if_pos h]
  exact ⟨hl, fun binding event pre post => cfg_setbind_fail_at e tbl buf hl binding event pre post⟩

/-- C4 amended, at the line `B FOO` after a valid line and before another. -/
theorem cfg_setbind_unknown_action_fails_witness :
    (cfg_setbind sample_env sample_actions sample_binding sample_event
        (.lines (["A UP\n".toList] ++ "B FOO\n".toList :: ["B UP\n".toList]))).1 = .ret (-1) ∧
      (cfg_setbind sample_env sample_actions sample_binding sample_event
        (.lines (["A UP\n".toList] ++ "B FOO\n".toList :: ["B UP\n".toList]))).2 =
      (cfg_setbind sample_env sample_actions sample_binding sample_event
        (.lines ["A UP\n".toList])).2 :=
  (cfg_setbind_unknown_action_fails sample_env sample_actions "B FOO\n".toList "B".toList
    "FOO".toList (by decide) (by decide) (by decide) (by decide)).2
      sample_binding sample_event _ _

/-! ## `ADD_COMBO` lines -/

theorem cfg_setbind_line_add_combo {κ D : Type} (e : env κ D) (tbl : List cfg_evtact_t)
    (map : Int) (event : event_t κ D) (buf c a a2 a3 : List Char)
    (hb : buf.length ≤ 255) (hf : fields (chop buf) = [c, a, a2, a3])
    (hc : stricmp c "add_combo".toList = 0) :
    cfg_setbind_line e tbl map event buf =
      if atoi a > 31 ∨ atoi a < 0 then .fail event
      else if (e.event_combine event.combo a2 a3 (atoi a)).2 ≠ 0 then
        .fail { event with combo := (e.event_combine event.combo a2 a3 (atoi a)).1 }
      else .next map { event with combo := (e.event_combine event.combo a2 a3 (atoi a)).1 } := by
  rw [cfg_setbind_line_of_short e tbl map event buf
    (fields_chop_short buf hb (by rw [hf]; simp))]
  simp only [String.toList] at hc
  simp [hf, cfg_setbind_dispatch, hc]

/-- C7, amended.  A four-field line `ADD_COMBO id A B` of at most 255 characters,
its terminator counted, so that `lzoe_fgets(buf, 256, f)` hands it to the loop
as one buffer, the keyword in any case, `id` a numeral that fits `int`: when the
number it denotes is below 0 or above 31 the line goes to `fail` with the event
state untouched, whatever `event_combine` is, so that no registration is
attempted, and `cfg_setbind` returns -1; when it is in 0..31 the combo state
becomes the one that `event_combine` returns for (`A`, `B`, `id`), and the line
succeeds, keeping the map, exactly when `event_combine` returns 0. -/
theorem add_combo_line {κ D : Type} (e : env κ D) (tbl : List cfg_evtact_t)
    (buf c id a b : List Char)
    (hb : buf.length ≤ 255) (hf : fields (chop buf) = [c, id, a, b])
    (hc : stricmp c "add_combo".toList = 0) (hfit : fits_int id = true) :
    ((atoi_value id < 0 ∨ 31 < atoi_value id) →
      (∀ map event, cfg_setbind_line e tbl map event buf = .fail event) ∧
        ∀ binding event pre post,
          (cfg_setbind e tbl binding event (.lines (pre ++ buf :: post))).1 = .ret (-1) ∧
            (cfg_setbind e tbl binding event (.lines (pre ++ buf :: post))).2 =
              (cfg_setbind e tbl binding event (.lines pre)).2) ∧
    ((0 ≤ atoi_value id ∧ atoi_value id ≤ 31) → ∀ map event,
      ((e.event_combine event.combo a b (atoi_value id)).2 = 0 →
        cfg_setbind_line e tbl map event buf =
          .next map
            { event with combo := (e.event_combine event.combo a b (atoi_value id)).1 }) ∧
      ((e.event_combine event.combo a b (atoi_value id)).2 ≠ 0 →
        cfg_setbind_line e tbl map event buf =
          .fail
            { event with combo := (e.event_combine event.combo a b (atoi_value id)).1 })) ∧
    (∀ n : Int, -2147483648 ≤ n ∧ n < 2147483648 → id = (Int.repr n).toList →
      atoi_value id = n) := by
  have hv := atoi_of_fits id hfit
  refine ⟨fun h => ?_, fun h map event => ⟨fun h2 => ?_, fun h2 => ?_⟩, ?_⟩
  · have hl : ∀ map event, cfg_setbind_line e tbl map event buf = .fail event := by
      intro map event
      rw [cfg_setbind_line_add_combo e tbl map event buf c id a b hb hf hc, if_pos (by omega)]
    exact ⟨hl, fun binding event pre post =>
      cfg_setbind_fail_at e tbl buf hl binding event pre post⟩
  · rw [cfg_setbind_line_add_combo e tbl map event buf c id a b hb hf hc, hv,
      if_neg (by omega), if_neg (by simpa using h2)]
  · rw [cfg_setbind_line_add_combo e tbl map event buf c id a b hb hf hc, hv,
      if_neg (by omega), if_pos h2]
  · intro n hn hid
    rw [hid]
    exact (atoi_value_repr n hn).1

/-- C7 amended, at `ADD_COMBO 32 A B`, which fails without a registration, and
at `add_combo 5 A B`, which registers chord 5 in the sample environment. -/
theorem add_combo_line_witness :
    cfg_setbind_line sample_env sample_actions 1 sample_event "ADD_COMBO 32 A B\n".toList =
        .fail sample_event ∧
      cfg_setbind_line sample_env sample_actions 1 sample_event "add_combo 5 A B\n".toList =
        .next 1 { sample_event with combo := [⟨5, "A".toList, "B".toList⟩] } :=
  ⟨((add_combo_line sample_env sample_actions "ADD_COMBO 32 A B\n".toList
      "ADD_COMBO".toList "32".toList "A".toList "B".toList
      (by decide) (by decide) (by decide) (by decide)).1 (by decide)).1 1 sample_event,
   ((add_combo_line sample_env sample_actions "add_combo 5 A B\n".toList
      "add_combo".toList "5".toList "A".toList "B".toList
      (by decide) (by decide) (by decide) (by decide)).2.1 (by decide) 1 sample_event).1
        (by decide)⟩

/-! ## Lines with too many fields -/

theorem cfg_setbind_line_too_many {κ D : Type} (e : env κ D) (tbl : List cfg_evtact_t)
    (map : Int) (event : event_t κ D) (buf : List Char)
    (h : 4 < (fields (chop buf)).length ∨
      (2 < (fields (chop buf)).length ∧
        stricmp ((fields (chop buf)).getD 0 []) "add_combo".toList ≠ 0)) :
    cfg_setbind_line e tbl map event buf = .fail event := by
  by_cases hs : ∀ f ∈ (fields (chop buf)).take 4, f.length < 255
  · rw [cfg_setbind_line_of_short e tbl map event buf hs]
    rcases h with h | ⟨h, hc⟩
    · simp [cfg_setbind_dispatch, h]
    · have h3 : (fields (chop buf)).getD 2 [] ≠ [] := by
        have hm : (fields (chop buf)).getD 2 [] ∈ fields (chop buf) := by
          rw [List.getD_eq_getElem _ _ h]
          exact List.getElem_mem _
        exact fields_ne_nil _ _ hm
      simp only [String.toList, List.getD_eq_getElem?_getD] at hc h3
      simp [cfg_setbind_dispatch, hc, h3]
  · exact cfg_setbind_line_of_bad e tbl map event buf hs

/-- C10, amended.  A buffer of `lzoe_fgets(buf, 256, f)`, which is a whole line
when the line has at most 255 characters, its terminator counted: a buffer
with more than four whitespace-separated fields, and a buffer with more than
two fields whose first field is not `ADD_COMBO` (in any case), go to `fail`
from every state and leave the event state (bindings, combos, coalesce window)
as they found it; `cfg_setbind` then returns -1 with the event state that the
buffers before it leave, the selected map dying with the call. -/
theorem too_many_fields_fatal {κ D : Type} (e : env κ D) (tbl : List cfg_evtact_t)
    (buf : List Char) :
    (4 < (fields (chop buf)).length →
      (∀ map event, cfg_setbind_line e tbl map event buf = .fail event) ∧
        ∀ binding event pre post,
          (cfg_setbind e tbl binding event (.lines (pre ++ buf :: post))).1 = .ret (-1) ∧
            (cfg_setbind e tbl binding event (.lines (pre ++ buf :: post))).2 =
              (cfg_setbind e tbl binding event (.lines pre)).2) ∧
    (2 < (fields (chop buf)).length →
      stricmp ((fields (chop buf)).getD 0 []) "add_combo".toList ≠ 0 →
      (∀ map event, cfg_setbind_line e tbl map event buf = .fail event) ∧
        ∀ binding event pre post,
          (cfg_setbind e tbl binding event (.lines (pre ++ buf :: post))).1 = .ret (-1) ∧
            (cfg_setbind e tbl binding event (.lines (pre ++ buf :: post))).2 =
              (cfg_setbind e tbl binding event (.lines pre)).2) := by
  constructor
  · intro h
    have hl : ∀ map event, cfg_setbind_line e tbl map event buf = .fail event :=
      fun map event => cfg_setbind_line_too_many e tbl map event buf (Or.inl h)
    exact ⟨hl, fun binding event pre post =>
      cfg_setbind_fail_at e tbl buf hl binding event pre post⟩
  · intro h hc
    have hl : ∀ map event, cfg_setbind_line e tbl map event buf = .fail event :=
      fun map event => cfg_setbind_line_too_many e tbl map event buf (Or.inr ⟨h, hc⟩)
    exact ⟨hl, fun binding event pre post =>
      cfg_setbind_fail_at e tbl buf hl binding event pre post⟩

/-- C10 amended, at the five-field line `ADD_COMBO 5 A B C` and at the three-field line
`A FIRE UP`. -/
theorem too_many_fields_fatal_witness :
    cfg_setbind_line sample_env sample_actions 2 sample_event "ADD_COMBO 5 A B C\n".toList =
        .fail sample_event ∧
      cfg_setbind_line sample_env sample_actions 2 sample_event "A FIRE UP\n".toList =
        .fail sample_event :=
  ⟨((too_many_fields_fatal sample_env sample_actions "ADD_COMBO 5 A B C\n".toList).1
      (by decide)).1 2 sample_event,
   ((too_many_fields_fatal sample_env sample_actions "A FIRE UP\n".toList).2
      (by decide) (by decide)).1 2 sample_event⟩

/-! ## Duplicate combo ids, with the combo registry of the specification -/

theorem stricmp_not_map_of_add_combo (c : List Char) (h : stricmp c "add_combo".toList = 0) :
    stricmp c "map".toList ≠ 0 :=
  fun hm => stricmp_map_not_add_combo c hm h

theorem stricmp_not_map_of_combo_delay (c : List Char)
    (h : stricmp c "combo_delay".toList = 0) : stricmp c "map".toList ≠ 0 :=
  fun hm => stricmp_map_not_combo_delay c hm h

/-- What a line that does not fail does to the selected map: a `MAP` line sets
it to its number and changes nothing else; any other line keeps it. -/
theorem cfg_setbind_line_map_change {κ D : Type} (e : env κ D) (tbl : List cfg_evtact_t)
    (m m' : Int) (ev ev' : event_t κ D) (buf : List Char)
    (h : cfg_setbind_line e tbl m ev buf = .next m' ev') :
    m' = (map_number buf).getD m ∧ ((map_number buf).isSome → ev' = ev) := by
  by_cases hs : ∀ f ∈ (fields (chop buf)).take 4, f.length < 255
  · rw [cfg_setbind_line_of_short e tbl m ev buf hs] at h
    have hne := fields_ne_nil (chop buf)
    unfold map_number
    generalize fields (chop buf) = F at h hne ⊢
    have hlen : F.getD 2 [] = [] → F.length ≤ 2 := by
      intro h2
      by_contra hc
      have hc' : 2 < F.length := by omega
      have hm : F.getD 2 [] ∈ F := by
        rw [List.getD_eq_getElem _ _ hc']
        exact List.getElem_mem _
      exact hne _ hm h2
    by_cases hm : stricmp (F.getD 0 []) "map".toList = 0
    · have h1 := stricmp_map_not_add_combo _ hm
      have h2 := stricmp_map_not_combo_delay _ hm
      simp only [cfg_setbind_dispatch, h1, h2, hm, ne_eq, not_true_eq_false, if_false,
        decide_False, Bool.and_false, Bool.false_eq_true, if_true, decide_eq_true_eq] at h
      split_ifs at h with h3 h4
      simp only [step.next.injEq] at h
      have h5 : F.length ≤ 2 := hlen (by
        by_contra hc
        exact h3 (Or.inl hc))
      rw [if_pos ⟨h5, hm⟩]
      exact ⟨h.1.symm, fun _ => h.2.symm⟩
    · rw [if_neg (fun hc => hm hc.2)]
      simp only [cfg_setbind_dispatch, hm, if_false] at h
      refine ⟨?_, fun hc => by simp at hc⟩
      simp only [Option.getD_none]
      split_ifs at h <;> simp only [step.next.injEq, reduceCtorEq] at h <;> exact h.1.symm
  · rw [cfg_setbind_line_of_bad e tbl m ev buf hs] at h
    simp at h

theorem cfg_setbind_loop_selected_map {κ D : Type} (e : env κ D) (tbl : List cfg_evtact_t)
    (pre : List (List Char)) (m m' : Int) (ev ev' : event_t κ D)
    (h : cfg_setbind_loop e tbl m ev pre = .next m' ev') : m' = selected_map m pre := by
  induction pre generalizing m ev with
  | nil =>
    simp only [cfg_setbind_loop, step.next.injEq] at h
    simp [selected_map, h.1]
  | cons b pre ih =>
    simp only [cfg_setbind_loop] at h
    cases hl : cfg_setbind_line e tbl m ev b with
    | next m1 ev1 =>
      rw [hl] at h
      have := (cfg_setbind_line_map_change e tbl m m1 ev ev1 b hl).1
      rw [ih m1 ev1 h, this]
      simp [selected_map]
    | fail ev1 => rw [hl] at h; simp at h

theorem selected_map_no_map_line (m : Int) (pre : List (List Char))
    (h : ∀ b ∈ pre, map_number b = none) : selected_map m pre = m := by
  induction pre with
  | nil => rfl
  | cons b pre ih =>
    have hb := h b (List.mem_cons_self _ _)
    have := ih (fun b' hb' => h b' (List.mem_cons_of_mem _ hb'))
    simp only [selected_map, List.foldl_cons, hb, Option.getD_none] at this ⊢
    exact this

/-- C6, as it is written, fails for a `MAP` line without a number: after `MAP 2`
and `MAP`, the most recent `MAP n` line is `MAP 2`, so the claim has `A UP` bound
under map 2, while `cfg_setbind` binds it under map 0. -/
theorem map_without_number_counterexample :
    claimed_map ["MAP 2\n".toList, "MAP\n".toList] = 2 ∧
      cfg_setbind sample_env sample_actions [] sample_event
        (.lines ["MAP 2\n".toList, "MAP\n".toList, "A UP\n".toList]) =
        (.ret 0, { sample_event with bind := [⟨"A".toList, 0, 2, 15, 1⟩] }) := by
  decide

/-- The number of a `MAP` line whose numeral fits `int` is the number that the
numeral denotes. -/
theorem map_number_of_fits (buf : List Char) (h : (map_number buf).isSome = true)
    (hfit : fits_int ((fields (chop buf)).getD 1 []) = true) :
    map_number buf = some (atoi_value ((fields (chop buf)).getD 1 [])) := by
  unfold map_number at h ⊢
  split_ifs at h ⊢ with hc
  · rw [atoi_of_fits _ hfit]
  · simp at h

/-- C6, amended.  The lines are lines of at most 255 characters, their
terminator counted, so that `lzoe_fgets(buf, 256, f)` hands each of them to the
loop as one buffer.  A `MAP` line is a line of at most two fields whose first
field is `MAP`, in any case; its number is what `atoi` makes of the second field:
0 when there is none, and the number that the numeral denotes when it fits
`int`.  After lines `pre` that did not fail, and whose `MAP` lines have numerals
that fit `int`, the loop holds the map given by the most recent `MAP` line of
`pre`, 0 if there is none, and a `key action` line that follows (key no
keyword, action in the registry) is bound under that map.  A line that does not
fail changes the map only if it is a `MAP` line, and then changes nothing else;
a line whose first field is not `MAP` (`ADD_COMBO`, `COMBO_DELAY`, blank,
`key action`) is no `MAP` line. -/
theorem selected_map_bindings {κ D : Type} (e : env κ D) (tbl : List cfg_evtact_t) :
    (∀ (pre : List (List Char)) (ev ev' : event_t κ D) (m' : Int),
      cfg_setbind_loop e tbl 0 ev pre = .next m' ev' →
      (∀ b ∈ pre, (map_number b).isSome = true →
        fits_int ((fields (chop b)).getD 1 []) = true) →
        m' = selected_map 0 pre ∧
        (∀ b ∈ pre, (map_number b).isSome = true →
          map_number b = some (atoi_value ((fields (chop b)).getD 1 []))) ∧
        ((∀ b ∈ pre, map_number b = none) → selected_map 0 pre = 0) ∧
        ∀ buf k a : List Char, buf.length ≤ 255 → fields (chop buf) = [k, a] →
          is_keyword k = false → (∃ en ∈ tbl, en.name = a) →
          cfg_setbind_loop e tbl 0 ev (pre ++ [buf]) =
            .next (selected_map 0 pre)
              (event_map ev' k (selected_map 0 pre) (found_action tbl a).word
                (found_action tbl a).and_mask (found_action tbl a).or_mask)) ∧
    (∀ (m m' : Int) (ev ev' : event_t κ D) (buf : List Char),
      cfg_setbind_line e tbl m ev buf = .next m' ev' →
        m' = (map_number buf).getD m ∧ ((map_number buf).isSome → ev' = ev)) ∧
    (∀ buf : List Char, stricmp ((fields (chop buf)).getD 0 []) "map".toList ≠ 0 →
      map_number buf = none) := by
  refine ⟨?_, ?_, ?_⟩
  · intro pre ev ev' m' h hfit
    have hm := cfg_setbind_loop_selected_map e tbl pre 0 m' ev ev' h
    refine ⟨hm, fun b hb hs => map_number_of_fits b hs (hfit b hb hs),
      selected_map_no_map_line 0 pre, ?_⟩
    intro buf k a hb hf hk ha
    have ha' : ¬ cfg_get_evtact tbl a < 0 := by
      have := (mem_registry_iff tbl a).1 ha
      omega
    rw [cfg_setbind_loop_append, h]
    simp only [cfg_setbind_loop]
    rw [cfg_setbind_line_bind e tbl m' ev' buf k a hb hf hk, if_neg ha', hm]
  · intro m m' ev ev' buf h
    exact cfg_setbind_line_map_change e tbl m m' ev ev' buf h
  · intro buf h
    unfold map_number
    rw [if_neg (fun hc => h hc.2)]

/-- C6 amended, at the lines `MAP 2`, `MAP` followed by `A UP`: the binding is
made under map 0. -/
theorem selected_map_bindings_witness :
    cfg_setbind_loop sample_env sample_actions 0 sample_event
        (["MAP 2\n".toList, "MAP\n".toList] ++ ["A UP\n".toList]) =
      .next 0 (event_map sample_event "A".toList 0 2 15 1) :=
  ((selected_map_bindings sample_env sample_actions).1
    ["MAP 2\n".toList, "MAP\n".toList] sample_event sample_event 0 (by decide)
    (by decide)).2.2.2
    "A UP\n".toList "A".toList "UP".toList (by decide) (by decide) (by decide) (by decide)

/-! ## `COMBO_DELAY` lines -/

/-- A two-field line `COMBO_DELAY ms`: the tests `ms < 0.` and `ms > 100.` on the
result of `atof` decide between `fail`, with the event state untouched, and the
assignment of `ms / 1000.` to the coalesce window. -/
theorem cfg_setbind_line_combo_delay {κ D : Type} (e : env κ D) (tbl : List cfg_evtact_t)
    (map : Int) (event : event_t κ D) (buf c a : List Char)
    (hb : buf.length ≤ 255) (hf : fields (chop buf) = [c, a])
    (hc : stricmp c "combo_delay".toList = 0) :
    cfg_setbind_line e tbl map event buf =
      if e.lt_zero (e.atof a) || e.gt_hundred (e.atof a) then .fail event
      else .next map { event with coalesce_time := e.div_thousand (e.atof a) } := by
  rw [cfg_setbind_line_two e tbl map event buf c a hb hf]
  have h1 : stricmp c "add_combo".toList ≠ 0 :=
    fun h => stricmp_add_combo_not_combo_delay c h hc
  simp only [String.toList] at hc h1
  simp [cfg_setbind_dispatch, hc, h1]

/-! ## Lines with a single field -/

theorem cfg_setbind_line_unknown {κ D : Type} (e : env κ D) (tbl : List cfg_evtact_t)
    (map : Int) (event : event_t κ D) (buf f : List Char)
    (hf : fields (chop buf) = [f]) (hk : is_keyword f = false) :
    cfg_setbind_line e tbl map event buf = .fail event := by
  by_cases hs : ∀ g ∈ (fields (chop buf)).take 4, g.length < 255
  · rw [cfg_setbind_line_of_short e tbl map event buf hs]
    obtain ⟨h1, h2, h3⟩ := (is_keyword_false_iff f).1 hk
    have hf0 : f ≠ [] := fields_ne_nil (chop buf) f (by rw [hf]; simp)
    simp only [String.toList] at h1 h2 h3
    simp [hf, cfg_setbind_dispatch, h1, h2, h3, hf0]
  · exact cfg_setbind_line_of_bad e tbl map event buf hs

/-- C11, amended.  A buffer of `lzoe_fgets(buf, 256, f)`, which is a whole line
when the line has at most 255 characters, its terminator counted: a buffer
that consists of a single field which is none of `MAP`, `ADD_COMBO`,
`COMBO_DELAY` (in any case) goes to `fail` from every state, the event state
untouched, and makes `cfg_setbind` return -1, with the event state that the
buffers before it leave. -/
theorem unknown_command_fatal {κ D : Type} (e : env κ D) (tbl : List cfg_evtact_t)
    (buf f : List Char) (hf : fields (chop buf) = [f]) (hk : is_keyword f = false) :
    (∀ map event, cfg_setbind_line e tbl map event buf = .fail event) ∧
      ∀ binding event pre post,
        (cfg_setbind e tbl binding event (.lines (pre ++ buf :: post))).1 = .ret (-1) ∧
          (cfg_setbind e tbl binding event (.lines (pre ++ buf :: post))).2 =
            (cfg_setbind e tbl binding event (.lines pre)).2 := by
  have hl : ∀ map event, cfg_setbind_line e tbl map event buf = .fail event :=
    fun map event => cfg_setbind_line_unknown e tbl map event buf f hf hk
  exact ⟨hl, fun binding event pre post =>
    cfg_setbind_fail_at e tbl buf hl binding event pre post⟩

/-- C11 amended, at the line `QUIT` after a valid line. -/
theorem unknown_command_fatal_witness :
    (cfg_setbind sample_env sample_actions sample_binding sample_event
      (.lines (["A UP\n".toList] ++ "  QUIT ; leave\n".toList :: []))).1 = .ret (-1) :=
  ((unknown_command_fatal sample_env sample_actions "  QUIT ; leave\n".toList "QUIT".toList
    (by decide) (by decide)).2 sample_binding sample_event _ _).1

/-! ## The length limit of a field -/

/-- C13, at the line `A UP ; x ; y`: the buffer is cut at its last `;`, so that
the line is read as the four fields `A`, `UP`, `;`, `x` and `cfg_setbind`
returns -1 without a binding, while the line cut at its first `;`, which is
`A UP `, makes it return 0 with the binding of `A` to `UP`. -/
theorem comment_cut_at_last_semicolon :
    chop "A UP ; x ; y\n".toList = "A UP ; x ".toList ∧
      fields (chop "A UP ; x ; y\n".toList) =
        ["A".toList, "UP".toList, ";".toList, "x".toList] ∧
      cfg_setbind sample_env sample_actions [] sample_event
        (.lines ["A UP ; x ; y\n".toList]) = (.ret (-1), sample_event) ∧
      cfg_setbind sample_env sample_actions [] sample_event
        (.lines ["A UP ".toList]) =
          (.ret 0, { sample_event with bind := [⟨"A".toList, 0, 2, 15, 1⟩] }) := by
  decide

/-! ## Blank lines -/

/-- A line that has no field after the truncation is passed over. -/
theorem cfg_setbind_line_blank {κ D : Type} (e : env κ D) (tbl : List cfg_evtact_t)
    (map : Int) (event : event_t κ D) (buf : List Char) (hf : fields (chop buf) = []) :
    cfg_setbind_line e tbl map event buf = .next map event := by
  rw [cfg_setbind_line_of_short e tbl map event buf (by rw [hf]; simp)]
  have h := stricmp_nil_keyword
  simp only [String.toList] at h
  simp [hf, cfg_setbind_dispatch, h.1, h.2.1, h.2.2]

/-- C15, at the line of two blanks and the comment `; maps ; see below`: the
buffer is cut at the last `;`, which leaves the two fields `;` and `maps`, a
`key action` line with an unknown action, and `cfg_setbind` returns -1, while
the file without the line makes it return 0. -/
theorem blank_line_with_two_semicolons :
    fields (chop "  ; maps ; see below\n".toList) = [";".toList, "maps".toList] ∧
      cfg_setbind sample_env sample_actions [] sample_event
        (.lines ["A UP\n".toList, "  ; maps ; see below\n".toList]) =
          (.ret (-1), { sample_event with bind := [⟨"A".toList, 0, 2, 15, 1⟩] }) ∧
      cfg_setbind sample_env sample_actions [] sample_event
        (.lines ["A UP\n".toList]) =
          (.ret 0, { sample_event with bind := [⟨"A".toList, 0, 2, 15, 1⟩] }) := by
  decide

/-! ## Failure in the middle of a file -/

/-- What a line that goes to `fail` leaves behind: the bindings and the coalesce
window as they were, and the combo state as it was or as a refusing
`event_combine` left it. -/
theorem cfg_setbind_line_fail_state {κ D : Type} (e : env κ D) (tbl : List cfg_evtact_t)
    (map : Int) (event event' : event_t κ D) (buf : List Char)
    (h : cfg_setbind_line e tbl map event buf = .fail event') :
    event'.bind = event.bind ∧ event'.coalesce_time = event.coalesce_time ∧
      (event' = event ∨ ∃ a b j, (e.event_combine event.combo a b j).2 ≠ 0 ∧
        event' = { event with combo := (e.event_combine event.combo a b j).1 }) := by
  unfold cfg_setbind_line cfg_setbind_dispatch at h
  simp only at h
  split_ifs at h with h1 h2 h3 h4 <;> simp only [step.fail.injEq, reduceCtorEq] at h <;>
    first
      | (subst h; exact ⟨rfl, rfl, Or.inl rfl⟩)
      | (subst h; exact ⟨rfl, rfl, Or.inr ⟨_, _, _, h4, rfl⟩⟩)

/-- C16, amended.  The lines are buffers of `lzoe_fgets(buf, 256, f)`, which are
whole lines when the lines have at most 255 characters, their terminator
counted.  When the lines `pre` of the user file are processed without failure
and the next line goes to `fail`, `cfg_setbind` returns -1 whatever lines
follow, and the lines that follow have no effect on the event state it leaves;
`cfg_setbind` on the lines `pre` alone returns 0, and the event state left by
the failure has the bindings and the coalesce window of that run.  It has its
combos too, hence is that very state, provided `event_combine`, which is not
part of `cfg.c`, registers nothing when it refuses a chord. -/
theorem cfg_setbind_fails_at_line {κ D : Type} (e : env κ D) (tbl : List cfg_evtact_t)
    (binding : List cfg_kbd_t) (event : event_t κ D) (pre : List (List Char))
    (buf : List Char) (m : Int) (ev ev' : event_t κ D)
    (hpre : cfg_setbind_loop e tbl 0 (cfg_setbind_defaults tbl binding event) pre = .next m ev)
    (hk : cfg_setbind_line e tbl m ev buf = .fail ev') :
    cfg_setbind e tbl binding event (.lines pre) = (.ret 0, ev) ∧
      (∀ post, cfg_setbind e tbl binding event (.lines (pre ++ buf :: post)) =
        (.ret (-1), ev')) ∧
      ev'.bind = ev.bind ∧ ev'.coalesce_time = ev.coalesce_time ∧
      ((∀ k a b j, (e.event_combine k a b j).2 ≠ 0 → (e.event_combine k a b j).1 = k) →
        ev' = ev) := by
  obtain ⟨hb, hc, hs⟩ := cfg_setbind_line_fail_state e tbl m ev ev' buf hk
  refine ⟨?_, ?_, hb, hc, ?_⟩
  · simp only [cfg_setbind, hpre]
  · intro post
    simp only [cfg_setbind]
    rw [cfg_setbind_loop_append, hpre]
    simp only [cfg_setbind_loop, hk]
  · intro hrefuse
    rcases hs with hs | ⟨a, b, j, hne, hs⟩
    · exact hs
    · rw [hs, hrefuse _ a b j hne]

/-- C16 amended, at a file whose second line `B FOO` names an unknown action: the
binding of the first line stays, the third line is not processed. -/
theorem cfg_setbind_fails_at_line_witness :
    cfg_setbind sample_env sample_actions [] sample_event
      (.lines (["A UP\n".toList] ++ "B FOO\n".toList :: ["B FIRE\n".toList])) =
        (.ret (-1), { sample_event with bind := [⟨"A".toList, 0, 2, 15, 1⟩] }) :=
  (cfg_setbind_fails_at_line sample_env sample_actions [] sample_event ["A UP\n".toList]
    "B FOO\n".toList 0 { sample_event with bind := [⟨"A".toList, 0, 2, 15, 1⟩] }
    { sample_event with bind := [⟨"A".toList, 0, 2, 15, 1⟩] }
    (by decide) (by decide)).2.1 ["B FIRE\n".toList]

/-! ## The case of the keywords -/

theorem strrchr_cut_of_not_mem (c : Char) (s : List Char) (h : c ∉ s) :
    strrchr_cut c s = s := by
  cases s with
  | nil => rfl
  | cons x s =>
    simp only [List.mem_cons, not_or] at h
    unfold strrchr_cut
    rw [if_neg h.2, if_neg (fun hx => h.1 hx.symm)]

theorem strrchr_cut_append (c : Char) (a b : List Char) :
    strrchr_cut c (a ++ b) =
      if c ∈ b then a ++ strrchr_cut c b
      else if c ∈ a then strrchr_cut c a else a ++ b := by
  induction a with
  | nil =>
    by_cases hb : c ∈ b
    · simp [hb]
    · simp [hb, strrchr_cut_of_not_mem c b hb]
  | cons x a ih =>
    by_cases hb : c ∈ b
    · simp only [List.cons_append, hb, if_true] at ih ⊢
      rw [strrchr_cut, if_pos (by simp [hb]), ih]
    · simp only [List.cons_append, hb, if_false] at ih ⊢
      by_cases ha : c ∈ a
      · simp only [ha, if_true] at ih
        rw [strrchr_cut, if_pos (by simp [ha]), ih, if_pos (by simp [ha])]
        rw [strrchr_cut, if_pos ha]
      · simp only [ha, if_false] at ih
        rw [strrchr_cut, if_neg (by simp [ha, hb])]
        by_cases hx : x = c
        · rw [if_pos hx, if_pos (by simp [hx])]
          rw [strrchr_cut, if_neg ha, if_pos hx]
        · rw [if_neg hx, if_neg (by simp [ha]; exact fun h => hx h.symm)]

/-- Cutting two buffers that differ only in a stretch `kw`, `kw'` free of the
character cut at: either both keep the stretch, with the same text before and
after it, or they become equal. -/
theorem strrchr_cut_sandwich (c : Char) (ws kw kw' : List Char) (hc : c ∉ kw) (hc' : c ∉ kw')
    (s s' : List Char)
    (h : (∃ rest, s = ws ++ kw ++ rest ∧ s' = ws ++ kw' ++ rest) ∨ s = s') :
    (∃ rest, strrchr_cut c s = ws ++ kw ++ rest ∧ strrchr_cut c s' = ws ++ kw' ++ rest) ∨
      strrchr_cut c s = strrchr_cut c s' := by
  rcases h with ⟨rest, rfl, rfl⟩ | rfl
  · by_cases hr : c ∈ rest
    · left
      refine ⟨strrchr_cut c rest, ?_, ?_⟩
      · rw [strrchr_cut_append, if_pos hr]
      · rw [strrchr_cut_append, if_pos hr]
    · rw [strrchr_cut_append c (ws ++ kw) rest, if_neg hr,
        strrchr_cut_append c (ws ++ kw') rest, if_neg hr]
      by_cases hw : c ∈ ws
      · right
        rw [if_pos (by simp [hw]), if_pos (by simp [hw]),
          strrchr_cut_append, if_neg hc, if_pos hw,
          strrchr_cut_append, if_neg hc', if_pos hw]
      · left
        refine ⟨rest, ?_, ?_⟩
        · rw [if_neg (by simp [hw, hc])]
        · rw [if_neg (by simp [hw, hc'])]
  · right; rfl

theorem chop_sandwich (ws kw kw' rest : List Char)
    (hk : ∀ c ∈ kw, isspace c = false ∧ c ≠ ';')
    (hk' : ∀ c ∈ kw', isspace c = false ∧ c ≠ ';') :
    (∃ rest', chop (ws ++ kw ++ rest) = ws ++ kw ++ rest' ∧
        chop (ws ++ kw' ++ rest) = ws ++ kw' ++ rest') ∨
      chop (ws ++ kw ++ rest) = chop (ws ++ kw' ++ rest) := by
  have n1 : ';' ∉ kw := fun h => (hk _ h).2 rfl
  have n1' : ';' ∉ kw' := fun h => (hk' _ h).2 rfl
  have n2 : '\r' ∉ kw := fun h => by have := (hk _ h).1; simp [isspace] at this
  have n2' : '\r' ∉ kw' := fun h => by have := (hk' _ h).1; simp [isspace] at this
  have n3 : '\n' ∉ kw := fun h => by have := (hk _ h).1; simp [isspace] at this
  have n3' : '\n' ∉ kw' := fun h => by have := (hk' _ h).1; simp [isspace] at this
  unfold chop
  exact strrchr_cut_sandwich '\n' ws kw kw' n3 n3' _ _
    (strrchr_cut_sandwich '\r' ws kw kw' n2 n2' _ _
      (strrchr_cut_sandwich ';' ws kw kw' n1 n1' _ _ (Or.inl ⟨rest, rfl, rfl⟩)))

theorem fields_space_append (ws s : List Char) (h : ∀ c ∈ ws, isspace c = true) :
    fields (ws ++ s) = fields s := by
  induction ws with
  | nil => rfl
  | cons c ws ih =>
    rw [List.cons_append, fields_cons_space _ _ (h c (List.mem_cons_self _ _))]
    exact ih (fun c' hc' => h c' (List.mem_cons_of_mem _ hc'))

theorem fields_word_append (kw r : List Char) (h0 : kw ≠ [])
    (h : ∀ c ∈ kw, isspace c = false) :
    fields (kw ++ r) =
      (kw ++ r.takeWhile (fun c => !isspace c)) :: fields (r.dropWhile (fun c => !isspace c)) := by
  cases kw with
  | nil => exact absurd rfl h0
  | cons c k =>
    have hc := h c (List.mem_cons_self _ _)
    have hk : ∀ a ∈ k, (fun c => !isspace c) a = true := by
      intro a ha
      simp [h a (List.mem_cons_of_mem _ ha)]
    rw [List.cons_append, fields_cons_nonspace _ _ hc,
      List.takeWhile_append_of_pos hk, List.dropWhile_append_of_pos hk]
    rfl

theorem toLower_of_special (c : Char) (h : isspace c = true ∨ c = ';') : c.toLower = c := by
  rcases h with h | h
  · simp only [isspace, Bool.or_eq_true, beq_iff_eq] at h
    rcases h with ((((h | h) | h) | h) | h) | h <;> subst h <;> decide
  · subst h; decide

/-- What being a keyword says of a field and of its lower-case form. -/
theorem keyword_facts (kw : List Char) (h : is_keyword kw = true) :
    kw ≠ [] ∧ kw.length < 255 ∧ (kw.map Char.toLower).length < 255 ∧
      (∀ c ∈ kw, isspace c = false ∧ c ≠ ';') ∧
      (∀ c ∈ kw.map Char.toLower, isspace c = false ∧ c ≠ ';') ∧
      (∀ X, stricmp (kw.map Char.toLower) X = stricmp kw X) := by
  have key : ∀ K : List Char, kw.map Char.toLower = K → K ≠ [] → K.length < 255 →
      (∀ c ∈ K, isspace c = false ∧ c ≠ ';') → K.map Char.toLower = K →
      kw ≠ [] ∧ kw.length < 255 ∧ (kw.map Char.toLower).length < 255 ∧
        (∀ c ∈ kw, isspace c = false ∧ c ≠ ';') ∧
        (∀ c ∈ kw.map Char.toLower, isspace c = false ∧ c ≠ ';') ∧
        (∀ X, stricmp (kw.map Char.toLower) X = stricmp kw X) := by
    intro K hK h0 hlen hclean hlow
    have hl : kw.length = K.length := by rw [← hK, List.length_map]
    refine ⟨?_, by omega, by rw [hK]; exact hlen, ?_, by rw [hK]; exact hclean, ?_⟩
    · intro hn
      rw [hn] at hK
      exact h0 hK.symm
    · intro c hc
      have hm : c.toLower ∈ K := by
        rw [← hK]
        exact List.mem_map_of_mem _ hc
      have hcl := hclean _ hm
      constructor
      · by_contra hsp
        have hsp' : isspace c = true := by simpa using hsp
        rw [toLower_of_special c (Or.inl hsp')] at hcl
        rw [hsp'] at hcl
        exact absurd hcl.1 (by simp)
      · intro hsemi
        rw [toLower_of_special c (Or.inr hsemi)] at hcl
        exact hcl.2 hsemi
    · intro X
      unfold stricmp
      rw [hK, hlow]
  simp only [is_keyword, Bool.or_eq_true, decide_eq_true_eq, stricmp_eq_zero_iff] at h
  rcases h with (h | h) | h
  · exact key _ h (by decide) (by decide) (by decide) (by decide)
  · exact key _ h (by decide) (by decide) (by decide) (by decide)
  · exact key _ h (by decide) (by decide) (by decide) (by decide)

/-- The rest of the loop body reads a keyword only through `stricmp`. -/
theorem cfg_setbind_dispatch_keyword {κ D : Type} (e : env κ D) (tbl : List cfg_evtact_t)
    (map : Int) (event : event_t κ D) (kw kw' a a2 a3 : List Char) (bad : Nat) (tm : Bool)
    (hk : is_keyword kw = true) (hs : ∀ X, stricmp kw' X = stricmp kw X) :
    cfg_setbind_dispatch e tbl map event
        { cmd := kw, arg := a, arg2 := a2, arg3 := a3, bad := bad, too_many := tm } =
      cfg_setbind_dispatch e tbl map event
        { cmd := kw', arg := a, arg2 := a2, arg3 := a3, bad := bad, too_many := tm } := by
  simp only [is_keyword, Bool.or_eq_true, decide_eq_true_eq] at hk
  simp only [cfg_setbind_dispatch, hs]
  rcases hk with (h | h) | h
  · have h2 := stricmp_add_combo_not_combo_delay kw h
    have h3 := stricmp_not_map_of_add_combo kw h
    simp only [h, h2, h3]
    cases tm <;> simp
  · simp only [h, if_true]
  · have h2 := stricmp_map_not_combo_delay kw h
    simp only [h, h2, if_true, if_false]

theorem cfg_setbind_loop_congr {κ D : Type} (e : env κ D) (tbl : List cfg_evtact_t)
    (buf buf' : List Char)
    (h : ∀ m ev, cfg_setbind_line e tbl m ev buf = cfg_setbind_line e tbl m ev buf')
    (map : Int) (event : event_t κ D) (pre post : List (List Char)) :
    cfg_setbind_loop e tbl map event (pre ++ buf :: post) =
      cfg_setbind_loop e tbl map event (pre ++ buf' :: post) := by
  rw [cfg_setbind_loop_append, cfg_setbind_loop_append]
  cases cfg_setbind_loop e tbl map event pre with
  | next m' ev' => simp only [cfg_setbind_loop, h]
  | fail ev' => rfl

theorem cfg_setbind_line_keyword_case {κ D : Type} (e : env κ D) (tbl : List cfg_evtact_t)
    (map : Int) (event : event_t κ D) (ws kw rest : List Char)
    (hws : ∀ c ∈ ws, isspace c = true) (hkw : is_keyword kw = true)
    (hfirst : (fields (chop (ws ++ kw ++ rest))).head? = some kw) :
    cfg_setbind_line e tbl map event (ws ++ kw ++ rest) =
      cfg_setbind_line e tbl map event (ws ++ kw.map Char.toLower ++ rest) := by
  obtain ⟨h0, hl, hl', hc, hc', hs⟩ := keyword_facts kw hkw
  have h0' : kw.map Char.toLower ≠ [] := by simpa using h0
  rcases chop_sandwich ws kw (kw.map Char.toLower) rest hc hc' with ⟨rest', h1, h2⟩ | heq
  · have f1 : fields (chop (ws ++ kw ++ rest)) =
        (kw ++ rest'.takeWhile (fun c => !isspace c)) ::
          fields (rest'.dropWhile (fun c => !isspace c)) := by
      rw [h1, List.append_assoc, fields_space_append _ _ hws,
        fields_word_append kw rest' h0 (fun c hcm => (hc c hcm).1)]
    have f2 : fields (chop (ws ++ kw.map Char.toLower ++ rest)) =
        (kw.map Char.toLower ++ rest'.takeWhile (fun c => !isspace c)) ::
          fields (rest'.dropWhile (fun c => !isspace c)) := by
      rw [h2, List.append_assoc, fields_space_append _ _ hws,
        fields_word_append _ rest' h0' (fun c hcm => (hc' c hcm).1)]
    have ht : rest'.takeWhile (fun c => !isspace c) = [] := by
      rw [f1] at hfirst
      simp only [List.head?_cons, Option.some.injEq] at hfirst
      exact List.append_right_eq_self.1 hfirst
    rw [ht, List.append_nil] at f1 f2
    generalize fields (rest'.dropWhile (fun c => !isspace c)) = T at f1 f2
    by_cases hsh : ∀ f ∈ T.take 3, f.length < 255
    · have s1 : ∀ f ∈ (fields (chop (ws ++ kw ++ rest))).take 4, f.length < 255 := by
        rw [f1]
        intro f hf
        simp only [List.take_succ_cons, List.mem_cons] at hf
        rcases hf with hf | hf
        · rw [hf]; exact hl
        · exact hsh f hf
      have s2 : ∀ f ∈ (fields (chop (ws ++ kw.map Char.toLower ++ rest))).take 4,
          f.length < 255 := by
        rw [f2]
        intro f hf
        simp only [List.take_succ_cons, List.mem_cons] at hf
        rcases hf with hf | hf
        · rw [hf]; exact hl'
        · exact hsh f hf
      rw [cfg_setbind_line_of_short e tbl map event _ s1,
        cfg_setbind_line_of_short e tbl map event _ s2, f1, f2]
      simp only [List.getD_cons_zero, List.getD_cons_succ, List.length_cons]
      exact cfg_setbind_dispatch_keyword e tbl map event kw _ _ _ _ _ _ hkw hs
    · have s1 : ¬ ∀ f ∈ (fields (chop (ws ++ kw ++ rest))).take 4, f.length < 255 := by
        rw [f1]
        intro h
        exact hsh (fun f hf => h f (by simp [hf]))
      have s2 : ¬ ∀ f ∈ (fields (chop (ws ++ kw.map Char.toLower ++ rest))).take 4,
          f.length < 255 := by
        rw [f2]
        intro h
        exact hsh (fun f hf => h f (by simp [hf]))
      rw [cfg_setbind_line_of_bad e tbl map event _ s1,
        cfg_setbind_line_of_bad e tbl map event _ s2]
  · unfold cfg_setbind_line
    rw [heq]

/-- C14.  For a line whose first field is `MAP`, `ADD_COMBO` or `COMBO_DELAY` in
any mixture of upper and lower case (white space `ws`, the keyword `kw`, then
the rest of the buffer), the loop body ends from every state as it does for the
line with the keyword in lower case; so `cfg_setbind` returns the same value and
leaves the same event state for a file and for the file in which the keyword of
one such line is put in lower case. -/
theorem keyword_case_insensitive {κ D : Type} (e : env κ D) (tbl : List cfg_evtact_t)
    (ws kw rest : List Char) (hws : ∀ c ∈ ws, isspace c = true)
    (hkw : is_keyword kw = true)
    (hfirst : (fields (chop (ws ++ kw ++ rest))).head? = some kw) :
    (∀ map event, cfg_setbind_line e tbl map event (ws ++ kw ++ rest) =
        cfg_setbind_line e tbl map event (ws ++ kw.map Char.toLower ++ rest)) ∧
      ∀ binding event pre post,
        cfg_setbind e tbl binding event (.lines (pre ++ (ws ++ kw ++ rest) :: post)) =
          cfg_setbind e tbl binding event
            (.lines (pre ++ (ws ++ kw.map Char.toLower ++ rest) :: post)) := by
  have hl : ∀ map event, cfg_setbind_line e tbl map event (ws ++ kw ++ rest) =
      cfg_setbind_line e tbl map event (ws ++ kw.map Char.toLower ++ rest) :=
    fun map event => cfg_setbind_line_keyword_case e tbl map event ws kw rest hws hkw hfirst
  refine ⟨hl, fun binding event pre post => ?_⟩
  simp only [cfg_setbind]
  rw [cfg_setbind_loop_congr e tbl _ _ hl]

/-- C14, at the line ` Map 2 ; second map`, which selects map 2 as ` map 2 ; second
map` does. -/
theorem keyword_case_insensitive_witness :
    cfg_setbind_line sample_env sample_actions 0 sample_event
        (" ".toList ++ "Map".toList ++ " 2 ; second map\n".toList) =
      cfg_setbind_line sample_env sample_actions 0 sample_event
        (" ".toList ++ "Map".toList.map Char.toLower ++ " 2 ; second map\n".toList) ∧
    cfg_setbind_line sample_env sample_actions 0 sample_event
        (" ".toList ++ "Map".toList ++ " 2 ; second map\n".toList) = .next 2 sample_event :=
  ⟨(keyword_case_insensitive sample_env sample_actions " ".toList "Map".toList
      " 2 ; second map\n".toList (by decide) (by decide) (by decide)).1 0 sample_event,
    by decide⟩

/-! ## The bus that `cfg_init` assembles -/

theorem ite_append_right {α : Type} (p : Prop) [Decidable p] (X L : List α) :
    (if p then X ++ L else X) = X ++ (if p then L else []) := by
  split_ifs <;> simp

theorem ite_append_both {α : Type} (p : Prop) [Decidable p] (X L M : List α) :
    (if p then X ++ L else X ++ M) = X ++ (if p then L else M) := by
  split_ifs <;> rfl

theorem ite_append_two {α : Type} (p : Prop) [Decidable p] (X L M N : List α) :
    (if p then X ++ L else (X ++ M) ++ N) = X ++ (if p then L else M ++ N) := by
  split_ifs <;> simp

theorem ite_append_four {α : Type} (p : Prop) [Decidable p] (X A B C E : List α) :
    (if p then (((X ++ A) ++ B) ++ C) ++ E else X) =
      X ++ (if p then A ++ (B ++ (C ++ E)) else []) := by
  split_ifs <;> simp

/-- The descriptors that the game registers. -/
theorem game_register_eq (bus : List periph_desc) (descs : List (Nat × Nat × String)) :
    game_register bus descs =
      bus ++ descs.enum.map (fun d => ⟨.game d.1, d.2.1, d.2.2.1, d.2.2.2⟩) := rfl

/-- The bus as a sequence of parts, one for each `periph_register` or block of
them. -/
theorem cfg_init_register_eq (w : init_env) (c : cfg_t) :
    cfg_init_register w c =
      [⟨.cp1600, 0x0000, 0x0000, "CP-1610"⟩, ⟨.psg0, 0x01F0, 0x01FF, "PSG0 AY8914"⟩] ++
      (if c.ecs_enable > 0 then [⟨.psg1, 0x00F0, 0x00FF, "PSG1 AY8914"⟩] else []) ++
      (if c.ivc_enable > 0 ∧ c.audio_rate ≠ 0 then [⟨.ivoice, 0x0080, 0x0081, "Int. Voice"⟩]
        else []) ++
      [⟨.gfx, 0x0000, 0x0000, "[Graphics]"⟩] ++
      (if c.audio_rate ≠ 0 then [⟨.snd, 0x0000, 0x0000, "[Sound]"⟩] else []) ++
      [⟨.scr_ram, 0x0100, 0x01EF, "Scratch RAM"⟩, ⟨.sys_ram, 0x0200, 0x035F, "System RAM"⟩] ++
      (if w.exec_type ≠ 0 then [⟨.sys_ram2, 0x0360, 0x03FF, "System RAM B"⟩] else []) ++
      (if w.exec_type = 0 then [⟨.exec, 0x1000, 0x1FFF, "EXEC ROM"⟩]
        else [⟨.exec, 0x1000, 0x1FFF, "EXEC2 main"⟩, ⟨.exec2, 0x0400, 0x04FF, "EXEC2 aux."⟩]) ++
      (if c.ecs_enable > 0 then
        [⟨.ecs_ram, 0x4000, 0x47FF, "ECS RAM"⟩, ⟨.ecs0, 0x2000, 0x2FFF, "ECS ROM (2xxx)"⟩,
         ⟨.ecs1, 0x7000, 0x7FFF, "ECS ROM (7xxx)"⟩, ⟨.ecs2, 0xE000, 0xEFFF, "ECS ROM (Exxx)"⟩]
        else []) ++
      [⟨.pad0, 0x01F0, 0x01FF, "Pad Pair 0"⟩] ++
      (if c.ecs_enable > 0 then [⟨.pad1, 0x00F0, 0x00FF, "Pad Pair 1"⟩] else []) ++
      (if c.i2pc0_port ≠ 0 then [⟨.i2pc0, 0x01F0, 0x01FF, "INTV2PC #0"⟩] else []) ++
      (if c.i2pc1_port ≠ 0 ∧ c.ecs_enable > 0 then [⟨.i2pc1, 0x00F0, 0x00FF, "INTV2PC #1"⟩]
        else []) ++
      (if c.cgc0_num ≥ 0 then [⟨.cgc0, 0x01F0, 0x01FF, "CGC #0"⟩] else []) ++
      (if c.cgc1_num ≥ 0 ∧ c.ecs_enable > 0 then [⟨.cgc1, 0x00F0, 0x00FF, "CGC #1"⟩]
        else []) ++
      [⟨.stic_cr, 0x0000, 0x007F, "STIC"⟩, ⟨.stic_cr, 0x4000, 0x403F, "STIC (alias)"⟩,
       ⟨.stic_cr, 0x8000, 0x803F, "STIC (alias)"⟩, ⟨.stic_cr, 0xC000, 0xC03F, "STIC (alias)"⟩,
       ⟨.snoop_btab, 0x0200, 0x02EF, "STIC (BTAB)"⟩,
       ⟨.snoop_gram, 0x3000, 0x3FFF, "STIC (GRAM)"⟩,
       ⟨.event, 0x0000, 0x0000, "[Event]"⟩] ++
      (if c.rate_ctl_pos = true then [⟨.speed, 0x0000, 0x0000, "[Rate Ctrl]"⟩] else []) ++
      (if w.legacy_rom ≠ 0 then
          w.legacy.enum.map (fun d => (⟨.game d.1, d.2.1, d.2.2.1, d.2.2.2⟩ : periph_desc))
        else w.icart.enum.map (fun d => (⟨.game d.1, d.2.1, d.2.2.1, d.2.2.2⟩ : periph_desc))) ++
      (if c.debugging ≠ 0 then [⟨.debug, 0x0000, 0xFFFF, "[Debugger]"⟩] else []) := by
  simp only [cfg_init_register, periph_register, game_register, ite_append_right,
    ite_append_both, ite_append_two, ite_append_four]
  simp only [List.nil_append, List.append_assoc, List.cons_append]

theorem filter_ite {α : Type} (f : α → Bool) (p : Prop) [Decidable p] (L M : List α) :
    List.filter f (if p then L else M) = if p then List.filter f L else List.filter f M := by
  split_ifs <;> rfl

theorem filter_ecs_game (l : List (Nat × Nat × String)) :
    List.filter (fun d : periph_desc => is_ecs_device d.dev)
      (l.enum.map (fun d => (⟨.game d.1, d.2.1, d.2.2.1, d.2.2.2⟩ : periph_desc))) = [] := by
  rw [List.filter_eq_nil_iff]
  intro d hd
  simp only [List.mem_map] at hd
  obtain ⟨x, -, rfl⟩ := hd
  simp [is_ecs_device]

theorem filter_not_ecs_game (l : List (Nat × Nat × String)) :
    List.filter (fun d : periph_desc => !is_ecs_device d.dev)
      (l.enum.map (fun d => (⟨.game d.1, d.2.1, d.2.2.1, d.2.2.2⟩ : periph_desc))) =
      l.enum.map (fun d => (⟨.game d.1, d.2.1, d.2.2.1, d.2.2.2⟩ : periph_desc)) := by
  rw [List.filter_eq_self]
  intro d hd
  simp only [List.mem_map] at hd
  obtain ⟨x, -, rfl⟩ := hd
  simp [is_ecs_device]

/-- The ECS descriptors of the bus when the ECS is on. -/
theorem cfg_init_register_ecs_on (w : init_env) (c : cfg_t) (h : c.ecs_enable > 0) :
    (cfg_init_register w c).filter (fun d => is_ecs_device d.dev) =
      [⟨.psg1, 0x00F0, 0x00FF, "PSG1 AY8914"⟩, ⟨.ecs_ram, 0x4000, 0x47FF, "ECS RAM"⟩,
        ⟨.ecs0, 0x2000, 0x2FFF, "ECS ROM (2xxx)"⟩, ⟨.ecs1, 0x7000, 0x7FFF, "ECS ROM (7xxx)"⟩,
        ⟨.ecs2, 0xE000, 0xEFFF, "ECS ROM (Exxx)"⟩, ⟨.pad1, 0x00F0, 0x00FF, "Pad Pair 1"⟩] ++
      (if c.i2pc1_port ≠ 0 then [⟨.i2pc1, 0x00F0, 0x00FF, "INTV2PC #1"⟩] else []) ++
      (if c.cgc1_num ≥ 0 then [⟨.cgc1, 0x00F0, 0x00FF, "CGC #1"⟩] else []) := by
  rw [cfg_init_register_eq]
  simp only [List.filter_append, filter_ite, filter_ecs_game, h, if_true, and_true]
  simp [is_ecs_device]

/-- No ECS descriptor is on the bus when the ECS is off. -/
theorem cfg_init_register_ecs_off (w : init_env) (c : cfg_t) (h : c.ecs_enable ≤ 0) :
    (cfg_init_register w c).filter (fun d => is_ecs_device d.dev) = [] := by
  have h' : ¬ c.ecs_enable > 0 := by omega
  rw [cfg_init_register_eq]
  simp only [List.filter_append, filter_ite, filter_ecs_game, h', if_false, and_false]
  simp [is_ecs_device]

/-- The descriptors other than those of the ECS do not depend on `ecs_enable`. -/
theorem cfg_init_register_not_ecs (w : init_env) (c : cfg_t) (v : Int) :
    (cfg_init_register w { c with ecs_enable := v }).filter (fun d => !is_ecs_device d.dev) =
      (cfg_init_register w c).filter (fun d => !is_ecs_device d.dev) := by
  rw [cfg_init_register_eq, cfg_init_register_eq]
  simp only [List.filter_append, filter_ite, filter_not_ecs_game]
  simp [is_ecs_device]

theorem filter_names_game (l : List (Nat × Nat × String)) :
    List.filter (fun d : periph_desc => !is_game_device d.dev && decide (d.name ∈ ecs_names))
      (l.enum.map (fun d => (⟨.game d.1, d.2.1, d.2.2.1, d.2.2.2⟩ : periph_desc))) = [] := by
  rw [List.filter_eq_nil_iff]
  intro d hd
  simp only [List.mem_map] at hd
  obtain ⟨x, -, rfl⟩ := hd
  simp [is_game_device]

/-- With the ECS off, no descriptor that `cfg_init` registers itself has one of
the ECS names. -/
theorem cfg_init_register_ecs_names (w : init_env) (c : cfg_t) (h : c.ecs_enable ≤ 0) :
    (cfg_init_register w c).filter
      (fun d => !is_game_device d.dev && decide (d.name ∈ ecs_names)) = [] := by
  have h' : ¬ c.ecs_enable > 0 := by omega
  rw [cfg_init_register_eq]
  simp only [List.filter_append, filter_ite, filter_names_game, h', if_false, and_false]
  simp [is_game_device, ecs_names]

theorem ite_exit_ret {p : Prop} [Decidable p] {x : init_outcome} {v : Int} {c : cfg_t}
    {b : List periph_desc} (h : (if p then init_outcome.exit 1 else x) = .ret v c b) :
    x = .ret v c b := by
  split_ifs at h
  exact h

/-- What `cfg_init` returns when it returns: the value 1, the configuration after
the GUI mode and a failure of the sound have had their effect, and the bus
registered for that configuration. -/
theorem cfg_init_ret (w : init_env) (c c' : cfg_t) (v : Int) (bus : List periph_desc)
    (h : cfg_init w c = .ret v c' bus) :
    v = 1 ∧ c' = cfg_init_snd w (cfg_init_gui c) ∧ bus = cfg_init_register w c' := by
  unfold cfg_init at h
  repeat (replace h := ite_exit_ret h)
  simp only [init_outcome.ret.injEq] at h
  obtain ⟨h1, h2, h3⟩ := h
  subst h2 h3
  exact ⟨h1.symm, rfl, rfl⟩

theorem cfg_init_gui_fields (c : cfg_t) :
    (cfg_init_gui c).ecs_enable = c.ecs_enable ∧ (cfg_init_gui c).ivc_enable = c.ivc_enable ∧
      (cfg_init_gui c).audio_rate = c.audio_rate ∧ (cfg_init_gui c).i2pc0_port = c.i2pc0_port ∧
      (cfg_init_gui c).i2pc1_port = c.i2pc1_port ∧ (cfg_init_gui c).cgc0_num = c.cgc0_num ∧
      (cfg_init_gui c).cgc1_num = c.cgc1_num ∧ (cfg_init_gui c).rate_ctl_pos = c.rate_ctl_pos ∧
      (cfg_init_gui c).gui_mode = c.gui_mode := by
  unfold cfg_init_gui
  split_ifs <;> simp

theorem cfg_init_snd_fields (w : init_env) (c : cfg_t) :
    (cfg_init_snd w c).ecs_enable = c.ecs_enable ∧ (cfg_init_snd w c).ivc_enable = c.ivc_enable ∧
      (cfg_init_snd w c).debugging = c.debugging ∧
      (cfg_init_snd w c).i2pc0_port = c.i2pc0_port ∧
      (cfg_init_snd w c).i2pc1_port = c.i2pc1_port ∧ (cfg_init_snd w c).cgc0_num = c.cgc0_num ∧
      (cfg_init_snd w c).cgc1_num = c.cgc1_num ∧
      (cfg_init_snd w c).rate_ctl_pos = c.rate_ctl_pos ∧
      (cfg_init_snd w c).gui_mode = c.gui_mode := by
  unfold cfg_init_snd
  split_ifs <;> simp

theorem cfg_init_gui_ecs (c : cfg_t) (v : Int) :
    cfg_init_gui { c with ecs_enable := v } = { cfg_init_gui c with ecs_enable := v } := by
  unfold cfg_init_gui
  split_ifs <;> rfl

theorem cfg_init_snd_ecs (w : init_env) (c : cfg_t) (v : Int) :
    cfg_init_snd w { c with ecs_enable := v } = { cfg_init_snd w c with ecs_enable := v } := by
  unfold cfg_init_snd
  split_ifs <;> rfl

/-- C18.  When `cfg_init` returns a bus: with `ecs_enable <= 0` no descriptor on
it has an ECS device, and none of those that `cfg_init` registers itself has
one of the ECS names; with `ecs_enable > 0` its ECS descriptors are, in
registration order and each once, PSG1 at 0x00F0..0x00FF, ECS RAM at
0x4000..0x47FF, the ECS ROMs at 0x2000..0x2FFF, 0x7000..0x7FFF, 0xE000..0xEFFF
and Pad Pair 1 at 0x00F0..0x00FF, then INTV2PC #1 if `i2pc1_port` is not 0 and
CGC #1 if `cgc1_num >= 0`, both at 0x00F0..0x00FF; and the other descriptors
are the same as for any other value of `ecs_enable` for which `cfg_init`
returns. -/
theorem ecs_descriptors (w : init_env) (c c' : cfg_t) (v : Int) (bus : List periph_desc)
    (h : cfg_init w c = .ret v c' bus) :
    (c.ecs_enable ≤ 0 →
      ∀ d ∈ bus, is_ecs_device d.dev = false ∧
        (is_game_device d.dev = false → d.name ∉ ecs_names)) ∧
    (c.ecs_enable > 0 →
      bus.filter (fun d => is_ecs_device d.dev) =
        [⟨.psg1, 0x00F0, 0x00FF, "PSG1 AY8914"⟩, ⟨.ecs_ram, 0x4000, 0x47FF, "ECS RAM"⟩,
          ⟨.ecs0, 0x2000, 0x2FFF, "ECS ROM (2xxx)"⟩, ⟨.ecs1, 0x7000, 0x7FFF, "ECS ROM (7xxx)"⟩,
          ⟨.ecs2, 0xE000, 0xEFFF, "ECS ROM (Exxx)"⟩, ⟨.pad1, 0x00F0, 0x00FF, "Pad Pair 1"⟩] ++
        (if c.i2pc1_port ≠ 0 then [⟨.i2pc1, 0x00F0, 0x00FF, "INTV2PC #1"⟩] else []) ++
        (if c.cgc1_num ≥ 0 then [⟨.cgc1, 0x00F0, 0x00FF, "CGC #1"⟩] else [])) ∧
    (∀ (e2 v2 : Int) (c2 : cfg_t) (bus2 : List periph_desc),
      cfg_init w { c with ecs_enable := e2 } = .ret v2 c2 bus2 →
        bus2.filter (fun d => !is_ecs_device d.dev) =
          bus.filter (fun d => !is_ecs_device d.dev)) := by
  obtain ⟨-, hc, hb⟩ := cfg_init_ret w c c' v bus h
  have g := cfg_init_gui_fields c
  have s := cfg_init_snd_fields w (cfg_init_gui c)
  have hecs : c'.ecs_enable = c.ecs_enable := by rw [hc, s.1, g.1]
  have hi : c'.i2pc1_port = c.i2pc1_port := by rw [hc, s.2.2.2.2.1, g.2.2.2.2.1]
  have hg : c'.cgc1_num = c.cgc1_num := by rw [hc, s.2.2.2.2.2.2.1, g.2.2.2.2.2.2.1]
  refine ⟨?_, ?_, ?_⟩
  · intro h0 d hd
    rw [hb] at hd
    have h1 := cfg_init_register_ecs_off w c' (by omega)
    have h2 := cfg_init_register_ecs_names w c' (by omega)
    rw [List.filter_eq_nil_iff] at h1 h2
    refine ⟨by simpa using h1 d hd, fun hgame => ?_⟩
    have := h2 d hd
    simpa [hgame] using this
  · intro h0
    rw [hb, cfg_init_register_ecs_on w c' (by omega), hi, hg]
  · intro e2 v2 c2 bus2 h2
    obtain ⟨-, hc2, hb2⟩ := cfg_init_ret w _ c2 v2 bus2 h2
    rw [hb2, hb, hc2, hc, cfg_init_gui_ecs, cfg_init_snd_ecs, cfg_init_register_not_ecs]

/-- C18, at the sample configuration, ECS on, and at the same with the ECS off. -/
theorem ecs_descriptors_witness :
    (cfg_init_register (sample_init_env []) sample_cfg).filter
        (fun d => is_ecs_device d.dev) =
      [⟨.psg1, 0x00F0, 0x00FF, "PSG1 AY8914"⟩, ⟨.ecs_ram, 0x4000, 0x47FF, "ECS RAM"⟩,
        ⟨.ecs0, 0x2000, 0x2FFF, "ECS ROM (2xxx)"⟩, ⟨.ecs1, 0x7000, 0x7FFF, "ECS ROM (7xxx)"⟩,
        ⟨.ecs2, 0xE000, 0xEFFF, "ECS ROM (Exxx)"⟩, ⟨.pad1, 0x00F0, 0x00FF, "Pad Pair 1"⟩] ∧
    ∀ d ∈ cfg_init_register (sample_init_env []) { sample_cfg with ecs_enable := 0 },
      is_ecs_device d.dev = false ∧ (is_game_device d.dev = false → d.name ∉ ecs_names) :=
  ⟨by
    have h := (ecs_descriptors (sample_init_env []) sample_cfg sample_cfg 1
      (cfg_init_register (sample_init_env []) sample_cfg) (by decide)).2.1 (by decide)
    simpa using h,
   (ecs_descriptors (sample_init_env []) { sample_cfg with ecs_enable := 0 }
      { sample_cfg with ecs_enable := 0 } 1
      (cfg_init_register (sample_init_env []) { sample_cfg with ecs_enable := 0 })
      (by decide)).1 (by decide)⟩

/-! ## The debugger on the bus -/

theorem filter_debug_game (l : List (Nat × Nat × String)) :
    List.filter (fun d : periph_desc => decide (d.dev = .debug))
      (l.enum.map (fun d => (⟨.game d.1, d.2.1, d.2.2.1, d.2.2.2⟩ : periph_desc))) = [] := by
  rw [List.filter_eq_nil_iff]
  intro d hd
  simp only [List.mem_map] at hd
  obtain ⟨x, -, rfl⟩ := hd
  simp

/-- The debugger is registered after everything else. -/
theorem cfg_init_register_debug_split (w : init_env) (c : cfg_t) :
    cfg_init_register w c =
      cfg_init_register w { c with debugging := 0 } ++
        (if c.debugging ≠ 0 then [⟨.debug, 0x0000, 0xFFFF, "[Debugger]"⟩] else []) := by
  rw [cfg_init_register_eq, cfg_init_register_eq]
  simp only [ne_eq, not_true_eq_false, if_false, List.append_nil, List.append_assoc]

theorem cfg_init_register_no_debug (w : init_env) (c : cfg_t) (h : c.debugging = 0) :
    ∀ d ∈ cfg_init_register w c, d.dev ≠ .debug := by
  have key : (cfg_init_register w c).filter (fun d => decide (d.dev = .debug)) = [] := by
    rw [cfg_init_register_eq]
    simp only [List.filter_append, filter_ite, filter_debug_game, h]
    simp
  rw [List.filter_eq_nil_iff] at key
  intro d hd
  simpa using key d hd

/-- C19.  When `cfg_init` returns a bus: if the debugger is asked for
(`debugging` not 0) and the GUI mode is off, the bus is the bus of the same
configuration without debugger, which holds every other registration (console,
controllers, STIC, event, rate control, game) and no debugger descriptor,
followed by the debugger descriptor with the window 0x0000..0xFFFF; if the
debugger is not asked for, or the GUI mode is on, no descriptor of the bus is
the debugger's. -/
theorem debugger_registered_last (w : init_env) (c c' : cfg_t) (v : Int)
    (bus : List periph_desc) (h : cfg_init w c = .ret v c' bus) :
    (c.debugging ≠ 0 ∧ c.gui_mode = 0 →
      bus = cfg_init_register w { c' with debugging := 0 } ++
          [⟨.debug, 0x0000, 0xFFFF, "[Debugger]"⟩] ∧
        ∀ d ∈ cfg_init_register w { c' with debugging := 0 }, d.dev ≠ .debug) ∧
    (c.debugging = 0 ∨ c.gui_mode ≠ 0 → ∀ d ∈ bus, d.dev ≠ .debug) := by
  obtain ⟨-, hc, hb⟩ := cfg_init_ret w c c' v bus h
  have s := cfg_init_snd_fields w (cfg_init_gui c)
  have hd : c'.debugging = if c.gui_mode ≠ 0 then 0 else c.debugging := by
    rw [hc, s.2.2.1]
    unfold cfg_init_gui
    split_ifs <;> rfl
  refine ⟨?_, ?_⟩
  · rintro ⟨h1, h2⟩
    have hd' : c'.debugging ≠ 0 := by rw [hd, if_neg (by simp [h2])]; exact h1
    refine ⟨?_, cfg_init_register_no_debug w _ rfl⟩
    rw [hb, cfg_init_register_debug_split w c', if_pos hd']
  · intro h1
    have hd' : c'.debugging = 0 := by
      rw [hd]
      rcases h1 with h1 | h1
      · split_ifs <;> simp [h1]
      · rw [if_pos h1]
    rw [hb]
    exact cfg_init_register_no_debug w c' hd'

/-- C19, at the sample configuration, which asks for the debugger, and at the
same in GUI mode. -/
theorem debugger_registered_last_witness :
    (cfg_init_register (sample_init_env []) sample_cfg).getLast? =
        some ⟨.debug, 0x0000, 0xFFFF, "[Debugger]"⟩ ∧
      ∀ d ∈ cfg_init_register (sample_init_env []) { sample_cfg with debugging := 0 },
        d.dev ≠ .debug :=
  ⟨by
    have h := ((debugger_registered_last (sample_init_env []) sample_cfg sample_cfg 1
      (cfg_init_register (sample_init_env []) sample_cfg) (by decide)).1
        ⟨by decide, by decide⟩).1
    rw [h]
    simp,
   (debugger_registered_last (sample_init_env []) { sample_cfg with gui_mode := 1 }
      { sample_cfg with gui_mode := 1, debugging := 0 } 1
      (cfg_init_register (sample_init_env []) { sample_cfg with debugging := 0 })
      (by decide)).2 (Or.inr (by decide))⟩

/-! ## Failing constructors -/

theorem ite_exit_pos {p : Prop} [Decidable p] {x : init_outcome} (h : p) :
    (if p then init_outcome.exit 1 else x) = .exit 1 := if_pos h

theorem ite_exit_mono {p : Prop} [Decidable p] {x : init_outcome} (h : x = .exit 1) :
    (if p then init_outcome.exit 1 else x) = .exit 1 := by
  split_ifs
  · rfl
  · exact h

/-- A call other than `snd_init` that is made and returns non-zero ends
`cfg_init` with `exit(1)`. -/
theorem cfg_init_abort (w : init_env) (c : cfg_t) (k : call) (hk : k ≠ .snd)
    (hn : call_needed w c k = true) (hf : w.fails k = true) : cfg_init w c = .exit 1 := by
  have g := cfg_init_gui_fields c
  have s := cfg_init_snd_fields w (cfg_init_gui c)
  have a : (cfg_init_snd w (cfg_init_gui c)).audio_rate = (cfg_init_snd w c).audio_rate := by
    unfold cfg_init_snd
    rw [g.2.2.1]
    split_ifs <;> simp [g.2.2.1]
  unfold cfg_init
  simp only [call_needed, decide_eq_true_eq] at hn
  cases k with
  | i2pc0 =>
    refine ite_exit_pos ?_
    simp_all
  | i2pc1 =>
    iterate 1 apply ite_exit_mono
    refine ite_exit_pos ?_
    simp_all
  | cgc0 =>
    iterate 2 apply ite_exit_mono
    refine ite_exit_pos ?_
    simp_all
  | cgc1 =>
    iterate 3 apply ite_exit_mono
    refine ite_exit_pos ?_
    simp_all
  | emu_link =>
    iterate 4 apply ite_exit_mono
    refine ite_exit_pos ?_
    simp_all
  | elfi =>
    iterate 5 apply ite_exit_mono
    refine ite_exit_pos ?_
    simp_all
  | demo =>
    iterate 6 apply ite_exit_mono
    refine ite_exit_pos ?_
    simp_all
  | gfx =>
    iterate 7 apply ite_exit_mono
    refine ite_exit_pos ?_
    simp_all
  | snd => exact absurd rfl hk
  | cp1600 =>
    iterate 8 apply ite_exit_mono
    refine ite_exit_pos ?_
    simp_all
  | scr_ram =>
    iterate 9 apply ite_exit_mono
    refine ite_exit_pos ?_
    simp_all
  | sys_ram =>
    iterate 9 apply ite_exit_mono
    refine ite_exit_pos ?_
    simp_all
  | sys_ram2 =>
    iterate 10 apply ite_exit_mono
    refine ite_exit_pos ?_
    simp_all
  | stic =>
    iterate 11 apply ite_exit_mono
    refine ite_exit_pos ?_
    simp_all
  | ecs_img =>
    iterate 12 apply ite_exit_mono
    refine ite_exit_pos ?_
    simp_all
  | ecs0 =>
    iterate 13 apply ite_exit_mono
    refine ite_exit_pos ?_
    simp_all
  | ecs1 =>
    iterate 13 apply ite_exit_mono
    refine ite_exit_pos ?_
    simp_all
  | ecs2 =>
    iterate 13 apply ite_exit_mono
    refine ite_exit_pos ?_
    simp_all
  | ecs_ram =>
    iterate 14 apply ite_exit_mono
    refine ite_exit_pos ?_
    simp_all
  | psg0 =>
    iterate 15 apply ite_exit_mono
    refine ite_exit_pos ?_
    simp_all
  | psg1 =>
    iterate 16 apply ite_exit_mono
    refine ite_exit_pos ?_
    simp_all
  | pad0 =>
    iterate 17 apply ite_exit_mono
    refine ite_exit_pos ?_
    simp_all
  | pad1 =>
    iterate 18 apply ite_exit_mono
    refine ite_exit_pos ?_
    simp_all
  | speed =>
    iterate 19 apply ite_exit_mono
    refine ite_exit_pos ?_
    simp_all
  | debug =>
    iterate 20 apply ite_exit_mono
    refine ite_exit_pos ?_
    simp_all
  | joy =>
    iterate 21 apply ite_exit_mono
    refine ite_exit_pos ?_
    simp_all
  | event =>
    iterate 22 apply ite_exit_mono
    refine ite_exit_pos ?_
    simp_all
  | setbind =>
    iterate 23 apply ite_exit_mono
    refine ite_exit_pos ?_
    simp_all
  | ivoice =>
    iterate 24 apply ite_exit_mono
    refine ite_exit_pos ?_
    simp_all
  | exec =>
    by_cases he : w.exec_type = 0
    · iterate 25 apply ite_exit_mono
      exact ite_exit_pos ⟨he, hf⟩
    · iterate 26 apply ite_exit_mono
      exact ite_exit_pos ⟨he, Or.inl hf⟩
  | exec2 =>
    iterate 26 apply ite_exit_mono
    refine ite_exit_pos ?_
    simp_all

/-- When no call other than `snd_init` that is made returns non-zero, `cfg_init`
returns 1 with the bus, whatever `snd_init` returns. -/
theorem cfg_init_returns (w : init_env) (c : cfg_t)
    (H : ∀ k, k ≠ .snd → call_needed w c k = true → w.fails k = false) :
    cfg_init w c = .ret 1 (cfg_init_snd w (cfg_init_gui c))
      (cfg_init_register w (cfg_init_snd w (cfg_init_gui c))) := by
  have g := cfg_init_gui_fields c
  have s := cfg_init_snd_fields w (cfg_init_gui c)
  have a : (cfg_init_snd w (cfg_init_gui c)).audio_rate = (cfg_init_snd w c).audio_rate := by
    unfold cfg_init_snd
    rw [g.2.2.1]
    split_ifs <;> simp [g.2.2.1]
  unfold cfg_init
  refine (if_neg ?_).trans ?_
  · intro hc
    have h_i2pc0 := H .i2pc0 (by decide)
    simp only [call_needed, decide_eq_true_eq] at h_i2pc0
    simp_all
  refine (if_neg ?_).trans ?_
  · intro hc
    have h_i2pc1 := H .i2pc1 (by decide)
    simp only [call_needed, decide_eq_true_eq] at h_i2pc1
    simp_all
  refine (if_neg ?_).trans ?_
  · intro hc
    have h_cgc0 := H .cgc0 (by decide)
    simp only [call_needed, decide_eq_true_eq] at h_cgc0
    simp_all
  refine (if_neg ?_).trans ?_
  · intro hc
    have h_cgc1 := H .cgc1 (by decide)
    simp only [call_needed, decide_eq_true_eq] at h_cgc1
    simp_all
  refine (if_neg ?_).trans ?_
  · intro hc
    have h_emu_link := H .emu_link (by decide)
    simp only [call_needed, decide_eq_true_eq] at h_emu_link
    simp_all
  refine (if_neg ?_).trans ?_
  · intro hc
    have h_elfi := H .elfi (by decide)
    simp only [call_needed, decide_eq_true_eq] at h_elfi
    simp_all
  refine (if_neg ?_).trans ?_
  · intro hc
    have h_demo := H .demo (by decide)
    simp only [call_needed, decide_eq_true_eq] at h_demo
    simp_all
  refine (if_neg ?_).trans ?_
  · intro hc
    have h_gfx := H .gfx (by decide)
    simp only [call_needed, decide_eq_true_eq] at h_gfx
    simp_all
  refine (if_neg ?_).trans ?_
  · intro hc
    have h_cp1600 := H .cp1600 (by decide)
    simp only [call_needed, decide_eq_true_eq] at h_cp1600
    simp_all
  refine (if_neg ?_).trans ?_
  · intro hc
    have h_scr_ram := H .scr_ram (by decide)
    have h_sys_ram := H .sys_ram (by decide)
    simp only [call_needed, decide_eq_true_eq] at h_scr_ram h_sys_ram
    simp_all
  refine (if_neg ?_).trans ?_
  · intro hc
    have h_sys_ram2 := H .sys_ram2 (by decide)
    simp only [call_needed, decide_eq_true_eq] at h_sys_ram2
    simp_all
  refine (if_neg ?_).trans ?_
  · intro hc
    have h_stic := H .stic (by decide)
    simp only [call_needed, decide_eq_true_eq] at h_stic
    simp_all
  refine (if_neg ?_).trans ?_
  · intro hc
    have h_ecs_img := H .ecs_img (by decide)
    simp only [call_needed, decide_eq_true_eq] at h_ecs_img
    simp_all
  refine (if_neg ?_).trans ?_
  · intro hc
    have h_ecs0 := H .ecs0 (by decide)
    have h_ecs1 := H .ecs1 (by decide)
    have h_ecs2 := H .ecs2 (by decide)
    simp only [call_needed, decide_eq_true_eq] at h_ecs0 h_ecs1 h_ecs2
    simp_all
  refine (if_neg ?_).trans ?_
  · intro hc
    have h_ecs_ram := H .ecs_ram (by decide)
    simp only [call_needed, decide_eq_true_eq] at h_ecs_ram
    simp_all
  refine (if_neg ?_).trans ?_
  · intro hc
    have h_psg0 := H .psg0 (by decide)
    simp only [call_needed, decide_eq_true_eq] at h_psg0
    simp_all
  refine (if_neg ?_).trans ?_
  · intro hc
    have h_psg1 := H .psg1 (by decide)
    simp only [call_needed, decide_eq_true_eq] at h_psg1
    simp_all
  refine (if_neg ?_).trans ?_
  · intro hc
    have h_pad0 := H .pad0 (by decide)
    simp only [call_needed, decide_eq_true_eq] at h_pad0
    simp_all
  refine (if_neg ?_).trans ?_
  · intro hc
    have h_pad1 := H .pad1 (by decide)
    simp only [call_needed, decide_eq_true_eq] at h_pad1
    simp_all
  refine (if_neg ?_).trans ?_
  · intro hc
    have h_speed := H .speed (by decide)
    simp only [call_needed, decide_eq_true_eq] at h_speed
    simp_all
  refine (if_neg ?_).trans ?_
  · intro hc
    have h_debug := H .debug (by decide)
    simp only [call_needed, decide_eq_true_eq] at h_debug
    simp_all
  refine (if_neg ?_).trans ?_
  · intro hc
    have h_joy := H .joy (by decide)
    simp only [call_needed, decide_eq_true_eq] at h_joy
    simp_all
  refine (if_neg ?_).trans ?_
  · intro hc
    have h_event := H .event (by decide)
    simp only [call_needed, decide_eq_true_eq] at h_event
    simp_all
  refine (if_neg ?_).trans ?_
  · intro hc
    have h_setbind := H .setbind (by decide)
    simp only [call_needed, decide_eq_true_eq] at h_setbind
    simp_all
  refine (if_neg ?_).trans ?_
  · intro hc
    have h_ivoice := H .ivoice (by decide)
    simp only [call_needed, decide_eq_true_eq] at h_ivoice
    simp_all
  refine (if_neg ?_).trans ?_
  · intro hc
    have h_exec := H .exec (by decide)
    simp only [call_needed, decide_eq_true_eq] at h_exec
    simp_all
  refine (if_neg ?_).trans ?_
  · intro hc
    have h_exec := H .exec (by decide)
    have h_exec2 := H .exec2 (by decide)
    simp only [call_needed, decide_eq_true_eq] at h_exec h_exec2
    simp_all
  rfl

theorem filter_sound_game (l : List (Nat × Nat × String)) :
    List.filter (fun d : periph_desc => decide (d.dev = .snd ∨ d.dev = .ivoice))
      (l.enum.map (fun d => (⟨.game d.1, d.2.1, d.2.2.1, d.2.2.2⟩ : periph_desc))) = [] := by
  rw [List.filter_eq_nil_iff]
  intro d hd
  simp only [List.mem_map] at hd
  obtain ⟨x, -, rfl⟩ := hd
  simp

/-- With the audio rate at 0, neither the sound nor the Intellivoice is on the
bus. -/
theorem cfg_init_register_no_sound (w : init_env) (c : cfg_t) (h : c.audio_rate = 0) :
    ∀ d ∈ cfg_init_register w c, d.dev ≠ .snd ∧ d.dev ≠ .ivoice := by
  have key : (cfg_init_register w c).filter
      (fun d => decide (d.dev = .snd ∨ d.dev = .ivoice)) = [] := by
    rw [cfg_init_register_eq]
    simp only [List.filter_append, filter_ite, filter_sound_game, h]
    simp
  rw [List.filter_eq_nil_iff] at key
  intro d hd
  simpa using key d hd

/-- C20, as it is written, fails for the sound: in the sample configuration the
audio rate is not 0, so `snd_init` is called; it fails, and `cfg_init` still
returns 1 with an assembled bus, the audio rate set to 0. -/
theorem sound_failure_counterexample :
    call_needed (sample_init_env [.snd]) sample_cfg .snd = true ∧
      (sample_init_env [.snd]).fails .snd = true ∧
      cfg_init (sample_init_env [.snd]) sample_cfg =
        .ret 1 { sample_cfg with audio_rate := 0 }
          (cfg_init_register (sample_init_env [.snd]) { sample_cfg with audio_rate := 0 }) := by
  decide

/-- C20, amended.  Every call that `cfg_init` makes to construct a peripheral or
start a subsystem, the sound apart, ends `cfg_init` with `exit(1)` when it is
made and returns non-zero, so that no bus is returned.  When none of them
fails, `cfg_init` returns 1 with the bus, whatever `snd_init` returns: a failure
of `snd_init` sets the audio rate to 0, and then neither the sound nor the
Intellivoice is registered. -/
theorem constructor_failure_aborts (w : init_env) (c : cfg_t) :
    (∀ k, k ≠ .snd → call_needed w c k = true → w.fails k = true →
      cfg_init w c = .exit 1) ∧
    ((∀ k, k ≠ .snd → call_needed w c k = true → w.fails k = false) →
      cfg_init w c = .ret 1 (cfg_init_snd w (cfg_init_gui c))
        (cfg_init_register w (cfg_init_snd w (cfg_init_gui c)))) ∧
    (call_needed w c .snd = true → w.fails .snd = true →
      (cfg_init_snd w (cfg_init_gui c)).audio_rate = 0 ∧
        ∀ d ∈ cfg_init_register w (cfg_init_snd w (cfg_init_gui c)),
          d.dev ≠ .snd ∧ d.dev ≠ .ivoice) := by
  refine ⟨fun k hk hn hf => cfg_init_abort w c k hk hn hf, cfg_init_returns w c, ?_⟩
  intro hn hf
  have g := cfg_init_gui_fields c
  have h0 : (cfg_init_snd w (cfg_init_gui c)).audio_rate = 0 := by
    simp only [call_needed, decide_eq_true_eq] at hn
    unfold cfg_init_snd
    rw [if_pos ⟨by rw [g.2.2.1]; exact hn, hf⟩]
  exact ⟨h0, cfg_init_register_no_sound w _ h0⟩

/-- C20 amended, at the sample configuration: a failure of `gfx_init` ends
`cfg_init` with `exit(1)`, and so does a failure of `ivoice_init`. -/
theorem constructor_failure_aborts_witness :
    cfg_init (sample_init_env [.gfx]) sample_cfg = .exit 1 ∧
      cfg_init (sample_init_env [.ivoice]) sample_cfg = .exit 1 :=
  ⟨(constructor_failure_aborts (sample_init_env [.gfx]) sample_cfg).1 .gfx
      (by decide) (by decide) (by decide),
   (constructor_failure_aborts (sample_init_env [.ivoice]) sample_cfg).1 .ivoice
      (by decide) (by decide) (by decide)⟩

/-! ## The coalesce window -/

theorem cfg_setbind_slot_coalesce {κ D : Type} (tbl : List cfg_evtact_t) (b : cfg_kbd_t)
    (event : event_t κ D) (j : Fin 4) :
    (cfg_setbind_slot tbl b event j).coalesce_time = event.coalesce_time := by
  unfold cfg_setbind_slot
  split
  · rfl
  · simp only
    split_ifs <;> rfl

theorem cfg_setbind_defaults_coalesce {κ D : Type} (tbl : List cfg_evtact_t)
    (binding : List cfg_kbd_t) (event : event_t κ D) :
    (cfg_setbind_defaults tbl binding event).coalesce_time = event.coalesce_time := by
  unfold cfg_setbind_defaults
  induction binding generalizing event with
  | nil => rfl
  | cons b bs ih =>
    rw [List.foldl_cons, ih]
    simp only [cfg_setbind_row, List.foldl, cfg_setbind_slot_coalesce]

/-- The coalesce window after a line is the one before it, or the quotient
`ms / 1000.` of a value `ms` for which both tests `ms < 0.` and `ms > 100.` are
false. -/
theorem cfg_setbind_line_coalesce {κ D : Type} (e : env κ D) (tbl : List cfg_evtact_t)
    (map : Int) (event : event_t κ D) (buf : List Char) :
    (cfg_setbind_line e tbl map event buf).event.coalesce_time = event.coalesce_time ∨
      ∃ ms, e.lt_zero ms = false ∧ e.gt_hundred ms = false ∧
        (cfg_setbind_line e tbl map event buf).event.coalesce_time = e.div_thousand ms := by
  unfold cfg_setbind_line cfg_setbind_dispatch
  simp only
  split_ifs with h1 h2 h3 h4 h5 h6 h7 <;>
    first
      | (left; rfl)
      | (right
         simp only [Bool.or_eq_true, not_or, Bool.not_eq_true] at h7
         exact ⟨_, h7.1, h7.2, rfl⟩)

/-- Whatever property of a `double` the quotient `ms / 1000.` has for every `ms`
that passes the two tests is kept by the coalesce window through `cfg_setbind`,
on every file and whether it fails or not.  That the property "between 0 and
0.1" is one of them is a fact of `double` arithmetic, which is not modelled. -/
theorem cfg_setbind_coalesce_invariant {κ D : Type} (e : env κ D) (tbl : List cfg_evtact_t)
    (P : D → Prop)
    (hP : ∀ ms, e.lt_zero ms = false → e.gt_hundred ms = false → P (e.div_thousand ms))
    (binding : List cfg_kbd_t) (event : event_t κ D) (h0 : P event.coalesce_time)
    (bufs : List (List Char)) :
    P (cfg_setbind e tbl binding event (.lines bufs)).2.coalesce_time := by
  have hloop : ∀ (bufs : List (List Char)) (m : Int) (ev : event_t κ D),
      P ev.coalesce_time → P (cfg_setbind_loop e tbl m ev bufs).event.coalesce_time := by
    intro bufs
    induction bufs with
    | nil => intro m ev h; exact h
    | cons b bufs ih =>
      intro m ev h
      have hl : P (cfg_setbind_line e tbl m ev b).event.coalesce_time := by
        rcases cfg_setbind_line_coalesce e tbl m ev b with h1 | ⟨ms, a1, a2, h1⟩
        · rw [h1]; exact h
        · rw [h1]; exact hP ms a1 a2
      simp only [cfg_setbind_loop]
      cases hb : cfg_setbind_line e tbl m ev b with
      | next m' ev' =>
        rw [hb] at hl
        exact ih m' ev' hl
      | fail ev' =>
        rw [hb] at hl
        exact hl
  have hd : P (cfg_setbind_defaults tbl binding event).coalesce_time := by
    rw [cfg_setbind_defaults_coalesce]; exact h0
  have := hloop bufs 0 _ hd
  simp only [cfg_setbind]
  cases hc : cfg_setbind_loop e tbl 0 (cfg_setbind_defaults tbl binding event) bufs with
  | next m' ev' => rw [hc] at this; exact this
  | fail ev' => rw [hc] at this; exact this

/-! ## The aliases of the STIC -/

theorem filter_dev_game (f : device → Bool) (hf : ∀ k, f (.game k) = false)
    (l : List (Nat × Nat × String)) :
    List.filter (fun d : periph_desc => f d.dev)
      (l.enum.map (fun d => (⟨.game d.1, d.2.1, d.2.2.1, d.2.2.2⟩ : periph_desc))) = [] := by
  rw [List.filter_eq_nil_iff]
  intro d hd
  simp only [List.mem_map] at hd
  obtain ⟨x, -, rfl⟩ := hd
  simp [hf]

/-- The descriptors of the control registers of the STIC, for every
configuration. -/
theorem cfg_init_register_stic (w : init_env) (c : cfg_t) :
    (cfg_init_register w c).filter (fun d => decide (d.dev = .stic_cr)) =
      [⟨.stic_cr, 0x0000, 0x007F, "STIC"⟩, ⟨.stic_cr, 0x4000, 0x403F, "STIC (alias)"⟩,
       ⟨.stic_cr, 0x8000, 0x803F, "STIC (alias)"⟩,
       ⟨.stic_cr, 0xC000, 0xC03F, "STIC (alias)"⟩] := by
  rw [cfg_init_register_eq]
  simp only [List.filter_append, filter_ite,
    filter_dev_game (fun d => decide (d = .stic_cr)) (by simp)]
  simp

/-- C22.  On every bus that `cfg_init` returns, the descriptors whose device is
the control-register block of the STIC (`stic.stic_cr`) are exactly four, in
this registration order: 0x0000..0x007F, 0x4000..0x403F, 0x8000..0x803F and
0xC000..0xC03F. -/
theorem stic_four_descriptors (w : init_env) (c c' : cfg_t) (v : Int) (bus : List periph_desc)
    (h : cfg_init w c = .ret v c' bus) :
    bus.filter (fun d => decide (d.dev = .stic_cr)) =
      [⟨.stic_cr, 0x0000, 0x007F, "STIC"⟩, ⟨.stic_cr, 0x4000, 0x403F, "STIC (alias)"⟩,
       ⟨.stic_cr, 0x8000, 0x803F, "STIC (alias)"⟩,
       ⟨.stic_cr, 0xC000, 0xC03F, "STIC (alias)"⟩] := by
  obtain ⟨-, -, hb⟩ := cfg_init_ret w c c' v bus h
  rw [hb, cfg_init_register_stic]

/-- C22, at the sample configuration. -/
theorem stic_four_descriptors_witness :
    (cfg_init_register (sample_init_env []) sample_cfg).filter
        (fun d => decide (d.dev = .stic_cr)) =
      [⟨.stic_cr, 0x0000, 0x007F, "STIC"⟩, ⟨.stic_cr, 0x4000, 0x403F, "STIC (alias)"⟩,
       ⟨.stic_cr, 0x8000, 0x803F, "STIC (alias)"⟩,
       ⟨.stic_cr, 0xC000, 0xC03F, "STIC (alias)"⟩] :=
  (stic_four_descriptors (sample_init_env []) sample_cfg sample_cfg 1
    (cfg_init_register (sample_init_env []) sample_cfg) (by decide))

/-! ## The participants without an address -/

/-- The descriptors of the participants without an address, for every
configuration. -/
theorem cfg_init_register_non_addressed (w : init_env) (c : cfg_t) :
    (cfg_init_register w c).filter (fun d => is_non_addressed d.dev) =
      [⟨.gfx, 0x0000, 0x0000, "[Graphics]"⟩] ++
      (if c.audio_rate ≠ 0 then [⟨.snd, 0x0000, 0x0000, "[Sound]"⟩] else []) ++
      [⟨.event, 0x0000, 0x0000, "[Event]"⟩] ++
      (if c.rate_ctl_pos = true then [⟨.speed, 0x0000, 0x0000, "[Rate Ctrl]"⟩] else []) := by
  rw [cfg_init_register_eq]
  simp only [List.filter_append, filter_ite, filter_dev_game is_non_addressed (by simp [is_non_addressed])]
  simp [is_non_addressed]

/-- The audio rate that `cfg_init` leaves is not 0 exactly when it was not 0 and
`snd_init` did not fail. -/
theorem cfg_init_audio_rate (w : init_env) (c : cfg_t) :
    ((cfg_init_snd w (cfg_init_gui c)).audio_rate ≠ 0 ↔
      c.audio_rate ≠ 0 ∧ w.fails .snd = false) ∧
    (cfg_init_snd w (cfg_init_gui c)).rate_ctl_pos = c.rate_ctl_pos := by
  have g := cfg_init_gui_fields c
  have s := cfg_init_snd_fields w (cfg_init_gui c)
  refine ⟨?_, by rw [s.2.2.2.2.2.2.2.1, g.2.2.2.2.2.2.2.1]⟩
  unfold cfg_init_snd
  rw [g.2.2.1]
  split_ifs with h1
  · simp [h1.1, h1.2]
  · rw [g.2.2.1]
    by_cases h0 : c.audio_rate = 0
    · simp [h0]
    · have : w.fails .snd = false := by
        cases hf : w.fails .snd with
        | false => rfl
        | true => exact absurd ⟨h0, hf⟩ h1
      simp [h0, this]

theorem non_addressed_list (p q : Prop) [Decidable p] [Decidable q] :
    (∀ d ∈ ([⟨.gfx, 0x0000, 0x0000, "[Graphics]"⟩] ++
        (if p then [⟨.snd, 0x0000, 0x0000, "[Sound]"⟩] else []) ++
        [⟨.event, 0x0000, 0x0000, "[Event]"⟩] ++
        (if q then [⟨.speed, 0x0000, 0x0000, "[Rate Ctrl]"⟩] else []) : List periph_desc),
      d.addr_lo = 0 ∧ d.addr_hi = 0) ∧
    ([⟨.gfx, 0x0000, 0x0000, "[Graphics]"⟩] ++
        (if p then [⟨.snd, 0x0000, 0x0000, "[Sound]"⟩] else []) ++
        [⟨.event, 0x0000, 0x0000, "[Event]"⟩] ++
        (if q then [⟨.speed, 0x0000, 0x0000, "[Rate Ctrl]"⟩] else []) :
          List periph_desc).Nodup := by
  by_cases hp : p <;> by_cases hq : q <;> simp only [hp, hq, if_true, if_false] <;> decide

/-- C23.  On every bus that `cfg_init` returns, the descriptors of the graphics
output, the sound output, the event pump and the rate control are, in
registration order: `[Graphics]`; `[Sound]` exactly when `cfg->audio_rate` is
not 0 at the registration, that is, when the configured rate is not 0 and
`snd_init` did not fail; `[Event]`; `[Rate Ctrl]` exactly when
`cfg->rate_ctl > 0.0`.  Each of them is there at most once, and each has the
window 0x0000..0x0000. -/
theorem non_addressed_participants (w : init_env) (c c' : cfg_t) (v : Int)
    (bus : List periph_desc) (h : cfg_init w c = .ret v c' bus) :
    bus.filter (fun d => is_non_addressed d.dev) =
      [⟨.gfx, 0x0000, 0x0000, "[Graphics]"⟩] ++
      (if c'.audio_rate ≠ 0 then [⟨.snd, 0x0000, 0x0000, "[Sound]"⟩] else []) ++
      [⟨.event, 0x0000, 0x0000, "[Event]"⟩] ++
      (if c.rate_ctl_pos = true then [⟨.speed, 0x0000, 0x0000, "[Rate Ctrl]"⟩] else []) ∧
    (c'.audio_rate ≠ 0 ↔ c.audio_rate ≠ 0 ∧ w.fails .snd = false) ∧
    (∀ d ∈ bus, is_non_addressed d.dev = true → d.addr_lo = 0 ∧ d.addr_hi = 0) ∧
    (bus.filter (fun d => is_non_addressed d.dev)).Nodup := by
  obtain ⟨-, hc, hb⟩ := cfg_init_ret w c c' v bus h
  have ha := cfg_init_audio_rate w c
  rw [← hc] at ha
  have hf : bus.filter (fun d => is_non_addressed d.dev) =
      [⟨.gfx, 0x0000, 0x0000, "[Graphics]"⟩] ++
      (if c'.audio_rate ≠ 0 then [⟨.snd, 0x0000, 0x0000, "[Sound]"⟩] else []) ++
      [⟨.event, 0x0000, 0x0000, "[Event]"⟩] ++
      (if c.rate_ctl_pos = true then [⟨.speed, 0x0000, 0x0000, "[Rate Ctrl]"⟩] else []) := by
    rw [hb, cfg_init_register_non_addressed, ha.2]
  have key := non_addressed_list (c'.audio_rate ≠ 0) (c.rate_ctl_pos = true)
  refine ⟨hf, ha.1, ?_, ?_⟩
  · intro d hd hn
    have hm : d ∈ bus.filter (fun d => is_non_addressed d.dev) :=
      List.mem_filter.2 ⟨hd, hn⟩
    rw [hf] at hm
    exact key.1 d hm
  · rw [hf]
    exact key.2

/-- C23, at the sample configuration, where the sound and the rate control are
on. -/
theorem non_addressed_participants_witness :
    (cfg_init_register (sample_init_env []) sample_cfg).filter
        (fun d => is_non_addressed d.dev) =
      [⟨.gfx, 0x0000, 0x0000, "[Graphics]"⟩, ⟨.snd, 0x0000, 0x0000, "[Sound]"⟩,
       ⟨.event, 0x0000, 0x0000, "[Event]"⟩, ⟨.speed, 0x0000, 0x0000, "[Rate Ctrl]"⟩] := by
  have h := (non_addressed_participants (sample_init_env []) sample_cfg sample_cfg 1
    (cfg_init_register (sample_init_env []) sample_cfg) (by decide)).1
  simpa [sample_cfg] using h

/-! ## Overlapping windows -/

theorem contains_eq_false (d : periph_desc) (a : Nat) (h : a < d.addr_lo ∨ d.addr_hi < a) :
    d.contains a = false := by
  unfold periph_desc.contains
  rw [decide_eq_false_iff_not]
  omega

theorem find?_ite_nil {α : Type} (f : α → Bool) (p : Prop) [Decidable p] (L : List α)
    (h : ∀ x ∈ L, f x = false) : List.find? f (if p then L else []) = none := by
  split_ifs
  · rw [List.find?_eq_none]
    intro x hx
    simp [h x hx]
  · rfl

/-- With the ECS on, the first descriptor whose window contains an address of
0x4000..0x403F is the ECS RAM. -/
theorem cfg_init_register_first_ecs (w : init_env) (c : cfg_t) (h : c.ecs_enable > 0)
    (a : Nat) (h1 : 0x4000 ≤ a) (h2 : a ≤ 0x403F) :
    first_containing (cfg_init_register w c) a = some ⟨.ecs_ram, 0x4000, 0x47FF, "ECS RAM"⟩ := by
  unfold first_containing
  rw [cfg_init_register_eq]
  simp only [h, if_true]
  by_cases hi : c.ivc_enable > 0 <;> by_cases ha : c.audio_rate ≠ 0 <;>
    by_cases he : w.exec_type = 0 <;>
    simp only [hi, ha, he, if_true, if_false, ne_eq, not_true_eq_false, not_false_eq_true,
      and_self, and_true, true_and, false_and, and_false,
      List.append_assoc, List.cons_append, List.nil_append] <;>
    (repeat rw [List.find?_cons_of_neg _ (by
      rw [Bool.not_eq_true]; exact contains_eq_false _ _ (by simp only []; omega))]) <;>
    rw [List.find?_cons_of_pos _ (by simp only [periph_desc.contains, decide_eq_true_eq]; omega)]

/-- In every configuration, the first descriptor whose window contains an
address of 0x0200..0x02EF is the System RAM. -/
theorem cfg_init_register_first_sys_ram (w : init_env) (c : cfg_t)
    (a : Nat) (h1 : 0x0200 ≤ a) (h2 : a ≤ 0x02EF) :
    first_containing (cfg_init_register w c) a =
      some ⟨.sys_ram, 0x0200, 0x035F, "System RAM"⟩ := by
  unfold first_containing
  rw [cfg_init_register_eq]
  by_cases hi : c.ivc_enable > 0 <;> by_cases ha : c.audio_rate ≠ 0 <;>
    by_cases he : c.ecs_enable > 0 <;>
    simp only [hi, ha, he, if_true, if_false, ne_eq, not_true_eq_false, not_false_eq_true,
      and_self, and_true, true_and, false_and, and_false,
      List.append_assoc, List.cons_append, List.nil_append] <;>
    (repeat rw [List.find?_cons_of_neg _ (by
      rw [Bool.not_eq_true]; exact contains_eq_false _ _ (by simp only []; omega))]) <;>
    rw [List.find?_cons_of_pos _ (by simp only [periph_desc.contains, decide_eq_true_eq]; omega)]

theorem cfg_init_register_mem_stic (w : init_env) (c : cfg_t) :
    (⟨.stic_cr, 0x4000, 0x403F, "STIC (alias)"⟩ : periph_desc) ∈ cfg_init_register w c ∧
      (⟨.snoop_btab, 0x0200, 0x02EF, "STIC (BTAB)"⟩ : periph_desc) ∈ cfg_init_register w c := by
  rw [cfg_init_register_eq]
  simp

/-- When `x` is the first descriptor whose window contains `a`, and `y` is
another descriptor on the bus whose window contains `a`, then `x` is registered
before `y`, and no descriptor registered before `x` has `a` in its window. -/
theorem first_containing_before (bus : List periph_desc) (a : Nat) (x y : periph_desc)
    (hx : first_containing bus a = some x) (hy : y ∈ bus) (hya : y.contains a = true)
    (hne : y ≠ x) :
    ∃ pre post, bus = pre ++ x :: post ∧ (∀ d ∈ pre, d.contains a = false) ∧ y ∈ post := by
  unfold first_containing at hx
  rw [List.find?_eq_some] at hx
  obtain ⟨-, pre, post, hb, hpre⟩ := hx
  refine ⟨pre, post, hb, fun d hd => by simpa using hpre d hd, ?_⟩
  rw [hb] at hy
  rcases List.mem_append.1 hy with hy | hy
  · have := hpre y hy
    simp [hya] at this
  · rcases List.mem_cons.1 hy with hy | hy
    · exact absurd hy hne
    · exact hy

/-- C26.  On every bus that `cfg_init` returns with the ECS enabled, for every
address `a` of 0x4000..0x403F the first descriptor in registration order whose
window contains `a` is the ECS RAM at 0x4000..0x47FF, and the alias of the STIC
at 0x4000..0x403F is registered after it; on every bus that `cfg_init` returns,
for every `a` of 0x0200..0x02EF the first such descriptor is the System RAM at
0x0200..0x035F, and the STIC (BTAB) at 0x0200..0x02EF is registered after it.
No descriptor registered before the first has `a` in its window. -/
theorem overlap_by_registration_order (w : init_env) (c c' : cfg_t) (v : Int)
    (bus : List periph_desc) (h : cfg_init w c = .ret v c' bus) :
    (c.ecs_enable > 0 → ∀ a, 0x4000 ≤ a → a ≤ 0x403F →
      first_containing bus a = some ⟨.ecs_ram, 0x4000, 0x47FF, "ECS RAM"⟩ ∧
      ∃ pre post, bus = pre ++ ⟨.ecs_ram, 0x4000, 0x47FF, "ECS RAM"⟩ :: post ∧
        (∀ d ∈ pre, d.contains a = false) ∧
        (⟨.stic_cr, 0x4000, 0x403F, "STIC (alias)"⟩ : periph_desc) ∈ post) ∧
    (∀ a, 0x0200 ≤ a → a ≤ 0x02EF →
      first_containing bus a = some ⟨.sys_ram, 0x0200, 0x035F, "System RAM"⟩ ∧
      ∃ pre post, bus = pre ++ ⟨.sys_ram, 0x0200, 0x035F, "System RAM"⟩ :: post ∧
        (∀ d ∈ pre, d.contains a = false) ∧
        (⟨.snoop_btab, 0x0200, 0x02EF, "STIC (BTAB)"⟩ : periph_desc) ∈ post) := by
  obtain ⟨-, hc, hb⟩ := cfg_init_ret w c c' v bus h
  have g := cfg_init_gui_fields c
  have s := cfg_init_snd_fields w (cfg_init_gui c)
  have hecs : c'.ecs_enable = c.ecs_enable := by rw [hc, s.1, g.1]
  have hm := cfg_init_register_mem_stic w c'
  rw [← hb] at hm
  refine ⟨?_, ?_⟩
  · intro h0 a h1 h2
    have hx : first_containing bus a = some ⟨.ecs_ram, 0x4000, 0x47FF, "ECS RAM"⟩ := by
      rw [hb]
      exact cfg_init_register_first_ecs w c' (by omega) a h1 h2
    exact ⟨hx, first_containing_before bus a _ _ hx hm.1
      (by simp only [periph_desc.contains, decide_eq_true_eq]; omega) (by decide)⟩
  · intro a h1 h2
    have hx : first_containing bus a = some ⟨.sys_ram, 0x0200, 0x035F, "System RAM"⟩ := by
      rw [hb]
      exact cfg_init_register_first_sys_ram w c' a h1 h2
    exact ⟨hx, first_containing_before bus a _ _ hx hm.2
      (by simp only [periph_desc.contains, decide_eq_true_eq]; omega) (by decide)⟩

/-- C26, at the sample configuration, where the ECS is on: the address 0x4010
goes to the ECS RAM first, the address 0x0210 to the System RAM. -/
theorem overlap_by_registration_order_witness :
    first_containing (cfg_init_register (sample_init_env []) sample_cfg) 0x4010 =
        some ⟨.ecs_ram, 0x4000, 0x47FF, "ECS RAM"⟩ ∧
      first_containing (cfg_init_register (sample_init_env []) sample_cfg) 0x0210 =
        some ⟨.sys_ram, 0x0200, 0x035F, "System RAM"⟩ :=
  ⟨((overlap_by_registration_order (sample_init_env []) sample_cfg sample_cfg 1
      (cfg_init_register (sample_init_env []) sample_cfg) (by decide)).1 (by decide)
      0x4010 (by decide) (by decide)).1,
   ((overlap_by_registration_order (sample_init_env []) sample_cfg sample_cfg 1
      (cfg_init_register (sample_init_env []) sample_cfg) (by decide)).2
      0x0210 (by decide) (by decide)).1⟩

/-! ## The four fields of the tokenizer -/

/-- C28.  For every buffer whose fields, after the truncation at the comment
and the line terminators, are all shorter than 255 characters (whatever the
length of the buffer, so in particular for buffers of at most 255 characters),
the tokenizer of `cfg_setbind` leaves in `cmd`, `arg`, `arg2`, `arg3` exactly
the first four fields of the truncated line, the empty string standing for a
missing field, with no length error; and it sets the too-many flag if and only
if the truncated line has a fifth field.  The fields are the maximal runs of
characters that are not white space, in order. -/
theorem tokenizer_first_four_fields (buf : List Char)
    (hf : ∀ f ∈ fields (chop buf), f.length < 255) :
    (tokenize (chop buf)).cmd = (fields (chop buf)).getD 0 [] ∧
      (tokenize (chop buf)).arg = (fields (chop buf)).getD 1 [] ∧
      (tokenize (chop buf)).arg2 = (fields (chop buf)).getD 2 [] ∧
      (tokenize (chop buf)).arg3 = (fields (chop buf)).getD 3 [] ∧
      (tokenize (chop buf)).bad = 0 ∧
      ((tokenize (chop buf)).too_many = true ↔ 4 < (fields (chop buf)).length) := by
  rw [tokenize_of_short (chop buf) (fun f h => hf f (List.mem_of_mem_take h))]
  simp

set_option maxRecDepth 100000 in
/-- C28, at a line of three fields with leading white space and a comment, and
at a line of five fields. -/
theorem tokenizer_first_four_fields_witness :
    ((tokenize (chop "  MAP\t2  extra ; comment\r\n".toList)).cmd = "MAP".toList ∧
      (tokenize (chop "  MAP\t2  extra ; comment\r\n".toList)).arg = "2".toList ∧
      (tokenize (chop "  MAP\t2  extra ; comment\r\n".toList)).arg2 = "extra".toList ∧
      (tokenize (chop "  MAP\t2  extra ; comment\r\n".toList)).arg3 = [] ∧
      (tokenize (chop "  MAP\t2  extra ; comment\r\n".toList)).too_many = false) ∧
    ((tokenize (chop "a b c d e\n".toList)).too_many = true ↔
      4 < (fields (chop "a b c d e\n".toList)).length) := by
  have h1 := tokenizer_first_four_fields "  MAP\t2  extra ; comment\r\n".toList (by decide)
  have h2 := tokenizer_first_four_fields "a b c d e\n".toList (by decide)
  refine ⟨⟨?_, ?_, ?_, ?_, ?_⟩, h2.2.2.2.2.2⟩
  · rw [h1.1]; decide
  · rw [h1.2.1]; decide
  · rw [h1.2.2.1]; decide
  · rw [h1.2.2.2.1]; decide
  · have := h1.2.2.2.2.2
    cases ht : (tokenize (chop "  MAP\t2  extra ; comment\r\n".toList)).too_many with
    | false => rfl
    | true =>
      rw [ht] at this
      exact absurd (this.1 rfl) (by decide)

/-! ## The resolutions that `cfg_parseres` accepts -/

/-- Every entry of the built-in table is at least 320 wide and 200 high, with a
colour depth of 8, 16, 24 or 32. -/
theorem res_table_valid :
    ∀ N < 8, 320 ≤ res_x.getD N 0 ∧ 200 ≤ res_y.getD N 0 ∧
      (res_d.getD N 0 = 8 ∨ res_d.getD N 0 = 16 ∨ res_d.getD N 0 = 24 ∨
        res_d.getD N 0 = 32) := by
  decide

/-- The count that `sscanf` returns is -1, 0, 1, 2 or 3. -/
theorem sscanf_res_count (r : List Char) (rx ry rd : Int) :
    (sscanf_res r rx ry rd).1 = -1 ∨ (sscanf_res r rx ry rd).1 = 0 ∨
      (sscanf_res r rx ry rd).1 = 1 ∨ (sscanf_res r rx ry rd).1 = 2 ∨
      (sscanf_res r rx ry rd).1 = 3 := by
  unfold sscanf_res
  split
  · split_ifs <;> simp
  · split
    · simp
    · split
      · simp
      · split
        · simp
        · split <;> simp

/-- A built-in index is accepted, and yields its entry of the table. -/
theorem cfg_parseres_builtin (N : Nat) (hN : N < 8) (rx ry rd : Int) :
    cfg_parseres (some (Nat.repr N).toList) rx ry rd =
      (none, res_x.getD N 0, res_y.getD N 0, res_d.getD N 0) := by
  interval_cases N <;> rfl

/-- C24.  Whenever `cfg_parseres` returns `NULL`, the width it leaves is at
least 320, the height at least 200, and the colour depth is 8, 16, 24 or 32.
For the absent string they are 320, 200, 8.  For a string of which `sscanf`
converts one number, that number is an index `N` of 0..7 and they are the
`N`-th entries of the built-in table; for a string of which it converts two
numbers (the form WxH) they are these two numbers and the depth 8; for a string
of which it converts three numbers (the form WxH,D) they are these three
numbers. -/
theorem cfg_parseres_accepted (res : Option (List Char)) (rx ry rd x y d : Int)
    (h : cfg_parseres res rx ry rd = (none, x, y, d)) :
    320 ≤ x ∧ 200 ≤ y ∧ (d = 8 ∨ d = 16 ∨ d = 24 ∨ d = 32) ∧
    (res = none → x = 320 ∧ y = 200 ∧ d = 8) ∧
    (∀ r, res = some r →
      ((sscanf_res r rx ry rd).1 = 1 →
        ∃ N : Nat, N < 8 ∧ (sscanf_res r rx ry rd).2.1 = (N : Int) ∧
          x = res_x.getD N 0 ∧ y = res_y.getD N 0 ∧ d = res_d.getD N 0) ∧
      ((sscanf_res r rx ry rd).1 = 2 →
        x = (sscanf_res r rx ry rd).2.1 ∧ y = (sscanf_res r rx ry rd).2.2.1 ∧ d = 8) ∧
      ((sscanf_res r rx ry rd).1 = 3 →
        x = (sscanf_res r rx ry rd).2.1 ∧ y = (sscanf_res r rx ry rd).2.2.1 ∧
          d = (sscanf_res r rx ry rd).2.2.2) ∧
      ((sscanf_res r rx ry rd).1 = 1 ∨ (sscanf_res r rx ry rd).1 = 2 ∨
        (sscanf_res r rx ry rd).1 = 3)) := by
  cases res with
  | none =>
    simp only [cfg_parseres, Prod.mk.injEq, true_and] at h
    obtain ⟨rfl, rfl, rfl⟩ := h
    refine ⟨by decide, by decide, by decide, fun _ => by decide, fun r hr => by simp at hr⟩
  | some r =>
    refine ⟨?_, ?_, ?_, fun hc => by simp at hc, ?_⟩
    all_goals
      try (intro r' hr'; cases hr')
      have hcount := sscanf_res_count r rx ry rd
      simp only [cfg_parseres] at h
      generalize sscanf_res r rx ry rd = sc at h hcount ⊢
      obtain ⟨s, X, Y, Z⟩ := sc
      simp only at h hcount ⊢
      rcases hcount with rfl | rfl | rfl | rfl | rfl
      · simp at h
      · simp at h
      · simp only [show ¬ ((1 : Int) < 1 ∨ (1 : Int) > 3) by decide, if_false, if_true] at h
        split_ifs at h with h3 h4 <;>
          simp only [Prod.mk.injEq, reduceCtorEq, false_and, true_and] at h
        obtain ⟨rfl, rfl, rfl⟩ := h
        have hN : X.toNat < 8 := by
          have := h3.2
          simp only [NUM_RES, res_x, List.length_cons, List.length_nil] at this
          omega
        have hX : X = (X.toNat : Int) := by
          have := h3.1
          omega
        have ht := res_table_valid X.toNat hN
        first
          | exact ht.1
          | exact ht.2.1
          | exact ht.2.2
          | exact ⟨fun _ => ⟨X.toNat, hN, hX, rfl, rfl, rfl⟩, fun hc => by simp at hc,
              fun hc => by simp at hc, Or.inl rfl⟩
      · simp only [show ¬ ((2 : Int) < 1 ∨ (2 : Int) > 3) by decide,
          show ¬ ((2 : Int) = 1) by decide, if_false, if_true] at h
        split_ifs at h with h3 h4 h5 <;>
          simp only [Prod.mk.injEq, reduceCtorEq, false_and, true_and] at h
        obtain ⟨rfl, rfl, rfl⟩ := h
        omega
      · simp only [show ¬ ((3 : Int) < 1 ∨ (3 : Int) > 3) by decide,
          show ¬ ((3 : Int) = 1) by decide, show ¬ ((3 : Int) = 2) by decide,
          if_false, if_true] at h
        split_ifs at h with h3 h4 h5 <;>
          simp only [Prod.mk.injEq, reduceCtorEq, false_and, true_and] at h
        obtain ⟨rfl, rfl, rfl⟩ := h
        omega

/-- C24, at the four forms: the absent string, the index `3`, the string
`640x480` and the string `800x600,16`. -/
theorem cfg_parseres_accepted_witness :
    cfg_parseres none 0 0 0 = (none, 320, 200, 8) ∧
      cfg_parseres (some "3".toList) 0 0 0 = (none, 1024, 768, 8) ∧
      cfg_parseres (some "640x480".toList) 0 0 0 = (none, 640, 480, 8) ∧
      cfg_parseres (some "800x600,16".toList) 0 0 0 = (none, 800, 600, 16) ∧
      ((320 : Int) ≤ 640 ∧ (200 : Int) ≤ 480 ∧
        ((8 : Int) = 8 ∨ (8 : Int) = 16 ∨ (8 : Int) = 24 ∨ (8 : Int) = 32)) :=
  ⟨by decide, by decide, by decide, by decide,
    (cfg_parseres_accepted (some "640x480".toList) 0 0 0 640 480 8 (by decide)).1,
    (cfg_parseres_accepted (some "640x480".toList) 0 0 0 640 480 8 (by decide)).2.1,
    (cfg_parseres_accepted (some "640x480".toList) 0 0 0 640 480 8 (by decide)).2.2.1⟩

/-! ## The defaults come before the file -/

theorem cfg_setbind_slot_eq {κ D : Type} (tbl : List cfg_evtact_t) (b : cfg_kbd_t)
    (event : event_t κ D) (j : Fin 4) :
    cfg_setbind_slot tbl b event j =
      { event with bind := event.bind ++ default_slot_binding tbl b j } := by
  unfold cfg_setbind_slot default_slot_binding
  cases b.event_action j with
  | none => simp
  | some nm =>
    simp only
    by_cases h0 : nm = []
    · simp [h0]
    · by_cases h1 : cfg_get_evtact tbl nm < 0
      · have : ¬ 0 ≤ cfg_get_evtact tbl nm := by omega
        simp [h0, h1, this]
      · have : 0 ≤ cfg_get_evtact tbl nm := by omega
        simp [h0, h1, this, event_map, found_action]

theorem cfg_setbind_defaults_eq {κ D : Type} (tbl : List cfg_evtact_t)
    (binding : List cfg_kbd_t) (event : event_t κ D) :
    cfg_setbind_defaults tbl binding event =
      { event with bind := event.bind ++ default_bindings tbl binding } := by
  unfold cfg_setbind_defaults
  induction binding generalizing event with
  | nil => simp [default_bindings]
  | cons b rest ih =>
    rw [List.foldl_cons, ih]
    simp [cfg_setbind_row, cfg_setbind_slot_eq, default_bindings, List.append_assoc]

/-- What a line that does not fail adds to the bindings: the binding of a
`key action` line, and nothing for any other line. -/
theorem cfg_setbind_line_next_bind {κ D : Type} (e : env κ D) (tbl : List cfg_evtact_t)
    (m m' : Int) (ev ev' : event_t κ D) (buf : List Char)
    (h : cfg_setbind_line e tbl m ev buf = .next m' ev') :
    ev'.bind = ev.bind ++ line_binding tbl m buf := by
  by_cases hs : ∀ f ∈ (fields (chop buf)).take 4, f.length < 255
  · rw [cfg_setbind_line_of_short e tbl m ev buf hs] at h
    have hne := fields_ne_nil (chop buf)
    unfold line_binding
    generalize fields (chop buf) = F at h hne ⊢
    rcases F with _ | ⟨f1, _ | ⟨f2, _ | ⟨f3, r⟩⟩⟩
    · simp [cfg_setbind_dispatch] at h
      split_ifs at h <;> simp only [step.next.injEq, reduceCtorEq] at h <;>
        obtain ⟨-, rfl⟩ := h <;> simp
    · have h1 : f1 ≠ [] := hne f1 (by simp)
      simp [cfg_setbind_dispatch, h1] at h
      split_ifs at h <;> simp only [step.next.injEq, reduceCtorEq] at h <;>
        obtain ⟨-, rfl⟩ := h <;> simp
    · have h1 : f1 ≠ [] := hne f1 (by simp)
      have h2 : f2 ≠ [] := hne f2 (by simp)
      simp [cfg_setbind_dispatch, h1, h2] at h
      split_ifs at h <;> simp only [step.next.injEq, reduceCtorEq] at h <;>
        obtain ⟨-, rfl⟩ := h <;> simp [is_keyword, event_map, found_action, *]
      rw [if_pos (by omega)]
    · have h3 : f3 ≠ [] := hne f3 (by simp)
      simp [cfg_setbind_dispatch, h3] at h
      split_ifs at h
      simp only [step.next.injEq, reduceCtorEq] at h
      obtain ⟨-, rfl⟩ := h
      simp
  · rw [cfg_setbind_line_of_bad e tbl m ev buf hs] at h
    simp at h

/-- The bindings that the loop over the lines leaves: those it was entered
with, then the bindings of the lines before the first line that goes to
`fail`, which are all the lines when no line does. -/
theorem cfg_setbind_loop_bind {κ D : Type} (e : env κ D) (tbl : List cfg_evtact_t)
    (m : Int) (ev : event_t κ D) (bufs : List (List Char)) :
    ∃ n, n ≤ bufs.length ∧
      (cfg_setbind_loop e tbl m ev bufs).event.bind =
        ev.bind ++ file_bindings tbl m (bufs.take n) ∧
      ((∃ m' ev', cfg_setbind_loop e tbl m ev bufs = .next m' ev') ↔ n = bufs.length) := by
  induction bufs generalizing m ev with
  | nil => exact ⟨0, le_refl _, by simp [cfg_setbind_loop, step.event, file_bindings], by
      simp [cfg_setbind_loop]⟩
  | cons buf rest ih =>
    cases hl : cfg_setbind_line e tbl m ev buf with
    | next m1 ev1 =>
      obtain ⟨n, hn, hb, hiff⟩ := ih m1 ev1
      have hm := (cfg_setbind_line_map_change e tbl m m1 ev ev1 buf hl).1
      have hb1 := cfg_setbind_line_next_bind e tbl m m1 ev ev1 buf hl
      refine ⟨n + 1, by simp only [List.length_cons]; omega, ?_, ?_⟩
      · simp only [cfg_setbind_loop, hl, List.take_succ_cons, file_bindings]
        rw [hb, hb1, ← hm, List.append_assoc]
      · simp only [cfg_setbind_loop, hl, List.length_cons, add_left_inj]
        exact hiff
    | fail ev1 =>
      have hb1 := (cfg_setbind_line_fail_state e tbl m ev ev1 buf hl).1
      refine ⟨0, Nat.zero_le _, ?_, ?_⟩
      · simp [cfg_setbind_loop, hl, step.event, file_bindings, hb1]
      · simp [cfg_setbind_loop, hl]

/-- C27.  In every run of `cfg_setbind` the bindings of the default table come
first: without a file, the bindings it leaves are those it was called with
followed by the bindings of the default table, in table order, the slots 0..3
in order within each row; with a file, they are followed by the bindings of the
lines of the file, in file order, up to the first line that fails, which are
all the lines exactly when `cfg_setbind` returns 0.  So every binding of the
file is applied after every binding of the default table. -/
theorem defaults_then_file {κ D : Type} (e : env κ D) (tbl : List cfg_evtact_t)
    (binding : List cfg_kbd_t) (event : event_t κ D) (bufs : List (List Char)) :
    (cfg_setbind e tbl binding event .null).2.bind =
        event.bind ++ default_bindings tbl binding ∧
    ∃ n, n ≤ bufs.length ∧
      (cfg_setbind e tbl binding event (.lines bufs)).2.bind =
        event.bind ++ default_bindings tbl binding ++ file_bindings tbl 0 (bufs.take n) ∧
      ((cfg_setbind e tbl binding event (.lines bufs)).1 = .ret 0 ↔ n = bufs.length) := by
  refine ⟨by simp [cfg_setbind, cfg_setbind_defaults_eq], ?_⟩
  obtain ⟨n, hn, hb, hiff⟩ :=
    cfg_setbind_loop_bind e tbl 0 (cfg_setbind_defaults tbl binding event) bufs
  refine ⟨n, hn, ?_, ?_⟩
  · rw [cfg_setbind_defaults_eq] at hb
    simp only [cfg_setbind]
    rw [← hb, cfg_setbind_defaults_eq]
    cases cfg_setbind_loop e tbl 0
      { event with bind := event.bind ++ default_bindings tbl binding } bufs <;> rfl
  · rw [← hiff]
    simp only [cfg_setbind]
    cases cfg_setbind_loop e tbl 0 (cfg_setbind_defaults tbl binding event) bufs <;> simp

set_option maxRecDepth 100000 in
/-- The sample default table, then a file of three lines: the two bindings of
the table come first, then the binding of the first line under map 0 and that
of the third line under map 2. -/
theorem cfg_setbind_sample_bindings :
    (cfg_setbind sample_env sample_actions sample_binding sample_event
      (.lines ["C UP\n".toList, "MAP 2\n".toList, "A FIRE\n".toList])).2.bind =
      [⟨"A".toList, 0, 1, 255, 4⟩, ⟨"B".toList, 2, 2, 15, 1⟩,
       ⟨"C".toList, 0, 2, 15, 1⟩, ⟨"A".toList, 2, 1, 255, 4⟩] ∧
    default_bindings sample_actions sample_binding =
      [⟨"A".toList, 0, 1, 255, 4⟩, ⟨"B".toList, 2, 2, 15, 1⟩] ∧
    file_bindings sample_actions 0 ["C UP\n".toList, "MAP 2\n".toList, "A FIRE\n".toList] =
      [⟨"C".toList, 0, 2, 15, 1⟩, ⟨"A".toList, 2, 1, 255, 4⟩] := by
  decide

/-! ## Registered devices and their constructors -/

theorem mem_ite_iff {α : Type} (a : α) (p : Prop) [Decidable p] (L M : List α) :
    a ∈ (if p then L else M) ↔ (p ∧ a ∈ L) ∨ (¬ p ∧ a ∈ M) := by
  split_ifs with h <;> simp [h]

theorem cfg_init_ivoice_rate (w : init_env) (c : cfg_t) :
    (cfg_init_snd w (cfg_init_gui c)).audio_rate = (cfg_init_snd w c).audio_rate := by
  have g := cfg_init_gui_fields c
  unfold cfg_init_snd
  rw [g.2.2.1]
  split_ifs <;> simp [g.2.2.1]

/-- On a bus that `cfg_init` returns, every descriptor that `cfg_init` registers
itself has a device whose constructor was called and returned 0, with three
exceptions: the INTV2PC #0, unless `cfg_init` is compiled with
`DIRECT_INTV2PC` and the port is positive; the INTV2PC #1, unless it is
compiled with `DIRECT_INTV2PC`; the Intellivoice, unless the audio rate is
positive. -/
theorem registered_constructed (w : init_env) (c c' : cfg_t) (v : Int)
    (bus : List periph_desc) (h : cfg_init w c = .ret v c' bus) :
    ∀ d ∈ bus, ∀ k, constructor_of d.dev = some k →
      (d.dev = .i2pc0 → w.direct_intv2pc = true ∧ 0 < c.i2pc0_port) →
      (d.dev = .i2pc1 → w.direct_intv2pc = true) →
      (d.dev = .ivoice → 0 < c.audio_rate) →
      call_needed w c k = true ∧ w.fails k = false := by
  obtain ⟨-, hc, hb⟩ := cfg_init_ret w c c' v bus h
  subst hc
  have key : ∀ k, k ≠ .snd → call_needed w c k = true →
      call_needed w c k = true ∧ w.fails k = false := by
    intro k hk hn
    refine ⟨hn, ?_⟩
    cases hf : w.fails k with
    | false => rfl
    | true =>
      have := cfg_init_abort w c k hk hn hf
      rw [h] at this
      cases this
  intro d hd k hk h0 h1 hv
  rw [hb, cfg_init_register_eq] at hd
  simp only [List.mem_append, List.mem_cons, List.mem_singleton, List.not_mem_nil, or_false,
    mem_ite_iff, List.mem_map, and_false, false_or] at hd
  have e1 : (cfg_init_snd w (cfg_init_gui c)).ecs_enable = c.ecs_enable := by
    rw [(cfg_init_snd_fields w (cfg_init_gui c)).1, (cfg_init_gui_fields c).1]
  have e2 : (cfg_init_snd w (cfg_init_gui c)).ivc_enable = c.ivc_enable := by
    rw [(cfg_init_snd_fields w (cfg_init_gui c)).2.1, (cfg_init_gui_fields c).2.1]
  have e3 : (cfg_init_snd w (cfg_init_gui c)).i2pc0_port = c.i2pc0_port := by
    rw [(cfg_init_snd_fields w (cfg_init_gui c)).2.2.2.1, (cfg_init_gui_fields c).2.2.2.1]
  have e4 : (cfg_init_snd w (cfg_init_gui c)).i2pc1_port = c.i2pc1_port := by
    rw [(cfg_init_snd_fields w (cfg_init_gui c)).2.2.2.2.1, (cfg_init_gui_fields c).2.2.2.2.1]
  have e5 : (cfg_init_snd w (cfg_init_gui c)).cgc0_num = c.cgc0_num := by
    rw [(cfg_init_snd_fields w (cfg_init_gui c)).2.2.2.2.2.1,
      (cfg_init_gui_fields c).2.2.2.2.2.1]
  have e6 : (cfg_init_snd w (cfg_init_gui c)).cgc1_num = c.cgc1_num := by
    rw [(cfg_init_snd_fields w (cfg_init_gui c)).2.2.2.2.2.2.1,
      (cfg_init_gui_fields c).2.2.2.2.2.2.1]
  have e7 : (cfg_init_snd w (cfg_init_gui c)).debugging = (cfg_init_gui c).debugging :=
    (cfg_init_snd_fields w (cfg_init_gui c)).2.2.1
  have e9 : (cfg_init_snd w (cfg_init_gui c)).rate_ctl_pos = c.rate_ctl_pos :=
    (cfg_init_audio_rate w c).2
  simp only [e1, e2, e3, e4, e5, e6, e7, e9, cfg_init_ivoice_rate w c] at hd
  clear hb h e1 e2 e3 e4 e5 e6 e7 e9
  casesm* _ ∨ _, _ ∧ _, ∃ _, _
  all_goals subst_vars
  all_goals simp only [constructor_of, Option.some.injEq, reduceCtorEq] at hk
  all_goals subst hk
  all_goals first
    | exact key _ (by decide) rfl
    | (refine key _ (by decide) ?_
       simp only [call_needed, decide_eq_true_eq]
       omega)
    | (refine key _ (by decide) ?_
       simp [call_needed, *]
       done)
    | (have ha := (cfg_init_audio_rate w c).1
       rw [cfg_init_ivoice_rate w c] at ha
       have e8 : (cfg_init_snd w c).audio_rate = 0 ∨
           (cfg_init_snd w c).audio_rate = c.audio_rate := by
         unfold cfg_init_snd
         split_ifs <;> simp
       have := ha.1 ‹_›
       simp_all [call_needed])

/-- C25 fails for the INTV2PC #0: compiled without `DIRECT_INTV2PC`, with the
option `--i2pc0` (which sets `i2pc0_port` to 1) and every call succeeding,
`cfg_init` returns 1 with a bus that holds the descriptor `INTV2PC #0` at
0x01F0..0x01FF for `cfg->i2pc0`, although `pad_intv2pc_init`, the constructor of
that device, is never called. -/
theorem intv2pc_registered_not_constructed :
    (sample_init_env []).direct_intv2pc = false ∧
    cfg_init (sample_init_env []) { sample_cfg with i2pc0_port := 1 } =
      .ret 1 { sample_cfg with i2pc0_port := 1 }
        (cfg_init_register (sample_init_env []) { sample_cfg with i2pc0_port := 1 }) ∧
    (⟨.i2pc0, 0x01F0, 0x01FF, "INTV2PC #0"⟩ : periph_desc) ∈
      cfg_init_register (sample_init_env []) { sample_cfg with i2pc0_port := 1 } ∧
    constructor_of .i2pc0 = some .i2pc0 ∧
    call_needed (sample_init_env []) { sample_cfg with i2pc0_port := 1 } .i2pc0 = false := by
  decide

/-- The same for the Intellivoice when the audio rate is negative and `snd_init`
accepts it: `ivoice_init` is called for `audio_rate > 0`, the descriptor is
registered for `audio_rate != 0`. -/
theorem ivoice_registered_not_constructed :
    cfg_init (sample_init_env []) { sample_cfg with audio_rate := -1 } =
      .ret 1 { sample_cfg with audio_rate := -1 }
        (cfg_init_register (sample_init_env []) { sample_cfg with audio_rate := -1 }) ∧
    (⟨.ivoice, 0x0080, 0x0081, "Int. Voice"⟩ : periph_desc) ∈
      cfg_init_register (sample_init_env []) { sample_cfg with audio_rate := -1 } ∧
    constructor_of .ivoice = some .ivoice ∧
    call_needed (sample_init_env []) { sample_cfg with audio_rate := -1 } .ivoice = false := by
  decide

/-! ## The fatal path of `cfg_init` -/

set_option maxRecDepth 1000000 in
/-- C2, as it is written, fails for a long line: in the file of the two lines
`MAP 1` and `A`, 300 blanks, `UP`, the second line has the two fields `A`, no
keyword, and `UP`, an action of the registry, but it reaches the loop in two
pieces, the first of which is the unknown command `A`: `cfg_setbind` returns -1
and makes no binding. -/
theorem long_binding_line_counterexample :
    fields (chop ("A".toList ++ blanks 300 ++ "UP\n".toList)) = ["A".toList, "UP".toList] ∧
    is_keyword "A".toList = false ∧ (∃ en ∈ sample_actions, en.name = "UP".toList) ∧
    file_buffers ("MAP 1\n".toList ++ ("A".toList ++ blanks 300 ++ "UP\n".toList)) =
      ["MAP 1\n".toList, "A".toList ++ blanks 254, blanks 46 ++ "UP\n".toList] ∧
    cfg_setbind sample_env sample_actions [] sample_event
      (.lines (file_buffers
        ("MAP 1\n".toList ++ ("A".toList ++ blanks 300 ++ "UP\n".toList)))) =
      (.ret (-1), sample_event) := by
  decide

set_option maxRecDepth 1000000 in
/-- C4, as it is written, fails for a long line: the line of 252 blanks followed
by `MAPMAP FOO` has the two fields `MAPMAP`, no keyword, and `FOO`, no action of
the registry, but it reaches the loop as the two pieces `MAP` and `MAP FOO`,
both of which select map 0: `cfg_setbind` returns 0. -/
theorem long_unknown_action_counterexample :
    fields (chop (blanks 252 ++ "MAPMAP FOO\n".toList)) = ["MAPMAP".toList, "FOO".toList] ∧
    is_keyword "MAPMAP".toList = false ∧ (∀ en ∈ sample_actions, en.name ≠ "FOO".toList) ∧
    file_buffers (blanks 252 ++ "MAPMAP FOO\n".toList) =
      [blanks 252 ++ "MAP".toList, "MAP FOO\n".toList] ∧
    cfg_setbind sample_env sample_actions [] sample_event
      (.lines (file_buffers (blanks 252 ++ "MAPMAP FOO\n".toList))) =
      (.ret 0, sample_event) := by
  decide

set_option maxRecDepth 1000000 in
/-- C5, as it is written, fails for a long line: the line `MAP`, 300 blanks, `2`
is a `MAP n` line with `n = 2`, but it reaches the loop in two pieces, the
second of which is the unknown command `2`: `cfg_setbind` returns -1. -/
theorem long_map_line_counterexample :
    fields (chop ("MAP".toList ++ blanks 300 ++ "2\n".toList)) = ["MAP".toList, "2".toList] ∧
    atoi_value "2".toList = 2 ∧
    file_buffers ("MAP".toList ++ blanks 300 ++ "2\n".toList) =
      ["MAP".toList ++ blanks 252, blanks 48 ++ "2\n".toList] ∧
    cfg_setbind sample_env sample_actions [] sample_event
      (.lines (file_buffers ("MAP".toList ++ blanks 300 ++ "2\n".toList))) =
      (.ret (-1), sample_event) := by
  decide

set_option maxRecDepth 1000000 in
/-- After `MAP 2`, the line of 252 blanks followed by `MAPX UP` reaches the loop
as the two pieces `MAP` and `X UP`: the key `X` is bound under map 0, where the
whole line would bind `MAPX` under map 2. -/
theorem long_line_selected_map_example :
    fields (chop (blanks 252 ++ "MAPX UP\n".toList)) = ["MAPX".toList, "UP".toList] ∧
    file_buffers ("MAP 2\n".toList ++ (blanks 252 ++ "MAPX UP\n".toList)) =
      ["MAP 2\n".toList, blanks 252 ++ "MAP".toList, "X UP\n".toList] ∧
    cfg_setbind sample_env sample_actions [] sample_event
      (.lines (file_buffers ("MAP 2\n".toList ++ (blanks 252 ++ "MAPX UP\n".toList)))) =
      (.ret 0, { sample_event with bind := [⟨"X".toList, 0, 2, 15, 1⟩] }) := by
  decide

set_option maxRecDepth 1000000 in
/-- C7, as it is written, fails for a long line: the line `ADD_COMBO`, 246
blanks, `32 A B` is a four-field `ADD_COMBO` line with the id 32, but it reaches
the loop in two pieces, the first of which is `ADD_COMBO` alone: `event_combine`
is called with the id 0 and two empty names, and registers that chord in the
sample environment, before the second piece makes `cfg_setbind` return -1. -/
theorem long_add_combo_line_counterexample :
    fields (chop ("ADD_COMBO".toList ++ blanks 246 ++ "32 A B\n".toList)) =
      ["ADD_COMBO".toList, "32".toList, "A".toList, "B".toList] ∧
    atoi_value "32".toList = 32 ∧
    file_buffers ("ADD_COMBO".toList ++ blanks 246 ++ "32 A B\n".toList) =
      ["ADD_COMBO".toList ++ blanks 246, "32 A B\n".toList] ∧
    cfg_setbind sample_env sample_actions [] sample_event
      (.lines (file_buffers ("ADD_COMBO".toList ++ blanks 246 ++ "32 A B\n".toList))) =
      (.ret (-1), { sample_event with combo := [⟨0, [], []⟩] }) := by
  decide

set_option maxRecDepth 1000000 in
/-- C10, as it is written, fails for a long line: the line `A UP`, 251 blanks,
`B UP`, 251 blanks, `C UP` has six fields, but it reaches the loop as three
pieces of two fields each: `cfg_setbind` returns 0 and makes three bindings. -/
theorem long_six_field_line_counterexample :
    (fields (chop ("A UP".toList ++ blanks 251 ++ "B UP".toList ++ blanks 251 ++
      "C UP\n".toList))).length = 6 ∧
    file_buffers ("A UP".toList ++ blanks 251 ++ "B UP".toList ++ blanks 251 ++
      "C UP\n".toList) =
      ["A UP".toList ++ blanks 251, "B UP".toList ++ blanks 251, "C UP\n".toList] ∧
    cfg_setbind sample_env sample_actions [] sample_event
      (.lines (file_buffers ("A UP".toList ++ blanks 251 ++ "B UP".toList ++ blanks 251 ++
        "C UP\n".toList))) =
      (.ret 0, { sample_event with bind :=
        [⟨"A".toList, 0, 2, 15, 1⟩, ⟨"B".toList, 0, 2, 15, 1⟩, ⟨"C".toList, 0, 2, 15, 1⟩] }) := by
  decide

set_option maxRecDepth 1000000 in
/-- C11, as it is written, fails for a long line: the line of 252 blanks followed
by `MAPMAP` has the single field `MAPMAP`, which is no keyword, but it reaches
the loop as the two pieces `MAP` and `MAP`, both of which select map 0:
`cfg_setbind` returns 0. -/
theorem long_unknown_command_counterexample :
    fields (chop (blanks 252 ++ "MAPMAP\n".toList)) = ["MAPMAP".toList] ∧
    is_keyword "MAPMAP".toList = false ∧
    file_buffers (blanks 252 ++ "MAPMAP\n".toList) =
      [blanks 252 ++ "MAP".toList, "MAP\n".toList] ∧
    cfg_setbind sample_env sample_actions [] sample_event
      (.lines (file_buffers (blanks 252 ++ "MAPMAP\n".toList))) =
      (.ret 0, sample_event) := by
  decide

set_option maxRecDepth 1000000 in
/-- C16, as it is written, fails for a long line: in the file of the two lines
`B UP` and `A UP ;` followed by a comment of 300 letters, `cfg_setbind` fails at
line 2, whose second piece is the unknown command made of the last 51 letters
of the comment; but the first piece of line 2 has bound `A`, so that the
bindings are not those of the default table followed by line 1. -/
theorem long_comment_line_counterexample :
    file_buffers ("B UP\n".toList ++ ("A UP ;".toList ++ List.replicate 300 'x' ++
      "\n".toList)) =
      ["B UP\n".toList, "A UP ;".toList ++ List.replicate 249 'x',
        List.replicate 51 'x' ++ "\n".toList] ∧
    cfg_setbind sample_env sample_actions [] sample_event (.lines ["B UP\n".toList]) =
      (.ret 0, { sample_event with bind := [⟨"B".toList, 0, 2, 15, 1⟩] }) ∧
    cfg_setbind sample_env sample_actions [] sample_event
      (.lines (file_buffers ("B UP\n".toList ++ ("A UP ;".toList ++
        List.replicate 300 'x' ++ "\n".toList)))) =
      (.ret (-1), { sample_event with bind :=
        [⟨"B".toList, 0, 2, 15, 1⟩, ⟨"A".toList, 0, 2, 15, 1⟩] }) := by
  decide

/-! ## `COMBO_DELAY nan` -/

/-- C17 fails for a NaN: the line `COMBO_DELAY nan` passes the test
`ms < 0. || ms > 100.`, both comparisons being false on a NaN, so that
`cfg_setbind` returns 0 and leaves the NaN `ms / 1000.` in the coalesce window,
which was 0 before and is now outside 0 ≤ w ≤ 0.1. -/
theorem combo_delay_nan_counterexample :
    double.in_window (.num 0) = true ∧
    atof_sample "nan".toList = .nan ∧
    cfg_setbind ieee_env sample_actions [] ⟨[], [], .num 0⟩
      (.lines ["COMBO_DELAY nan\n".toList]) = (.ret 0, ⟨[], [], .nan⟩) ∧
    double.in_window .nan = false := by
  refine ⟨by simp [double.in_window], by decide, by decide, rfl⟩

/-! ## The fatal path of `cfg_init`, continued -/

/-- What `lzoe_fgets` reads and what it leaves make up the file. -/
theorem lzoe_fgets_split (n : Nat) (s : List Char) :
    (lzoe_fgets n s).1 ++ (lzoe_fgets n s).2 = s := by
  induction n generalizing s with
  | zero => simp [lzoe_fgets]
  | succ n ih =>
    cases s with
    | nil => simp [lzoe_fgets]
    | cons c s =>
      simp only [lzoe_fgets]
      split_ifs
      · simp
      · simpa using ih s

/-- With room for a character, `lzoe_fgets` reads at least one. -/
theorem lzoe_fgets_progress (n : Nat) (hn : 0 < n) (c : Char) (s : List Char) :
    (lzoe_fgets n (c :: s)).2.length < (c :: s).length := by
  obtain ⟨m, rfl⟩ : ∃ m, n = m + 1 := ⟨n - 1, by omega⟩
  have h := congrArg List.length (lzoe_fgets_split (m + 1) (c :: s))
  have h1 : 0 < (lzoe_fgets (m + 1) (c :: s)).1.length := by
    simp only [lzoe_fgets]
    split_ifs <;> simp
  simp only [List.length_append] at h
  omega

/-- The buffers do not depend on the bound on the number of calls, once it is
at least the length of the file. -/
theorem file_buffers_from_fuel (fuel : Nat) (s : List Char) (h : s.length ≤ fuel) :
    file_buffers_from fuel s = file_buffers s := by
  unfold file_buffers
  induction fuel using Nat.strong_induction_on generalizing s with
  | _ fuel ih =>
    cases s with
    | nil => cases fuel <;> simp [file_buffers_from]
    | cons c s =>
      cases fuel with
      | zero => simp at h
      | succ fuel =>
        have hp := lzoe_fgets_progress 255 (by decide) c s
        simp only [List.length_cons, file_buffers_from]
        simp only [List.length_cons] at h hp
        rw [ih fuel (by omega) _ (by omega), ih s.length (by omega) _ (by omega)]

/-- Reading stops inside a part of the file that ends in a newline. -/
theorem lzoe_fgets_append (n : Nat) (a b : List Char) :
    lzoe_fgets n (a ++ '\n' :: b) =
      ((lzoe_fgets n (a ++ ['\n'])).1, (lzoe_fgets n (a ++ ['\n'])).2 ++ b) := by
  induction a generalizing n with
  | nil =>
    cases n with
    | zero => simp [lzoe_fgets]
    | succ n => simp [lzoe_fgets]
  | cons c a ih =>
    cases n with
    | zero => simp [lzoe_fgets]
    | succ n =>
      simp only [List.cons_append, lzoe_fgets]
      split_ifs
      · simp
      · have := ih n
        simp only [List.append_eq] at this ⊢
        rw [this]

/-- What `lzoe_fgets` leaves of a part that ends in a newline is empty or ends
in a newline. -/
theorem lzoe_fgets_rest (n : Nat) (a : List Char) :
    (lzoe_fgets n (a ++ ['\n'])).2 = [] ∨
      ∃ a', (lzoe_fgets n (a ++ ['\n'])).2 = a' ++ ['\n'] := by
  have h := lzoe_fgets_split n (a ++ ['\n'])
  generalize (lzoe_fgets n (a ++ ['\n'])).1 = x at h
  generalize (lzoe_fgets n (a ++ ['\n'])).2 = y at h
  rcases List.eq_nil_or_concat y with hy | ⟨y', d, hy⟩
  · exact Or.inl hy
  · right
    subst hy
    rw [List.concat_eq_append] at h ⊢
    rw [← List.append_assoc] at h
    have := List.append_inj_right' h rfl
    simp only [List.cons.injEq, and_true] at this
    exact ⟨y', by rw [this]⟩

/-- The buffers of a file that continues after a newline are the buffers of the
part up to that newline, then those of the rest. -/
theorem file_buffers_append (a b : List Char) :
    file_buffers (a ++ '\n' :: b) = file_buffers (a ++ ['\n']) ++ file_buffers b := by
  generalize hn : a.length = n
  induction n using Nat.strong_induction_on generalizing a with
  | _ n ih =>
    have e1 : file_buffers (a ++ '\n' :: b) =
        (lzoe_fgets 255 (a ++ '\n' :: b)).1 :: file_buffers (lzoe_fgets 255 (a ++ '\n' :: b)).2 := by
      cases hl : a ++ '\n' :: b with
      | nil => simp at hl
      | cons c s =>
        have hp := lzoe_fgets_progress 255 (by decide) c s
        conv_lhs => unfold file_buffers
        simp only [List.length_cons, file_buffers_from]
        simp only [List.length_cons] at hp
        rw [file_buffers_from_fuel _ _ (by omega)]
    have e2 : file_buffers (a ++ ['\n']) =
        (lzoe_fgets 255 (a ++ ['\n'])).1 :: file_buffers (lzoe_fgets 255 (a ++ ['\n'])).2 := by
      cases hl : a ++ ['\n'] with
      | nil => simp at hl
      | cons c s =>
        have hp := lzoe_fgets_progress 255 (by decide) c s
        conv_lhs => unfold file_buffers
        simp only [List.length_cons, file_buffers_from]
        simp only [List.length_cons] at hp
        rw [file_buffers_from_fuel _ _ (by omega)]
    rw [e1, e2, lzoe_fgets_append]
    simp only [List.cons_append, List.cons.injEq, true_and]
    rcases lzoe_fgets_rest 255 a with h0 | ⟨a', ha'⟩
    · rw [h0]
      simp [file_buffers, file_buffers_from]
    · rw [ha']
      have hlen : a'.length < n := by
        have hs := congrArg List.length (lzoe_fgets_split 255 (a ++ ['\n']))
        have h1 : 0 < (lzoe_fgets 255 (a ++ ['\n'])).1.length := by
          cases hl : a ++ ['\n'] with
          | nil => simp at hl
          | cons c s =>
            show 0 < (lzoe_fgets (254 + 1) (c :: s)).1.length
            simp only [lzoe_fgets]
            split_ifs <;> simp
        rw [ha'] at hs
        simp only [List.length_append, List.length_singleton] at hs
        omega
      have := ih a'.length hlen a' rfl
      simpa using this

/-- A line of at most 255 characters, its newline counted, is one buffer of
`lzoe_fgets`, wherever it stands in the file: after any lines, of any length,
and before any rest. -/
theorem file_buffers_short_line (a l b : List Char) (ha : a = [] ∨ ∃ a', a = a' ++ ['\n'])
    (h1 : '\n' ∉ l) (h2 : l.length ≤ 254) :
    file_buffers (a ++ (l ++ '\n' :: b)) =
      file_buffers a ++ (l ++ ['\n']) :: file_buffers b := by
  have hl : file_buffers (l ++ '\n' :: b) = (l ++ ['\n']) :: file_buffers b := by
    rw [file_buffers_append]
    have := file_buffers_lines [l] (by simpa using ⟨h1, h2⟩)
    simp only [List.map_cons, List.map_nil, List.flatten_cons, List.flatten_nil,
      List.append_nil] at this
    rw [this]
    rfl
  rcases ha with rfl | ⟨a', rfl⟩
  · simpa [file_buffers, file_buffers_from] using hl
  · rw [List.append_assoc, List.singleton_append, file_buffers_append, hl]

end Cfg
